import Mathlib

/-!
# Verification of the indexable skip list (`pkg/skiplist`)

Shallow embedding of the Go skip list of `andremueller/goskiplist`
(`pkg/skiplist/node.go` and `pkg/skiplist/skiplist.go`, current version).

Pointers are modelled by node identifiers (natural numbers) indexing a store
`nodes : List Node`; the head sentinel is node 0.  Keys and values are
instantiated at `Int` (the Go code is generic over `cmp.Ordered` keys).
The Go `int` fields (`dist` entries, `count`, positions) are modelled as `Int`.
Traversal loops over the pointer structure are given explicit fuel
`s.nodes.length`, which suffices in every reachable state since each advance
moves to a distinct allocated node.  The random level of an insertion is an
external draw of the pluggable Level Policy, so `Set` takes the drawn level as
an explicit parameter.
-/

namespace GoSkipList

/-- `Node` from `node.go`: key, value, forward references `next` and distance
counters `dist` (one pair per level the node participates in). -/
structure Node where
  key : Int
  value : Int
  next : List (Option Nat)
  dist : List Int
deriving Repr, DecidableEq

/-- `Node.Level()`: the length of the forward-reference slice. -/
def Node.level (n : Node) : Nat := n.next.length

/-- Read `n.next[i]` (out-of-range reads default to `none`). -/
def Node.nextAt (n : Node) (i : Nat) : Option Nat := n.next.getD i none

/-- Read `n.dist[i]` (out-of-range reads default to `0`). -/
def Node.distAt (n : Node) (i : Nat) : Int := n.dist.getD i 0

/-- `Node.Next()` from `node.go`: the level-0 forward reference behind a
level check, `nil` on a level-0 node. -/
def Node.Next (n : Node) : Option Nat :=
  if n.next.length > 0 then n.next.getD 0 none else none

/-- Write `n.next[i]`. -/
def Node.setNext (n : Node) (i : Nat) (y : Option Nat) : Node :=
  { n with next := n.next.set i y }

/-- Write `n.dist[i]`. -/
def Node.setDist (n : Node) (i : Nat) (d : Int) : Node :=
  { n with dist := n.dist.set i d }

/-- `newNode` from `node.go` (the capacity argument only affects Go slice
reallocation and is immaterial here): `level` slots, zero-initialized. -/
def newNode (key value : Int) (level : Nat) : Node :=
  { key := key, value := value
    next := List.replicate level none
    dist := List.replicate level 0 }

/-- `Node.extendLevel` from `node.go`: grow `next`/`dist` to `newLevel`,
new slots set to `nil` / `0`; no-op if not larger. -/
def Node.extendLevel (n : Node) (newLevel : Nat) : Node :=
  if n.level < newLevel then
    { n with next := n.next ++ List.replicate (newLevel - n.level) none
             dist := n.dist ++ List.replicate (newLevel - n.level) 0 }
  else n

/-- `Node.shrinkLevel` from `node.go`: truncate `next`/`dist` to `newLevel`;
no-op if not smaller. -/
def Node.shrinkLevel (n : Node) (newLevel : Nat) : Node :=
  if newLevel < n.level then
    { n with next := n.next.take newLevel, dist := n.dist.take newLevel }
  else n

/-- The skip list state: the node store (head sentinel at id 0) and the
element count.  The configuration fields (`p`, `maxLevel`, `levelFunc`) do not
influence the core operations once the level draw is made explicit; they are
modelled separately for the construction claims. -/
structure SkipList where
  nodes : List Node
  count : Int
deriving Repr, DecidableEq

/-- Dereference a node id. -/
def SkipList.nodeAt (s : SkipList) (x : Nat) : Node := s.nodes.getD x (newNode 0 0 0)

/-- Overwrite the node stored at id `x`. -/
def SkipList.setNode (s : SkipList) (x : Nat) (n : Node) : SkipList :=
  { s with nodes := s.nodes.set x n }

/-- `SkipList.Level()`: the head sentinel's level. -/
def SkipList.Level (s : SkipList) : Nat := (s.nodeAt 0).level

/-- `SkipList.Size()`. -/
def SkipList.Size (s : SkipList) : Int := s.count

/-- `SkipList.First()`: the head's level-0 forward reference. -/
def SkipList.First (s : SkipList) : Option Nat := (s.nodeAt 0).Next

/-- `NewSkipList` creates the empty list: head sentinel with level 0, count 0. -/
def emptySL : SkipList := { nodes := [newNode 0 0 0], count := 0 }

/-- The inner `for x.next[i] != nil && x.next[i].key < key` advance loop of
the key searches (`Set`/`Get`/`Remove`), accumulating `pos += x.dist[i]`. -/
def searchLevel (s : SkipList) (key : Int) (i : Nat) : Nat → Nat → Int → Nat × Int
  | 0, x, pos => (x, pos)
  | fuel + 1, x, pos =>
    match (s.nodeAt x).nextAt i with
    | some y =>
      if (s.nodeAt y).key < key then
        searchLevel s key i fuel y (pos + (s.nodeAt x).distAt i)
      else (x, pos)
    | none => (x, pos)

/-- The outer descent of `Set`/`Remove`, recording `update[i]`/`updatePos[i]`
for each level: entry `i` of the result is `(update[i], updatePos[i])`.
The first argument counts the levels still to process. -/
def searchUpd (s : SkipList) (key : Int) : Nat → Nat → Int → List (Nat × Int)
  | 0, _, _ => []
  | i + 1, x, pos =>
    let c := searchLevel s key i s.nodes.length x pos
    searchUpd s key i c.1 c.2 ++ [c]

/-- The outer descent of `Get` (no update vector, just the final cursor). -/
def descend (s : SkipList) (key : Int) : Nat → Nat → Int → Nat × Int
  | 0, x, pos => (x, pos)
  | i + 1, x, pos =>
    let c := searchLevel s key i s.nodes.length x pos
    descend s key i c.1 c.2

/-- `InvalidPos` from `skiplist.go`. -/
def InvalidPos : Int := -1

/-- `SkipList.Get`: key search; on a level-0 match return the node and
`pos + 1`, otherwise `(nil, InvalidPos)`.  No mutation. -/
def SkipList.Get (s : SkipList) (key : Int) : Option Nat × Int :=
  let c := descend s key s.Level 0 (-1)
  let x := c.1
  let pos := c.2
  if (s.nodeAt x).next.length > 0 then
    match (s.nodeAt x).nextAt 0 with
    | some y => if (s.nodeAt y).key = key then (some y, pos + 1) else (none, InvalidPos)
    | none => (none, InvalidPos)
  else (none, InvalidPos)

/-- The inner advance loop of `GetByPos`:
`for x.next[i] != nil && pos+x.dist[i] <= k`. -/
def posLevel (s : SkipList) (k : Int) (i : Nat) : Nat → Nat → Int → Nat × Int
  | 0, x, pos => (x, pos)
  | fuel + 1, x, pos =>
    match (s.nodeAt x).nextAt i with
    | some y =>
      if pos + (s.nodeAt x).distAt i ≤ k then
        posLevel s k i fuel y (pos + (s.nodeAt x).distAt i)
      else (x, pos)
    | none => (x, pos)

/-- The level descent of `GetByPos`. -/
def posDescend (s : SkipList) (k : Int) : Nat → Nat → Int → Nat × Int
  | 0, x, pos => (x, pos)
  | i + 1, x, pos =>
    let c := posLevel s k i s.nodes.length x pos
    posDescend s k i c.1 c.2

/-- `SkipList.GetByPos`: out-of-range positions yield `nil`; otherwise descend
by distances and return the node landed on. -/
def SkipList.GetByPos (s : SkipList) (k : Int) : Option Nat :=
  if k < 0 ∨ k ≥ s.count then none
  else some (posDescend s k s.Level 0 (-1)).1

/-- The inner advance loop of `RemoveByPos`:
`for x.next[i] != nil && pos+x.dist[i] < k` (strict). -/
def posLevelStrict (s : SkipList) (k : Int) (i : Nat) : Nat → Nat → Int → Nat × Int
  | 0, x, pos => (x, pos)
  | fuel + 1, x, pos =>
    match (s.nodeAt x).nextAt i with
    | some y =>
      if pos + (s.nodeAt x).distAt i < k then
        posLevelStrict s k i fuel y (pos + (s.nodeAt x).distAt i)
      else (x, pos)
    | none => (x, pos)

/-- The level descent of `RemoveByPos`, recording `update[i]`/`updatePos[i]`. -/
def posSearchUpd (s : SkipList) (k : Int) : Nat → Nat → Int → List (Nat × Int)
  | 0, _, _ => []
  | i + 1, x, pos =>
    let c := posLevelStrict s k i s.nodes.length x pos
    posSearchUpd s k i c.1 c.2 ++ [c]

/-- Write `x.next[i]` in the store. -/
def writeNext (s : SkipList) (x i : Nat) (y : Option Nat) : SkipList :=
  s.setNode x ((s.nodeAt x).setNext i y)

/-- Write `x.dist[i]` in the store. -/
def writeDist (s : SkipList) (x i : Nat) (d : Int) : SkipList :=
  s.setNode x ((s.nodeAt x).setDist i d)

/-- One iteration of the splice loop of `Set` at level `i`:
above the new tower's level only `update[i].dist[i]++`; below it, relink
`update[i] → x → old successor` and redistribute the distances with
`delta = pos - updatePos[i]` (the reads of `update[i]`'s old slot values are
captured in `u` before the writes, as the Go statement order does). -/
def spliceStep (pos : Int) (newLevel : Nat) (xid : Nat) (t : SkipList)
    (ui : Nat × Int) (i : Nat) : SkipList :=
  if newLevel ≤ i then
    writeDist t ui.1 i ((t.nodeAt ui.1).distAt i + 1)
  else
    let u := t.nodeAt ui.1
    let delta := pos - ui.2
    writeDist
      (writeDist (writeNext (writeNext t xid i (u.nextAt i)) ui.1 i (some xid))
        xid i (u.distAt i - delta))
      ui.1 i (delta + 1)

/-- The head-extension stage of `Set` when the drawn level exceeds the current
height: extend the head's slots, then set `head.dist[i] = Size() + 1` for each
new top level `i`. -/
def setExtend (s : SkipList) (newLevel : Nat) : SkipList :=
  if s.Level < newLevel then
    let oldLevel := s.Level
    let s' := s.setNode 0 ((s.nodeAt 0).extendLevel newLevel)
    (List.range' oldLevel (newLevel - oldLevel)).foldl
      (fun t i => writeDist t 0 i (s.count + 1)) s'
  else s

/-- The update vector after the extension stage: entries `(head, -1)` are
appended for the new top levels. -/
def extendUpd (upd : List (Nat × Int)) (oldLevel newLevel : Nat) : List (Nat × Int) :=
  if oldLevel < newLevel then upd ++ List.replicate (newLevel - oldLevel) (0, -1) else upd

/-- The splice loop of `Set` over levels `0 .. m-1`. -/
def spliceRange (t : SkipList) (upd : List (Nat × Int)) (pos : Int)
    (newLevel : Nat) (xid : Nat) (m : Nat) : SkipList :=
  (List.range m).foldl (fun t' i => spliceStep pos newLevel xid t' (upd.getD i (0, -1)) i) t

/-- The whole splice loop of `Set` (`for i := 0; i < s.Level(); i++`). -/
def spliceAll (t : SkipList) (upd : List (Nat × Int)) (pos : Int)
    (newLevel : Nat) (xid : Nat) : SkipList :=
  spliceRange t upd pos newLevel xid t.Level

/-- The non-override tail of `Set`: extend the head if needed, allocate the
new tower, splice it in at every level, and bump the count.  Returns the new
state and `(new tower, pos + 1, true)`. -/
def setInsert (s : SkipList) (upd : List (Nat × Int)) (pos : Int) (newLevel : Nat)
    (key value : Int) : SkipList × (Option Nat × Int × Bool) :=
  let s1 := setExtend s newLevel
  let upd1 := extendUpd upd s.Level newLevel
  let xid := s1.nodes.length
  let s2 := { s1 with nodes := s1.nodes ++ [newNode key value newLevel] }
  let s3 := spliceAll s2 upd1 pos newLevel xid
  ({ s3 with count := s3.count + 1 }, (some xid, pos + 1, true))

/-- `SkipList.Set` with the drawn level `newLevel` made explicit.  Returns the
new state together with the Go results `(node, position, inserted)`. -/
def SkipList.Set (s : SkipList) (newLevel : Nat) (key value : Int) :
    SkipList × (Option Nat × Int × Bool) :=
  let upd := searchUpd s key s.Level 0 (-1)
  let c := upd.getD 0 (0, -1)
  let x := c.1
  let pos := c.2
  if (s.nodeAt x).next.length > 0 then
    match (s.nodeAt x).nextAt 0 with
    | some y =>
      if (s.nodeAt y).key = key then
        -- key already exists: override value
        (s.setNode y { s.nodeAt y with value := value }, (some y, pos, false))
      else setInsert s upd pos newLevel key value
    | none => setInsert s upd pos newLevel key value
  else setInsert s upd pos newLevel key value

/-- One iteration of the unlink loop of `Remove`/`RemoveByPos` at level `i`:
if `update[i].next[i] == x` relink past `x` merging the spans, else decrement
`update[i].dist[i]`. -/
def unlinkStep (y : Nat) (t' : SkipList) (ui : Nat) (i : Nat) : SkipList :=
  if (t'.nodeAt ui).nextAt i = some y then
    let t1 := writeNext t' ui i ((t'.nodeAt y).nextAt i)
    writeDist t1 ui i ((t1.nodeAt ui).distAt i + ((t'.nodeAt y).distAt i - 1))
  else
    writeDist t' ui i ((t'.nodeAt ui).distAt i - 1)

/-- The unlink loop over levels `0 .. m-1`. -/
def unlinkRange (t : SkipList) (upd : List (Nat × Int)) (y : Nat) (m : Nat) : SkipList :=
  (List.range m).foldl (fun t' i => unlinkStep y t' (upd.getD i (0, -1)).1 i) t

/-- The unlink loop shared by `Remove` and `RemoveByPos`
(`for i := 0; i < s.Level(); i++`). -/
def unlinkAll (t : SkipList) (upd : List (Nat × Int)) (y : Nat) : SkipList :=
  unlinkRange t upd y t.Level

/-- The `for newLevel > 0 && s.head.next[newLevel-1] == nil { newLevel-- }`
loop adapting the height after a removal. -/
def shrinkLoop (s : SkipList) : Nat → Nat
  | 0 => 0
  | n + 1 => if (s.nodeAt 0).nextAt n = none then shrinkLoop s n else n + 1

/-- The tail stage of both removal operations: unlink, shrink the head, and
decrement the count. -/
def removeFinish (s : SkipList) (upd : List (Nat × Int)) (y : Nat) : SkipList :=
  let s1 := unlinkAll s upd y
  let newLv := shrinkLoop s1 s1.Level
  let s2 := s1.setNode 0 ((s1.nodeAt 0).shrinkLevel newLv)
  { s2 with count := s2.count - 1 }

/-- `SkipList.Remove`: key search; on a match unlink the node, adapt the
height and decrement the count, returning the node and its position;
otherwise `(nil, InvalidPos)` with the state untouched. -/
def SkipList.Remove (s : SkipList) (key : Int) : SkipList × (Option Nat × Int) :=
  let upd := searchUpd s key s.Level 0 (-1)
  let c := upd.getD 0 (0, -1)
  let x := c.1
  let pos := c.2
  if (s.nodeAt x).next.length > 0 then
    match (s.nodeAt x).nextAt 0 with
    | some y =>
      if (s.nodeAt y).key = key then
        (removeFinish s upd y, (some y, pos + 1))
      else (s, (none, InvalidPos))
    | none => (s, (none, InvalidPos))
  else (s, (none, InvalidPos))

/-- `SkipList.RemoveByPos`: out-of-range positions yield `nil`; otherwise a
strict position descent finds the predecessor, the level-0 successor is
unlinked exactly as in `Remove`. -/
def SkipList.RemoveByPos (s : SkipList) (k : Int) : SkipList × Option Nat :=
  if k < 0 ∨ k ≥ s.count then (s, none)
  else
    let upd := posSearchUpd s k s.Level 0 (-1)
    let c := upd.getD 0 (0, -1)
    let x := c.1
    match (s.nodeAt x).Next with
    | some y => (removeFinish s upd y, some y)
    | none => (s, none)

/-! ## Construction-time configuration (`NewSkipList`, options) -/

/-- `MaxLevel` hard ceiling from `skiplist.go`. -/
def MaxLevel : Int := 512

/-- `DefaultMaxLevel` from `skiplist.go`. -/
def DefaultMaxLevel : Int := 64

/-- `DefaultProbability` from `skiplist.go` (0.5). -/
def DefaultProbability : ℚ := 1/2

/-- The configuration fields of the Go `SkipList` struct that the options
validate and store. -/
structure Config where
  p : ℚ
  maxLevel : Int
deriving Repr, DecidableEq

/-- The defaults installed by `NewSkipList` before options run. -/
def defaultConfig : Config := { p := DefaultProbability, maxLevel := DefaultMaxLevel }

/-- `WithMaxLevel`: `log.Panic` (modelled as `none`) when out of
`[1, MaxLevel]`, otherwise an option storing the value untouched. -/
def WithMaxLevel (maxLevel : Int) : Option (Config → Config) :=
  if maxLevel < 1 ∨ maxLevel > MaxLevel then none
  else some (fun c => { c with maxLevel := maxLevel })

/-- `WithProbability`: `log.Panic` (modelled as `none`) when out of
`[0.01, 0.99]`, otherwise an option storing the value untouched. -/
def WithProbability (prob : ℚ) : Option (Config → Config) :=
  if prob < 1/100 ∨ prob > 99/100 then none
  else some (fun c => { c with p := prob })

/-- `NewSkipList`: apply the options to the default configuration and create
the empty list (head sentinel of level 0, count 0). -/
def NewSkipList (options : List (Config → Config)) : Config × SkipList :=
  (options.foldl (fun c opt => opt c) defaultConfig, emptySL)

/-! ## Concrete runs used by the scenario claims -/

/-- The textbook scenario's `(forced level, key)` insertions, in order. -/
def scenarioOps : List (Nat × Int) :=
  [(1, 3), (4, 6), (1, 7), (2, 9), (1, 12), (2, 17), (1, 19), (1, 21), (3, 25), (1, 26)]

/-- Run a list of `(level, key)` insertions, each value equal to its key. -/
def runSets (ops : List (Nat × Int)) (s : SkipList) : SkipList :=
  ops.foldl (fun t p => (t.Set p.1 p.2 p.2).1) s

/-- The positions returned by each `Set` call of a `(level, key)` run. -/
def runSetRanks : List (Nat × Int) → SkipList → List Int
  | [], _ => []
  | p :: rest, s =>
    let r := s.Set p.1 p.2 p.2
    r.2.2.1 :: runSetRanks rest r.1

/-- The state after the ten scenario insertions. -/
def scenarioSL : SkipList := runSets scenarioOps emptySL

/-! ## Abstraction: the level-0 spine, ranks and the structural invariant -/

/-- Follow `Node.Next` links from `x` for at most `fuel` steps. -/
def spineAux (s : SkipList) : Nat → Nat → List Nat
  | 0, x => [x]
  | f + 1, x =>
    match (s.nodeAt x).Next with
    | none => [x]
    | some y => x :: spineAux s f y

/-- The level-0 spine: the head sentinel followed by the `Node.Next` chain
(the ascending iteration).  The rank of the tower at spine position `j` is
`j - 1`; the head sentinel (position 0) has rank `-1`. -/
def spine (s : SkipList) : List Nat := spineAux s s.nodes.length 0

/-- The ascending iteration started at `First()` and continued via `Next()`:
the spine without the head sentinel. -/
def iterTowers (s : SkipList) : List Nat := (spine s).tail

/-- The maximum level over a list of towers. -/
def maxLevelOver (s : SkipList) (l : List Nat) : Nat :=
  (l.map (fun a => (s.nodeAt a).level)).foldr max 0

/-- The maximum level among the current towers of the list. -/
def maxTowerLevel (s : SkipList) : Nat := maxLevelOver s (iterTowers s)

/-- Scan positions `m, m+1, ...` of `L` for the first one whose tower's level
exceeds `i`; returns `L.length` when there is none (the virtual end). -/
def succScan (s : SkipList) (L : List Nat) (i : Nat) : Nat → Nat → Nat
  | 0, m => m
  | f + 1, m =>
    if m < L.length then
      (if i < (s.nodeAt (L.getD m 0)).level then m else succScan s L i f (m + 1))
    else m

/-- The spine position of the level-`i` successor of the tower at spine
position `j`: the first later position whose tower participates in level `i`,
or `L.length` for the virtual end. -/
def succNat (s : SkipList) (L : List Nat) (i j : Nat) : Nat :=
  succScan s L i (L.length - j) (j + 1)

/-- Position `j` of `L` is on the level-`i` chain (the head always is). -/
def ChainMem (s : SkipList) (L : List Nat) (i j : Nat) : Prop :=
  j < L.length ∧ (j = 0 ∨ i < (s.nodeAt (L.getD j 0)).level)

/-- `L` is the level-0 chain of `s`: starts at the head sentinel, consecutive
positions are `Node.Next`-linked, and the last tower has no successor. -/
def SpineOk (s : SkipList) (L : List Nat) : Prop :=
  L ≠ [] ∧ L.getD 0 0 = 0 ∧
  (∀ j, j < L.length - 1 → (s.nodeAt (L.getD j 0)).Next = some (L.getD (j + 1) 0)) ∧
  (s.nodeAt (L.getD (L.length - 1) 0)).Next = none

/-- Every spine entry is an allocated node id. -/
def ValidIds (s : SkipList) (L : List Nat) : Prop :=
  ∀ j, j < L.length → L.getD j 0 < s.nodes.length

/-- The element count is the number of real towers. -/
def CountOk (s : SkipList) (L : List Nat) : Prop := s.count = (L.length : Int) - 1

/-- Every real tower has level between 1 and the head's level. -/
def LevelsOk (s : SkipList) (L : List Nat) : Prop :=
  ∀ j, j < L.length → 1 ≤ j →
    1 ≤ (s.nodeAt (L.getD j 0)).level ∧ (s.nodeAt (L.getD j 0)).level ≤ s.Level

/-- The head's level is the maximum level among the current towers. -/
def HeadMax (s : SkipList) (L : List Nat) : Prop := s.Level = maxLevelOver s L.tail

/-- Keys are strictly ascending along the spine (head excluded). -/
def SortedKeys (s : SkipList) (L : List Nat) : Prop :=
  ∀ j, j < L.length → ∀ j', j' < L.length → 1 ≤ j → j < j' →
    (s.nodeAt (L.getD j 0)).key < (s.nodeAt (L.getD j' 0)).key

/-- `dist` and `next` have equal length on every tower of the spine. -/
def DistLen (s : SkipList) (L : List Nat) : Prop :=
  ∀ j, j < L.length → (s.nodeAt (L.getD j 0)).dist.length = (s.nodeAt (L.getD j 0)).level

/-- The central structural property: at every level `i` a tower participates
in, its forward reference is the next spine tower participating in level `i`
(or `nil` at the virtual end) and its distance counter is exactly the spine
distance (= rank difference) to it. -/
def LinksOk (s : SkipList) (L : List Nat) : Prop :=
  ∀ j, j < L.length → ∀ i, i < (s.nodeAt (L.getD j 0)).level →
    (s.nodeAt (L.getD j 0)).distAt i = (succNat s L i j : Int) - (j : Int) ∧
    (s.nodeAt (L.getD j 0)).nextAt i =
      (if succNat s L i j < L.length then some (L.getD (succNat s L i j) 0) else none)

/-- The full invariant relative to a candidate spine `L`. -/
def InvAt (s : SkipList) (L : List Nat) : Prop :=
  SpineOk s L ∧ ValidIds s L ∧ L.Nodup ∧ CountOk s L ∧ LevelsOk s L ∧
  HeadMax s L ∧ SortedKeys s L ∧ DistLen s L ∧ LinksOk s L

/-- The full invariant (with the computed spine). -/
def Inv (s : SkipList) : Prop := InvAt s (spine s)

instance (s : SkipList) (L : List Nat) : Decidable (SpineOk s L) := by
  unfold SpineOk; infer_instance

instance (s : SkipList) (L : List Nat) : Decidable (ValidIds s L) := by
  unfold ValidIds; infer_instance

instance (s : SkipList) (L : List Nat) : Decidable (CountOk s L) := by
  unfold CountOk; infer_instance

instance (s : SkipList) (L : List Nat) : Decidable (LevelsOk s L) := by
  unfold LevelsOk; infer_instance

instance (s : SkipList) (L : List Nat) : Decidable (HeadMax s L) := by
  unfold HeadMax; infer_instance

instance (s : SkipList) (L : List Nat) : Decidable (SortedKeys s L) := by
  unfold SortedKeys; infer_instance

instance (s : SkipList) (L : List Nat) : Decidable (DistLen s L) := by
  unfold DistLen; infer_instance

instance (s : SkipList) (L : List Nat) : Decidable (LinksOk s L) := by
  unfold LinksOk; infer_instance

instance (s : SkipList) (L : List Nat) : Decidable (InvAt s L) := by
  unfold InvAt; infer_instance

instance (s : SkipList) : Decidable (Inv s) := by
  unfold Inv; infer_instance

instance (s : SkipList) (L : List Nat) (i j : Nat) : Decidable (ChainMem s L i j) := by
  unfold ChainMem; infer_instance

/-! ## Operation sequences and reachability -/

/-- One public mutating operation; `set` carries the level drawn by the Level
Policy for the (potential) insertion. -/
inductive Op where
  | set (lvl : Nat) (key value : Int)
  | remove (key : Int)
  | removeByPos (k : Int)
deriving Repr, DecidableEq

/-- A `set` is valid when the Level Policy contract `1 ≤ level` holds. -/
def Op.validB : Op → Bool
  | .set lvl _ _ => 1 ≤ lvl
  | .remove _ => true
  | .removeByPos _ => true

/-- Apply one operation (discarding the returned values). -/
def applyOp (s : SkipList) : Op → SkipList
  | .set lvl key value => (s.Set lvl key value).1
  | .remove key => (s.Remove key).1
  | .removeByPos k => (s.RemoveByPos k).1

/-- Run a sequence of operations from the empty list. -/
def runOps (ops : List Op) : SkipList := ops.foldl applyOp emptySL

/-- All levels drawn in the sequence respect the Level Policy contract. -/
def ValidOps (ops : List Op) : Prop := ∀ op ∈ ops, op.validB = true

/-- States reachable from the empty list by valid operation sequences. -/
def Reachable (s : SkipList) : Prop := ∃ ops, ValidOps ops ∧ runOps ops = s

/-! ## Search predecessors (used to characterize the descents) -/

/-- Follow level-`i` successors while the successor's key is below `target`. -/
def predScan (s : SkipList) (L : List Nat) (i : Nat) (target : Int) : Nat → Nat → Nat
  | 0, j => j
  | f + 1, j =>
    let m := succNat s L i j
    if m < L.length then
      (if (s.nodeAt (L.getD m 0)).key < target then predScan s L i target f m else j)
    else j

/-- The spine position of the last level-`i` chain tower with key below
`target` (the head when there is none): where the key searches stop at
level `i`. -/
def predAtLvl (s : SkipList) (L : List Nat) (i : Nat) (target : Int) : Nat :=
  predScan s L i target L.length 0

/-- Follow level-`i` successors while the successor's position stays `≤ b`. -/
def bndScan (s : SkipList) (L : List Nat) (i : Nat) (b : Nat) : Nat → Nat → Nat
  | 0, j => j
  | f + 1, j =>
    let m := succNat s L i j
    if m < L.length ∧ m ≤ b then bndScan s L i b f m else j

/-- The spine position of the last level-`i` chain tower at position `≤ b`
(the head when there is none): where the position descents stop at level `i`. -/
def bndPred (s : SkipList) (L : List Nat) (i : Nat) (b : Nat) : Nat :=
  bndScan s L i b L.length 0

/-- The one-key list `{10 ↦ 0}` (level draw 1), base state of the `C3`
counterexample. -/
def c3base : SkipList := (emptySL.Set 1 10 0).1

/-- The one-key list `{3 ↦ 10}` (level draw 1), base state of the `C4`
failing input. -/
def c4base : SkipList := (emptySL.Set 1 3 10).1

/-- The scenario keys in insertion order. -/
def scenarioKeys : List Int := [3, 6, 7, 9, 12, 17, 19, 21, 25, 26]

/-- Insert `a` at position `m` of `L` (the spine after an insertion at
spine position `m`). -/
def insertAt (L : List Nat) (m : Nat) (a : Nat) : List Nat :=
  L.take m ++ a :: L.drop m

/-- Remove the element at position `m` of `L` (the spine after a removal at
spine position `m`). -/
def eraseAt (L : List Nat) (m : Nat) : List Nat :=
  L.take m ++ L.drop (m + 1)

/-! # Theorems -/

/-! ## Store and node access lemmas -/

theorem nodeAt_setNode (s : SkipList) (x : Nat) (n : Node) (y : Nat) :
    (s.setNode x n).nodeAt y = if y = x ∧ x < s.nodes.length then n else s.nodeAt y := by
  unfold SkipList.setNode SkipList.nodeAt
  by_cases hxy : y = x
  · subst hxy
    by_cases hx : y < s.nodes.length
    · simp [List.getD_eq_getElem?_getD, List.getElem?_set, hx]
    · simp [List.getD_eq_getElem?_getD, List.getElem?_set, hx,
        List.getElem?_eq_none (Nat.le_of_not_lt hx)]
  · have hyx : x ≠ y := fun h => hxy h.symm
    rw [if_neg (fun h => hxy h.1)]
    simp only [List.getD_eq_getElem?_getD, List.getElem?_set, if_neg hyx]

theorem nodeAt_setNode_self (s : SkipList) (x : Nat) (n : Node) (h : x < s.nodes.length) :
    (s.setNode x n).nodeAt x = n := by
  simp [nodeAt_setNode, h]

theorem nodeAt_setNode_ne (s : SkipList) (x : Nat) (n : Node) (y : Nat) (h : y ≠ x) :
    (s.setNode x n).nodeAt y = s.nodeAt y := by
  simp [nodeAt_setNode, h]

theorem setNode_count (s : SkipList) (x : Nat) (n : Node) : (s.setNode x n).count = s.count := rfl

theorem setNode_nodes_length (s : SkipList) (x : Nat) (n : Node) :
    (s.setNode x n).nodes.length = s.nodes.length := by
  simp [SkipList.setNode]

theorem Node.level_setNext (n : Node) (i : Nat) (y : Option Nat) :
    (n.setNext i y).level = n.level := by
  simp [Node.setNext, Node.level]

theorem Node.level_setDist (n : Node) (i : Nat) (d : Int) : (n.setDist i d).level = n.level := rfl

theorem Node.key_setNext (n : Node) (i : Nat) (y : Option Nat) : (n.setNext i y).key = n.key := rfl

theorem Node.key_setDist (n : Node) (i : Nat) (d : Int) : (n.setDist i d).key = n.key := rfl

theorem Node.value_setNext (n : Node) (i : Nat) (y : Option Nat) :
    (n.setNext i y).value = n.value := rfl

theorem Node.value_setDist (n : Node) (i : Nat) (d : Int) : (n.setDist i d).value = n.value := rfl

theorem Node.distLen_setNext (n : Node) (i : Nat) (y : Option Nat) :
    (n.setNext i y).dist.length = n.dist.length := rfl

theorem Node.distLen_setDist (n : Node) (i : Nat) (d : Int) :
    (n.setDist i d).dist.length = n.dist.length := by
  simp [Node.setDist]

theorem Node.nextAt_setNext (n : Node) (i : Nat) (y : Option Nat) (i' : Nat) :
    (n.setNext i y).nextAt i' = if i' = i ∧ i < n.next.length then y else n.nextAt i' := by
  unfold Node.setNext Node.nextAt
  by_cases hii : i' = i
  · subst hii
    by_cases hi : i' < n.next.length
    · simp [List.getD_eq_getElem?_getD, List.getElem?_set, hi]
    · simp [List.getD_eq_getElem?_getD, List.getElem?_set, hi,
        List.getElem?_eq_none (Nat.le_of_not_lt hi)]
  · have hii' : i ≠ i' := fun h => hii h.symm
    rw [if_neg (fun h => hii h.1)]
    simp only [List.getD_eq_getElem?_getD, List.getElem?_set, if_neg hii']

theorem Node.nextAt_setDist (n : Node) (i : Nat) (d : Int) (i' : Nat) :
    (n.setDist i d).nextAt i' = n.nextAt i' := rfl

theorem Node.distAt_setNext (n : Node) (i : Nat) (y : Option Nat) (i' : Nat) :
    (n.setNext i y).distAt i' = n.distAt i' := rfl

theorem Node.distAt_setDist (n : Node) (i : Nat) (d : Int) (i' : Nat) :
    (n.setDist i d).distAt i' = if i' = i ∧ i < n.dist.length then d else n.distAt i' := by
  unfold Node.setDist Node.distAt
  by_cases hii : i' = i
  · subst hii
    by_cases hi : i' < n.dist.length
    · simp [List.getD_eq_getElem?_getD, List.getElem?_set, hi]
    · simp [List.getD_eq_getElem?_getD, List.getElem?_set, hi,
        List.getElem?_eq_none (Nat.le_of_not_lt hi)]
  · have hii' : i ≠ i' := fun h => hii h.symm
    rw [if_neg (fun h => hii h.1)]
    simp only [List.getD_eq_getElem?_getD, List.getElem?_set, if_neg hii']

theorem writeNext_count (s : SkipList) (x i : Nat) (y : Option Nat) :
    (writeNext s x i y).count = s.count := rfl

theorem writeDist_count (s : SkipList) (x i : Nat) (d : Int) :
    (writeDist s x i d).count = s.count := rfl

theorem writeNext_length (s : SkipList) (x i : Nat) (y : Option Nat) :
    (writeNext s x i y).nodes.length = s.nodes.length :=
  setNode_nodes_length s x _

theorem writeDist_length (s : SkipList) (x i : Nat) (d : Int) :
    (writeDist s x i d).nodes.length = s.nodes.length :=
  setNode_nodes_length s x _

theorem key_writeNext (s : SkipList) (x i : Nat) (y : Option Nat) (z : Nat) :
    ((writeNext s x i y).nodeAt z).key = (s.nodeAt z).key := by
  unfold writeNext
  rw [nodeAt_setNode]
  split
  · next h =>
    obtain ⟨rfl, -⟩ := h
    rfl
  · rfl

theorem key_writeDist (s : SkipList) (x i : Nat) (d : Int) (z : Nat) :
    ((writeDist s x i d).nodeAt z).key = (s.nodeAt z).key := by
  unfold writeDist
  rw [nodeAt_setNode]
  split
  · next h =>
    obtain ⟨rfl, -⟩ := h
    rfl
  · rfl

theorem value_writeNext (s : SkipList) (x i : Nat) (y : Option Nat) (z : Nat) :
    ((writeNext s x i y).nodeAt z).value = (s.nodeAt z).value := by
  unfold writeNext
  rw [nodeAt_setNode]
  split
  · next h =>
    obtain ⟨rfl, -⟩ := h
    rfl
  · rfl

theorem value_writeDist (s : SkipList) (x i : Nat) (d : Int) (z : Nat) :
    ((writeDist s x i d).nodeAt z).value = (s.nodeAt z).value := by
  unfold writeDist
  rw [nodeAt_setNode]
  split
  · next h =>
    obtain ⟨rfl, -⟩ := h
    rfl
  · rfl

theorem nextLen_writeNext (s : SkipList) (x i : Nat) (y : Option Nat) (z : Nat) :
    ((writeNext s x i y).nodeAt z).next.length = (s.nodeAt z).next.length := by
  unfold writeNext
  rw [nodeAt_setNode]
  split
  · next h =>
    obtain ⟨rfl, -⟩ := h
    simp [Node.setNext]
  · rfl

theorem nextLen_writeDist (s : SkipList) (x i : Nat) (d : Int) (z : Nat) :
    ((writeDist s x i d).nodeAt z).next.length = (s.nodeAt z).next.length := by
  unfold writeDist
  rw [nodeAt_setNode]
  split
  · next h =>
    obtain ⟨rfl, -⟩ := h
    rfl
  · rfl

theorem distLen_writeNext (s : SkipList) (x i : Nat) (y : Option Nat) (z : Nat) :
    ((writeNext s x i y).nodeAt z).dist.length = (s.nodeAt z).dist.length := by
  unfold writeNext
  rw [nodeAt_setNode]
  split
  · next h =>
    obtain ⟨rfl, -⟩ := h
    rfl
  · rfl

theorem distLen_writeDist (s : SkipList) (x i : Nat) (d : Int) (z : Nat) :
    ((writeDist s x i d).nodeAt z).dist.length = (s.nodeAt z).dist.length := by
  unfold writeDist
  rw [nodeAt_setNode]
  split
  · next h =>
    obtain ⟨rfl, -⟩ := h
    simp [Node.setDist]
  · rfl

theorem nextAt_writeNext (s : SkipList) (x i : Nat) (y : Option Nat) (z i' : Nat) :
    ((writeNext s x i y).nodeAt z).nextAt i' =
      if z = x ∧ i' = i ∧ x < s.nodes.length ∧ i < (s.nodeAt x).next.length then y
      else (s.nodeAt z).nextAt i' := by
  unfold writeNext
  rw [nodeAt_setNode]
  by_cases hz : z = x ∧ x < s.nodes.length
  · obtain ⟨rfl, hx⟩ := hz
    rw [if_pos ⟨rfl, hx⟩, Node.nextAt_setNext]
    by_cases hi : i' = i ∧ i < (s.nodeAt z).next.length
    · rw [if_pos hi, if_pos ⟨rfl, hi.1, hx, hi.2⟩]
    · rw [if_neg hi, if_neg (fun hc => hi ⟨hc.2.1, hc.2.2.2⟩)]
  · rw [if_neg hz, if_neg (fun hc => hz ⟨hc.1, hc.2.2.1⟩)]

theorem distAt_writeNext (s : SkipList) (x i : Nat) (y : Option Nat) (z i' : Nat) :
    ((writeNext s x i y).nodeAt z).distAt i' = (s.nodeAt z).distAt i' := by
  unfold writeNext
  rw [nodeAt_setNode]
  split
  · next h =>
    obtain ⟨rfl, -⟩ := h
    rw [Node.distAt_setNext]
  · rfl

theorem nextAt_writeDist (s : SkipList) (x i : Nat) (d : Int) (z i' : Nat) :
    ((writeDist s x i d).nodeAt z).nextAt i' = (s.nodeAt z).nextAt i' := by
  unfold writeDist
  rw [nodeAt_setNode]
  split
  · next h =>
    obtain ⟨rfl, -⟩ := h
    rw [Node.nextAt_setDist]
  · rfl

theorem distAt_writeDist (s : SkipList) (x i : Nat) (d : Int) (z i' : Nat) :
    ((writeDist s x i d).nodeAt z).distAt i' =
      if z = x ∧ i' = i ∧ x < s.nodes.length ∧ i < (s.nodeAt x).dist.length then d
      else (s.nodeAt z).distAt i' := by
  unfold writeDist
  rw [nodeAt_setNode]
  by_cases hz : z = x ∧ x < s.nodes.length
  · obtain ⟨rfl, hx⟩ := hz
    rw [if_pos ⟨rfl, hx⟩, Node.distAt_setDist]
    by_cases hi : i' = i ∧ i < (s.nodeAt z).dist.length
    · rw [if_pos hi, if_pos ⟨rfl, hi.1, hx, hi.2⟩]
    · rw [if_neg hi, if_neg (fun hc => hi ⟨hc.2.1, hc.2.2.2⟩)]
  · rw [if_neg hz, if_neg (fun hc => hz ⟨hc.1, hc.2.2.1⟩)]

/-- Slot-level characterization of one splice iteration: slots other than the
written ones are untouched; at level `i` the update node and the new node get
the Go-assigned values. -/
theorem spliceStep_slot (pos : Int) (nl xid : Nat) (t : SkipList) (ui : Nat × Int) (i : Nat)
    (hu : ui.1 < t.nodes.length) (hun : i < (t.nodeAt ui.1).next.length)
    (hud : i < (t.nodeAt ui.1).dist.length) (hne : ui.1 ≠ xid)
    (hx : i < nl → xid < t.nodes.length ∧ i < (t.nodeAt xid).next.length ∧
          i < (t.nodeAt xid).dist.length) :
    (∀ z i', i' ≠ i ∨ (z ≠ ui.1 ∧ z ≠ xid) →
      ((spliceStep pos nl xid t ui i).nodeAt z).nextAt i' = (t.nodeAt z).nextAt i' ∧
      ((spliceStep pos nl xid t ui i).nodeAt z).distAt i' = (t.nodeAt z).distAt i') ∧
    (nl ≤ i →
      ((spliceStep pos nl xid t ui i).nodeAt ui.1).nextAt i = (t.nodeAt ui.1).nextAt i ∧
      ((spliceStep pos nl xid t ui i).nodeAt ui.1).distAt i = (t.nodeAt ui.1).distAt i + 1 ∧
      ((spliceStep pos nl xid t ui i).nodeAt xid).nextAt i = (t.nodeAt xid).nextAt i ∧
      ((spliceStep pos nl xid t ui i).nodeAt xid).distAt i = (t.nodeAt xid).distAt i) ∧
    (i < nl →
      ((spliceStep pos nl xid t ui i).nodeAt ui.1).nextAt i = some xid ∧
      ((spliceStep pos nl xid t ui i).nodeAt ui.1).distAt i = (pos - ui.2) + 1 ∧
      ((spliceStep pos nl xid t ui i).nodeAt xid).nextAt i = (t.nodeAt ui.1).nextAt i ∧
      ((spliceStep pos nl xid t ui i).nodeAt xid).distAt i
        = (t.nodeAt ui.1).distAt i - (pos - ui.2)) := by
  by_cases hni : nl ≤ i
  · unfold spliceStep
    rw [if_pos hni]
    refine ⟨fun z i' hc => ?_, fun _ => ?_, fun h => absurd h (by omega)⟩
    · refine ⟨by rw [nextAt_writeDist], ?_⟩
      rw [distAt_writeDist, if_neg]
      rintro ⟨h1, h2, -⟩
      rcases hc with h | h
      · exact h h2
      · exact h.1 h1
    · refine ⟨by rw [nextAt_writeDist], ?_, by rw [nextAt_writeDist], ?_⟩
      · rw [distAt_writeDist, if_pos ⟨rfl, rfl, hu, hud⟩]
      · rw [distAt_writeDist, if_neg]
        rintro ⟨h1, -⟩
        exact hne h1.symm
  · have hlt : i < nl := by omega
    obtain ⟨hx1, hx2, hx3⟩ := hx hlt
    have hxu : xid ≠ ui.1 := fun h => hne h.symm
    unfold spliceStep
    rw [if_neg hni]
    refine ⟨fun z i' hc => ?_, fun h => absurd h (by omega), fun _ => ?_⟩
    · constructor
      · rw [nextAt_writeDist, nextAt_writeDist, nextAt_writeNext, if_neg, nextAt_writeNext,
          if_neg]
        · rintro ⟨h1, h2, -⟩
          rcases hc with h | h
          · exact h h2
          · exact h.2 h1
        · rintro ⟨h1, h2, -⟩
          rcases hc with h | h
          · exact h h2
          · exact h.1 h1
      · rw [distAt_writeDist, if_neg, distAt_writeDist, if_neg, distAt_writeNext,
          distAt_writeNext]
        · rintro ⟨h1, h2, -⟩
          rcases hc with h | h
          · exact h h2
          · exact h.2 h1
        · rintro ⟨h1, h2, -⟩
          rcases hc with h | h
          · exact h h2
          · exact h.1 h1
    · refine ⟨?_, ?_, ?_, ?_⟩
      · rw [nextAt_writeDist, nextAt_writeDist, nextAt_writeNext, if_pos]
        refine ⟨rfl, rfl, ?_, ?_⟩
        · rw [writeNext_length]
          exact hu
        · rw [nextLen_writeNext]
          exact hun
      · rw [distAt_writeDist, if_pos]
        refine ⟨rfl, rfl, ?_, ?_⟩
        · rw [writeDist_length, writeNext_length, writeNext_length]
          exact hu
        · rw [distLen_writeDist, distLen_writeNext, distLen_writeNext]
          exact hud
      · rw [nextAt_writeDist, nextAt_writeDist, nextAt_writeNext, if_neg, nextAt_writeNext,
          if_pos ⟨rfl, rfl, hx1, hx2⟩]
        rintro ⟨h1, -⟩
        exact hxu h1
      · rw [distAt_writeDist, if_neg, distAt_writeDist, if_pos]
        · refine ⟨rfl, rfl, ?_, ?_⟩
          · rw [writeNext_length, writeNext_length]
            exact hx1
          · rw [distLen_writeNext, distLen_writeNext]
            exact hx3
        · rintro ⟨h1, -⟩
          exact hxu h1

/-- Slot-level characterization of one unlink iteration. -/
theorem unlinkStep_slot (y : Nat) (t : SkipList) (ui i : Nat)
    (hu : ui < t.nodes.length) (hun : i < (t.nodeAt ui).next.length)
    (hud : i < (t.nodeAt ui).dist.length) :
    (∀ z i', i' ≠ i ∨ z ≠ ui →
      ((unlinkStep y t ui i).nodeAt z).nextAt i' = (t.nodeAt z).nextAt i' ∧
      ((unlinkStep y t ui i).nodeAt z).distAt i' = (t.nodeAt z).distAt i') ∧
    ((t.nodeAt ui).nextAt i = some y →
      ((unlinkStep y t ui i).nodeAt ui).nextAt i = (t.nodeAt y).nextAt i ∧
      ((unlinkStep y t ui i).nodeAt ui).distAt i
        = (t.nodeAt ui).distAt i + ((t.nodeAt y).distAt i - 1)) ∧
    (¬ (t.nodeAt ui).nextAt i = some y →
      ((unlinkStep y t ui i).nodeAt ui).nextAt i = (t.nodeAt ui).nextAt i ∧
      ((unlinkStep y t ui i).nodeAt ui).distAt i = (t.nodeAt ui).distAt i - 1) := by
  by_cases hcond : (t.nodeAt ui).nextAt i = some y
  · unfold unlinkStep
    rw [if_pos hcond]
    refine ⟨fun z i' hc => ?_, fun _ => ?_, fun h => absurd hcond h⟩
    · constructor
      · rw [nextAt_writeDist, nextAt_writeNext, if_neg]
        rintro ⟨h1, h2, -⟩
        rcases hc with h | h
        · exact h h2
        · exact h h1
      · rw [distAt_writeDist, if_neg, distAt_writeNext]
        rintro ⟨h1, h2, -⟩
        rcases hc with h | h
        · exact h h2
        · exact h h1
    · constructor
      · rw [nextAt_writeDist, nextAt_writeNext, if_pos ⟨rfl, rfl, hu, hun⟩]
      · rw [distAt_writeDist, if_pos, distAt_writeNext]
        refine ⟨rfl, rfl, ?_, ?_⟩
        · rw [writeNext_length]
          exact hu
        · rw [distLen_writeNext]
          exact hud
  · unfold unlinkStep
    rw [if_neg hcond]
    refine ⟨fun z i' hc => ?_, fun h => absurd h hcond, fun _ => ?_⟩
    · constructor
      · rw [nextAt_writeDist]
      · rw [distAt_writeDist, if_neg]
        rintro ⟨h1, h2, -⟩
        rcases hc with h | h
        · exact h h2
        · exact h h1
    · exact ⟨by rw [nextAt_writeDist], by rw [distAt_writeDist, if_pos ⟨rfl, rfl, hu, hud⟩]⟩

theorem spliceStep_count (pos : Int) (nl xid : Nat) (t : SkipList) (ui : Nat × Int) (i : Nat) :
    (spliceStep pos nl xid t ui i).count = t.count := by
  unfold spliceStep
  split
  · rw [writeDist_count]
  · rw [writeDist_count, writeDist_count, writeNext_count, writeNext_count]

theorem spliceStep_length (pos : Int) (nl xid : Nat) (t : SkipList) (ui : Nat × Int) (i : Nat) :
    (spliceStep pos nl xid t ui i).nodes.length = t.nodes.length := by
  unfold spliceStep
  split
  · rw [writeDist_length]
  · rw [writeDist_length, writeDist_length, writeNext_length, writeNext_length]

theorem spliceStep_key (pos : Int) (nl xid : Nat) (t : SkipList) (ui : Nat × Int) (i z : Nat) :
    ((spliceStep pos nl xid t ui i).nodeAt z).key = (t.nodeAt z).key := by
  unfold spliceStep
  split
  · rw [key_writeDist]
  · rw [key_writeDist, key_writeDist, key_writeNext, key_writeNext]

theorem spliceStep_value (pos : Int) (nl xid : Nat) (t : SkipList) (ui : Nat × Int) (i z : Nat) :
    ((spliceStep pos nl xid t ui i).nodeAt z).value = (t.nodeAt z).value := by
  unfold spliceStep
  split
  · rw [value_writeDist]
  · rw [value_writeDist, value_writeDist, value_writeNext, value_writeNext]

theorem spliceStep_nextLen (pos : Int) (nl xid : Nat) (t : SkipList) (ui : Nat × Int)
    (i z : Nat) :
    ((spliceStep pos nl xid t ui i).nodeAt z).next.length = (t.nodeAt z).next.length := by
  unfold spliceStep
  split
  · rw [nextLen_writeDist]
  · rw [nextLen_writeDist, nextLen_writeDist, nextLen_writeNext, nextLen_writeNext]

theorem spliceStep_distLen (pos : Int) (nl xid : Nat) (t : SkipList) (ui : Nat × Int)
    (i z : Nat) :
    ((spliceStep pos nl xid t ui i).nodeAt z).dist.length = (t.nodeAt z).dist.length := by
  unfold spliceStep
  split
  · rw [distLen_writeDist]
  · rw [distLen_writeDist, distLen_writeDist, distLen_writeNext, distLen_writeNext]

theorem unlinkStep_count (y : Nat) (t : SkipList) (ui i : Nat) :
    (unlinkStep y t ui i).count = t.count := by
  unfold unlinkStep
  split
  · rw [writeDist_count, writeNext_count]
  · rw [writeDist_count]

theorem unlinkStep_length (y : Nat) (t : SkipList) (ui i : Nat) :
    (unlinkStep y t ui i).nodes.length = t.nodes.length := by
  unfold unlinkStep
  split
  · rw [writeDist_length, writeNext_length]
  · rw [writeDist_length]

theorem unlinkStep_key (y : Nat) (t : SkipList) (ui i z : Nat) :
    ((unlinkStep y t ui i).nodeAt z).key = (t.nodeAt z).key := by
  unfold unlinkStep
  split
  · rw [key_writeDist, key_writeNext]
  · rw [key_writeDist]

theorem unlinkStep_value (y : Nat) (t : SkipList) (ui i z : Nat) :
    ((unlinkStep y t ui i).nodeAt z).value = (t.nodeAt z).value := by
  unfold unlinkStep
  split
  · rw [value_writeDist, value_writeNext]
  · rw [value_writeDist]

theorem unlinkStep_nextLen (y : Nat) (t : SkipList) (ui i z : Nat) :
    ((unlinkStep y t ui i).nodeAt z).next.length = (t.nodeAt z).next.length := by
  unfold unlinkStep
  split
  · rw [nextLen_writeDist, nextLen_writeNext]
  · rw [nextLen_writeDist]

theorem unlinkStep_distLen (y : Nat) (t : SkipList) (ui i z : Nat) :
    ((unlinkStep y t ui i).nodeAt z).dist.length = (t.nodeAt z).dist.length := by
  unfold unlinkStep
  split
  · rw [distLen_writeDist, distLen_writeNext]
  · rw [distLen_writeDist]

theorem spliceRange_succ (t : SkipList) (upd : List (Nat × Int)) (pos : Int)
    (nl xid m : Nat) :
    spliceRange t upd pos nl xid (m + 1)
      = spliceStep pos nl xid (spliceRange t upd pos nl xid m) (upd.getD m (0, -1)) m := by
  unfold spliceRange
  rw [List.range_succ, List.foldl_append, List.foldl_cons, List.foldl_nil]

theorem unlinkRange_succ (t : SkipList) (upd : List (Nat × Int)) (y m : Nat) :
    unlinkRange t upd y (m + 1)
      = unlinkStep y (unlinkRange t upd y m) (upd.getD m (0, -1)).1 m := by
  unfold unlinkRange
  rw [List.range_succ, List.foldl_append, List.foldl_cons, List.foldl_nil]

theorem spliceRange_count (t : SkipList) (upd : List (Nat × Int)) (pos : Int)
    (nl xid m : Nat) :
    (spliceRange t upd pos nl xid m).count = t.count := by
  induction m with
  | zero => rfl
  | succ m ih => rw [spliceRange_succ, spliceStep_count, ih]

theorem spliceRange_length (t : SkipList) (upd : List (Nat × Int)) (pos : Int)
    (nl xid m : Nat) :
    (spliceRange t upd pos nl xid m).nodes.length = t.nodes.length := by
  induction m with
  | zero => rfl
  | succ m ih => rw [spliceRange_succ, spliceStep_length, ih]

theorem spliceRange_key (t : SkipList) (upd : List (Nat × Int)) (pos : Int)
    (nl xid m z : Nat) :
    ((spliceRange t upd pos nl xid m).nodeAt z).key = (t.nodeAt z).key := by
  induction m with
  | zero => rfl
  | succ m ih => rw [spliceRange_succ, spliceStep_key, ih]

theorem spliceRange_value (t : SkipList) (upd : List (Nat × Int)) (pos : Int)
    (nl xid m z : Nat) :
    ((spliceRange t upd pos nl xid m).nodeAt z).value = (t.nodeAt z).value := by
  induction m with
  | zero => rfl
  | succ m ih => rw [spliceRange_succ, spliceStep_value, ih]

theorem spliceRange_nextLen (t : SkipList) (upd : List (Nat × Int)) (pos : Int)
    (nl xid m z : Nat) :
    ((spliceRange t upd pos nl xid m).nodeAt z).next.length = (t.nodeAt z).next.length := by
  induction m with
  | zero => rfl
  | succ m ih => rw [spliceRange_succ, spliceStep_nextLen, ih]

theorem spliceRange_distLen (t : SkipList) (upd : List (Nat × Int)) (pos : Int)
    (nl xid m z : Nat) :
    ((spliceRange t upd pos nl xid m).nodeAt z).dist.length = (t.nodeAt z).dist.length := by
  induction m with
  | zero => rfl
  | succ m ih => rw [spliceRange_succ, spliceStep_distLen, ih]

theorem unlinkRange_count (t : SkipList) (upd : List (Nat × Int)) (y m : Nat) :
    (unlinkRange t upd y m).count = t.count := by
  induction m with
  | zero => rfl
  | succ m ih => rw [unlinkRange_succ, unlinkStep_count, ih]

theorem unlinkRange_length (t : SkipList) (upd : List (Nat × Int)) (y m : Nat) :
    (unlinkRange t upd y m).nodes.length = t.nodes.length := by
  induction m with
  | zero => rfl
  | succ m ih => rw [unlinkRange_succ, unlinkStep_length, ih]

theorem unlinkRange_key (t : SkipList) (upd : List (Nat × Int)) (y m z : Nat) :
    ((unlinkRange t upd y m).nodeAt z).key = (t.nodeAt z).key := by
  induction m with
  | zero => rfl
  | succ m ih => rw [unlinkRange_succ, unlinkStep_key, ih]

theorem unlinkRange_value (t : SkipList) (upd : List (Nat × Int)) (y m z : Nat) :
    ((unlinkRange t upd y m).nodeAt z).value = (t.nodeAt z).value := by
  induction m with
  | zero => rfl
  | succ m ih => rw [unlinkRange_succ, unlinkStep_value, ih]

theorem unlinkRange_nextLen (t : SkipList) (upd : List (Nat × Int)) (y m z : Nat) :
    ((unlinkRange t upd y m).nodeAt z).next.length = (t.nodeAt z).next.length := by
  induction m with
  | zero => rfl
  | succ m ih => rw [unlinkRange_succ, unlinkStep_nextLen, ih]

theorem unlinkRange_distLen (t : SkipList) (upd : List (Nat × Int)) (y m z : Nat) :
    ((unlinkRange t upd y m).nodeAt z).dist.length = (t.nodeAt z).dist.length := by
  induction m with
  | zero => rfl
  | succ m ih => rw [unlinkRange_succ, unlinkStep_distLen, ih]

/-- Pointwise characterization of the whole splice loop: each level `i < m`
writes only `update[i]`'s and the new tower's slot `i`, with the Go-assigned
values, every other slot is untouched. -/
theorem spliceRange_slots (t : SkipList) (upd : List (Nat × Int)) (pos : Int) (nl xid : Nat)
    (hxid : ∀ i, (upd.getD i (0, -1)).1 ≠ xid) (m : Nat)
    (hu : ∀ i, i < m → (upd.getD i (0, -1)).1 < t.nodes.length ∧
          i < (t.nodeAt (upd.getD i (0, -1)).1).next.length ∧
          i < (t.nodeAt (upd.getD i (0, -1)).1).dist.length)
    (hx : ∀ i, i < m → i < nl → xid < t.nodes.length ∧
          i < (t.nodeAt xid).next.length ∧ i < (t.nodeAt xid).dist.length) :
    ∀ z i',
      ((m ≤ i' ∨ (z ≠ (upd.getD i' (0, -1)).1 ∧ z ≠ xid)) →
        ((spliceRange t upd pos nl xid m).nodeAt z).nextAt i' = (t.nodeAt z).nextAt i' ∧
        ((spliceRange t upd pos nl xid m).nodeAt z).distAt i' = (t.nodeAt z).distAt i') ∧
      (i' < m → z = (upd.getD i' (0, -1)).1 →
        (i' < nl →
          ((spliceRange t upd pos nl xid m).nodeAt z).nextAt i' = some xid ∧
          ((spliceRange t upd pos nl xid m).nodeAt z).distAt i'
            = (pos - (upd.getD i' (0, -1)).2) + 1) ∧
        (nl ≤ i' →
          ((spliceRange t upd pos nl xid m).nodeAt z).nextAt i' = (t.nodeAt z).nextAt i' ∧
          ((spliceRange t upd pos nl xid m).nodeAt z).distAt i'
            = (t.nodeAt z).distAt i' + 1)) ∧
      (i' < m → z = xid →
        (i' < nl →
          ((spliceRange t upd pos nl xid m).nodeAt z).nextAt i'
            = (t.nodeAt (upd.getD i' (0, -1)).1).nextAt i' ∧
          ((spliceRange t upd pos nl xid m).nodeAt z).distAt i'
            = (t.nodeAt (upd.getD i' (0, -1)).1).distAt i'
              - (pos - (upd.getD i' (0, -1)).2)) ∧
        (nl ≤ i' →
          ((spliceRange t upd pos nl xid m).nodeAt z).nextAt i' = (t.nodeAt z).nextAt i' ∧
          ((spliceRange t upd pos nl xid m).nodeAt z).distAt i' = (t.nodeAt z).distAt i')) := by
  induction m with
  | zero =>
    intro z i'
    exact ⟨fun _ => ⟨rfl, rfl⟩, fun h => absurd h (by omega), fun h => absurd h (by omega)⟩
  | succ m ih =>
    have ih' := ih (fun i hi => hu i (by omega)) (fun i hi => hx i (by omega))
    have hum := hu m (by omega)
    have h1 : (upd.getD m (0, -1)).1 < (spliceRange t upd pos nl xid m).nodes.length := by
      rw [spliceRange_length]
      exact hum.1
    have h2 : m < ((spliceRange t upd pos nl xid m).nodeAt (upd.getD m (0, -1)).1).next.length := by
      rw [spliceRange_nextLen]
      exact hum.2.1
    have h3 : m < ((spliceRange t upd pos nl xid m).nodeAt (upd.getD m (0, -1)).1).dist.length := by
      rw [spliceRange_distLen]
      exact hum.2.2
    have h4 : m < nl → xid < (spliceRange t upd pos nl xid m).nodes.length ∧
        m < ((spliceRange t upd pos nl xid m).nodeAt xid).next.length ∧
        m < ((spliceRange t upd pos nl xid m).nodeAt xid).dist.length := by
      intro hmn
      obtain ⟨a, b, c⟩ := hx m (by omega) hmn
      refine ⟨?_, ?_, ?_⟩
      · rw [spliceRange_length]
        exact a
      · rw [spliceRange_nextLen]
        exact b
      · rw [spliceRange_distLen]
        exact c
    have step := spliceStep_slot pos nl xid (spliceRange t upd pos nl xid m)
      (upd.getD m (0, -1)) m h1 h2 h3 (hxid m) h4
    intro z i'
    rw [spliceRange_succ]
    refine ⟨?_, ?_, ?_⟩
    · intro hc
      rcases hc with hm1 | hz
      · have hs := (step.1 z i' (Or.inl (by omega)))
        have hi := ((ih' z i').1 (Or.inl (by omega)))
        exact ⟨hs.1.trans hi.1, hs.2.trans hi.2⟩
      · by_cases him : i' = m
        · subst him
          have hs := step.1 z i' (Or.inr hz)
          have hi := (ih' z i').1 (Or.inr hz)
          exact ⟨hs.1.trans hi.1, hs.2.trans hi.2⟩
        · have hs := step.1 z i' (Or.inl him)
          have hi := (ih' z i').1 (Or.inr hz)
          exact ⟨hs.1.trans hi.1, hs.2.trans hi.2⟩
    · intro hi' hz
      by_cases him : i' = m
      · subst him
        subst hz
        constructor
        · intro hnl
          have hs := step.2.2 hnl
          exact ⟨hs.1, hs.2.1⟩
        · intro hnl
          have hs := step.2.1 hnl
          have hi := (ih' (upd.getD i' (0, -1)).1 i').1 (Or.inl (by omega))
          exact ⟨hs.1.trans hi.1, by rw [hs.2.1, hi.2]⟩
      · have hlt : i' < m := by omega
        have hs := step.1 z i' (Or.inl him)
        have hi := (ih' z i').2.1 hlt hz
        constructor
        · intro hnl
          obtain ⟨a, b⟩ := hi.1 hnl
          exact ⟨hs.1.trans a, hs.2.trans b⟩
        · intro hnl
          obtain ⟨a, b⟩ := hi.2 hnl
          exact ⟨hs.1.trans a, hs.2.trans b⟩
    · intro hi' hz
      subst hz
      by_cases him : i' = m
      · subst him
        constructor
        · intro hnl
          have hs := step.2.2 hnl
          have hi := (ih' (upd.getD i' (0, -1)).1 i').1 (Or.inl (by omega))
          exact ⟨hs.2.2.1.trans hi.1, by rw [hs.2.2.2, hi.2]⟩
        · intro hnl
          have hs := step.2.1 hnl
          have hi := (ih' z i').1 (Or.inl (by omega))
          exact ⟨hs.2.2.1.trans hi.1, hs.2.2.2.trans hi.2⟩
      · have hlt : i' < m := by omega
        have hs := step.1 z i' (Or.inl him)
        have hi := (ih' z i').2.2 hlt rfl
        constructor
        · intro hnl
          obtain ⟨a, b⟩ := hi.1 hnl
          exact ⟨hs.1.trans a, hs.2.trans b⟩
        · intro hnl
          obtain ⟨a, b⟩ := hi.2 hnl
          exact ⟨hs.1.trans a, hs.2.trans b⟩

/-- Pointwise characterization of the whole unlink loop: each level `i < m`
writes only `update[i]`'s slot `i`, relinking past `y` (merging spans) when
`update[i].next[i] == y` and decrementing the distance otherwise. -/
theorem unlinkRange_slots (t : SkipList) (upd : List (Nat × Int)) (y : Nat) (m : Nat)
    (hu : ∀ i, i < m → (upd.getD i (0, -1)).1 < t.nodes.length ∧
          i < (t.nodeAt (upd.getD i (0, -1)).1).next.length ∧
          i < (t.nodeAt (upd.getD i (0, -1)).1).dist.length)
    (hy : ∀ i, (upd.getD i (0, -1)).1 ≠ y) :
    ∀ z i',
      ((m ≤ i' ∨ z ≠ (upd.getD i' (0, -1)).1) →
        ((unlinkRange t upd y m).nodeAt z).nextAt i' = (t.nodeAt z).nextAt i' ∧
        ((unlinkRange t upd y m).nodeAt z).distAt i' = (t.nodeAt z).distAt i') ∧
      (i' < m → z = (upd.getD i' (0, -1)).1 →
        ((t.nodeAt z).nextAt i' = some y →
          ((unlinkRange t upd y m).nodeAt z).nextAt i' = (t.nodeAt y).nextAt i' ∧
          ((unlinkRange t upd y m).nodeAt z).distAt i'
            = (t.nodeAt z).distAt i' + ((t.nodeAt y).distAt i' - 1)) ∧
        (¬ (t.nodeAt z).nextAt i' = some y →
          ((unlinkRange t upd y m).nodeAt z).nextAt i' = (t.nodeAt z).nextAt i' ∧
          ((unlinkRange t upd y m).nodeAt z).distAt i' = (t.nodeAt z).distAt i' - 1)) := by
  induction m with
  | zero =>
    intro z i'
    exact ⟨fun _ => ⟨rfl, rfl⟩, fun h => absurd h (by omega)⟩
  | succ m ih =>
    have ih' := ih (fun i hi => hu i (by omega))
    have hum := hu m (by omega)
    have h1 : (upd.getD m (0, -1)).1 < (unlinkRange t upd y m).nodes.length := by
      rw [unlinkRange_length]
      exact hum.1
    have h2 : m < ((unlinkRange t upd y m).nodeAt (upd.getD m (0, -1)).1).next.length := by
      rw [unlinkRange_nextLen]
      exact hum.2.1
    have h3 : m < ((unlinkRange t upd y m).nodeAt (upd.getD m (0, -1)).1).dist.length := by
      rw [unlinkRange_distLen]
      exact hum.2.2
    have step := unlinkStep_slot y (unlinkRange t upd y m) (upd.getD m (0, -1)).1 m h1 h2 h3
    -- the removed node's slots are never written, so its reads are the originals
    have hyslot : ∀ i', ((unlinkRange t upd y m).nodeAt y).nextAt i' = (t.nodeAt y).nextAt i' ∧
        ((unlinkRange t upd y m).nodeAt y).distAt i' = (t.nodeAt y).distAt i' := by
      intro i'
      exact (ih' y i').1 (Or.inr (fun h => hy i' h.symm))
    have humslot := (ih' (upd.getD m (0, -1)).1 m).1 (Or.inl (by omega))
    intro z i'
    rw [unlinkRange_succ]
    refine ⟨?_, ?_⟩
    · intro hc
      rcases hc with hm1 | hz
      · have hs := step.1 z i' (Or.inl (by omega))
        have hi := (ih' z i').1 (Or.inl (by omega))
        exact ⟨hs.1.trans hi.1, hs.2.trans hi.2⟩
      · by_cases him : i' = m
        · subst him
          have hs := step.1 z i' (Or.inr hz)
          have hi := (ih' z i').1 (Or.inr hz)
          exact ⟨hs.1.trans hi.1, hs.2.trans hi.2⟩
        · have hs := step.1 z i' (Or.inl him)
          have hi := (ih' z i').1 (Or.inr hz)
          exact ⟨hs.1.trans hi.1, hs.2.trans hi.2⟩
    · intro hi' hz
      subst hz
      by_cases him : i' = m
      · subst him
        constructor
        · intro hcond
          have hcond' : ((unlinkRange t upd y i').nodeAt
              (upd.getD i' (0, -1)).1).nextAt i' = some y := by
            rw [humslot.1]
            exact hcond
          have hs := step.2.1 hcond'
          refine ⟨hs.1.trans (hyslot i').1, ?_⟩
          rw [hs.2, humslot.2, (hyslot i').2]
        · intro hcond
          have hcond' : ¬ ((unlinkRange t upd y i').nodeAt
              (upd.getD i' (0, -1)).1).nextAt i' = some y := by
            rw [humslot.1]
            exact hcond
          have hs := step.2.2 hcond'
          refine ⟨hs.1.trans humslot.1, ?_⟩
          rw [hs.2, humslot.2]
      · have hlt : i' < m := by omega
        have hs := step.1 (upd.getD i' (0, -1)).1 i' (Or.inl him)
        have hi := (ih' (upd.getD i' (0, -1)).1 i').2 hlt rfl
        constructor
        · intro hcond
          obtain ⟨a, b⟩ := hi.1 hcond
          exact ⟨hs.1.trans a, hs.2.trans b⟩
        · intro hcond
          obtain ⟨a, b⟩ := hi.2 hcond
          exact ⟨hs.1.trans a, hs.2.trans b⟩

theorem nodeAt_writeDist_ne (s : SkipList) (x i : Nat) (d : Int) (z : Nat) (hz : z ≠ x) :
    (writeDist s x i d).nodeAt z = s.nodeAt z := by
  unfold writeDist
  exact nodeAt_setNode_ne s x _ z hz

theorem next_writeDist (s : SkipList) (x i : Nat) (d : Int) (z : Nat) :
    ((writeDist s x i d).nodeAt z).next = (s.nodeAt z).next := by
  unfold writeDist
  rw [nodeAt_setNode]
  split
  · next h =>
    obtain ⟨rfl, -⟩ := h
    rfl
  · rfl

theorem foldl_writeDist_count (l : List Nat) (v : Int) (t : SkipList) :
    (l.foldl (fun t' i' => writeDist t' 0 i' v) t).count = t.count := by
  induction l generalizing t with
  | nil => rfl
  | cons a l ih => rw [List.foldl_cons, ih, writeDist_count]

theorem foldl_writeDist_length (l : List Nat) (v : Int) (t : SkipList) :
    (l.foldl (fun t' i' => writeDist t' 0 i' v) t).nodes.length = t.nodes.length := by
  induction l generalizing t with
  | nil => rfl
  | cons a l ih => rw [List.foldl_cons, ih, writeDist_length]

theorem foldl_writeDist_other (l : List Nat) (v : Int) (t : SkipList) (z : Nat) (hz : z ≠ 0) :
    (l.foldl (fun t' i' => writeDist t' 0 i' v) t).nodeAt z = t.nodeAt z := by
  induction l generalizing t with
  | nil => rfl
  | cons a l ih => rw [List.foldl_cons, ih, nodeAt_writeDist_ne _ _ _ _ _ hz]

theorem foldl_writeDist_next (l : List Nat) (v : Int) (t : SkipList) (z : Nat) :
    ((l.foldl (fun t' i' => writeDist t' 0 i' v) t).nodeAt z).next = (t.nodeAt z).next := by
  induction l generalizing t with
  | nil => rfl
  | cons a l ih => rw [List.foldl_cons, ih, next_writeDist]

theorem foldl_writeDist_key (l : List Nat) (v : Int) (t : SkipList) (z : Nat) :
    ((l.foldl (fun t' i' => writeDist t' 0 i' v) t).nodeAt z).key = (t.nodeAt z).key := by
  induction l generalizing t with
  | nil => rfl
  | cons a l ih => rw [List.foldl_cons, ih, key_writeDist]

theorem foldl_writeDist_value (l : List Nat) (v : Int) (t : SkipList) (z : Nat) :
    ((l.foldl (fun t' i' => writeDist t' 0 i' v) t).nodeAt z).value = (t.nodeAt z).value := by
  induction l generalizing t with
  | nil => rfl
  | cons a l ih => rw [List.foldl_cons, ih, value_writeDist]

theorem foldl_writeDist_distLen (l : List Nat) (v : Int) (t : SkipList) (z : Nat) :
    ((l.foldl (fun t' i' => writeDist t' 0 i' v) t).nodeAt z).dist.length
      = (t.nodeAt z).dist.length := by
  induction l generalizing t with
  | nil => rfl
  | cons a l ih => rw [List.foldl_cons, ih, distLen_writeDist]

theorem foldl_writeDist_distAt (v : Int) (b : Nat) :
    ∀ (a : Nat) (t : SkipList) (i : Nat), 0 < t.nodes.length →
      (∀ j, a ≤ j → j < a + b → j < (t.nodeAt 0).dist.length) →
      (((List.range' a b).foldl (fun t' i' => writeDist t' 0 i' v) t).nodeAt 0).distAt i
        = if a ≤ i ∧ i < a + b then v else (t.nodeAt 0).distAt i := by
  induction b with
  | zero =>
    intro a t i h0 hb
    rw [if_neg (by omega)]
    rfl
  | succ b ih =>
    intro a t i h0 hb
    rw [List.range'_succ, List.foldl_cons]
    have hb' : ∀ j, a + 1 ≤ j → j < a + 1 + b →
        j < ((writeDist t 0 a v).nodeAt 0).dist.length := by
      intro j hj1 hj2
      rw [distLen_writeDist]
      exact hb j (by omega) (by omega)
    have h0' : 0 < (writeDist t 0 a v).nodes.length := by
      rw [writeDist_length]
      exact h0
    rw [ih (a + 1) (writeDist t 0 a v) i h0' hb']
    by_cases hi1 : a + 1 ≤ i ∧ i < a + 1 + b
    · rw [if_pos hi1, if_pos (by omega)]
    · rw [if_neg hi1, distAt_writeDist]
      by_cases hia : i = a
      · subst hia
        rw [if_pos ⟨rfl, rfl, h0, hb i (by omega) (by omega)⟩, if_pos (by omega)]
      · rw [if_neg (fun hc => hia hc.2.1), if_neg (by omega)]

theorem setExtend_count (s : SkipList) (nl : Nat) : (setExtend s nl).count = s.count := by
  unfold setExtend
  split
  · rw [foldl_writeDist_count, setNode_count]
  · rfl

theorem setExtend_length (s : SkipList) (nl : Nat) :
    (setExtend s nl).nodes.length = s.nodes.length := by
  unfold setExtend
  split
  · rw [foldl_writeDist_length, setNode_nodes_length]
  · rfl

theorem setExtend_other (s : SkipList) (nl : Nat) (z : Nat) (hz : z ≠ 0) :
    (setExtend s nl).nodeAt z = s.nodeAt z := by
  unfold setExtend
  split
  · rw [foldl_writeDist_other _ _ _ _ hz, nodeAt_setNode_ne _ _ _ _ hz]
  · rfl

theorem setExtend_head_next (s : SkipList) (nl : Nat) (h0 : 0 < s.nodes.length) :
    ((setExtend s nl).nodeAt 0).next
      = (s.nodeAt 0).next ++ List.replicate (nl - s.Level) none := by
  unfold setExtend
  split
  · next h =>
    rw [foldl_writeDist_next, nodeAt_setNode_self s 0 _ h0]
    unfold Node.extendLevel
    have h' : (s.nodeAt 0).level < nl := h
    rw [if_pos h']
    rfl
  · next h =>
    have : nl - s.Level = 0 := by
      unfold SkipList.Level at *
      omega
    rw [this]
    simp

theorem setExtend_head_key (s : SkipList) (nl : Nat) (h0 : 0 < s.nodes.length) :
    ((setExtend s nl).nodeAt 0).key = (s.nodeAt 0).key := by
  unfold setExtend
  split
  · next h =>
    rw [foldl_writeDist_key, nodeAt_setNode_self s 0 _ h0]
    unfold Node.extendLevel
    have h' : (s.nodeAt 0).level < nl := h
    rw [if_pos h']
  · rfl

theorem setExtend_head_value (s : SkipList) (nl : Nat) (h0 : 0 < s.nodes.length) :
    ((setExtend s nl).nodeAt 0).value = (s.nodeAt 0).value := by
  unfold setExtend
  split
  · next h =>
    rw [foldl_writeDist_value, nodeAt_setNode_self s 0 _ h0]
    unfold Node.extendLevel
    have h' : (s.nodeAt 0).level < nl := h
    rw [if_pos h']
  · rfl

theorem setExtend_head_level (s : SkipList) (nl : Nat) (h0 : 0 < s.nodes.length) :
    ((setExtend s nl).nodeAt 0).level = max s.Level nl := by
  unfold Node.level
  rw [setExtend_head_next s nl h0]
  have : (s.nodeAt 0).next.length = s.Level := rfl
  simp only [List.length_append, List.length_replicate, this]
  omega

theorem setExtend_head_nextAt (s : SkipList) (nl : Nat) (h0 : 0 < s.nodes.length) (i : Nat) :
    ((setExtend s nl).nodeAt 0).nextAt i
      = if i < s.Level then (s.nodeAt 0).nextAt i else none := by
  unfold Node.nextAt
  rw [setExtend_head_next s nl h0]
  have hlen : (s.nodeAt 0).next.length = s.Level := rfl
  by_cases hi : i < s.Level
  · rw [if_pos hi, List.getD_append _ _ _ _ (by omega)]
  · rw [if_neg hi]
    simp only [List.getD_eq_getElem?_getD, List.getElem?_append_right (by omega : (s.nodeAt 0).next.length ≤ i),
      List.getElem?_replicate]
    split <;> rfl

theorem setExtend_head_distLen (s : SkipList) (nl : Nat) (h0 : 0 < s.nodes.length)
    (hdl : (s.nodeAt 0).dist.length = s.Level) :
    ((setExtend s nl).nodeAt 0).dist.length = max s.Level nl := by
  unfold setExtend
  split
  · next h =>
    rw [foldl_writeDist_distLen, nodeAt_setNode_self s 0 _ h0]
    unfold Node.extendLevel
    have h' : (s.nodeAt 0).level < nl := h
    rw [if_pos h']
    show ((s.nodeAt 0).dist ++ List.replicate (nl - (s.nodeAt 0).level) 0).length = max s.Level nl
    simp only [List.length_append, List.length_replicate, hdl]
    unfold SkipList.Level Node.level at *
    omega
  · next h =>
    rw [hdl]
    unfold SkipList.Level Node.level at *
    omega

theorem setExtend_head_distAt (s : SkipList) (nl : Nat) (h0 : 0 < s.nodes.length)
    (hdl : (s.nodeAt 0).dist.length = s.Level) (i : Nat) :
    ((setExtend s nl).nodeAt 0).distAt i
      = if i < s.Level then (s.nodeAt 0).distAt i
        else if i < nl then s.count + 1 else 0 := by
  unfold setExtend
  split
  · next h =>
    have hext : ((s.setNode 0 ((s.nodeAt 0).extendLevel nl)).nodeAt 0)
        = (s.nodeAt 0).extendLevel nl := nodeAt_setNode_self s 0 _ h0
    have hextdist : ((s.setNode 0 ((s.nodeAt 0).extendLevel nl)).nodeAt 0).dist
        = (s.nodeAt 0).dist ++ List.replicate (nl - s.Level) 0 := by
      rw [hext]
      unfold Node.extendLevel
      have h' : (s.nodeAt 0).level < nl := h
      rw [if_pos h']
      rfl
    have hextlen : ((s.setNode 0 ((s.nodeAt 0).extendLevel nl)).nodeAt 0).dist.length = nl := by
      rw [hextdist]
      simp only [List.length_append, List.length_replicate, hdl]
      unfold SkipList.Level Node.level at *
      omega
    rw [foldl_writeDist_distAt (s.count + 1) (nl - s.Level) s.Level _ i
      (by rw [setNode_nodes_length]; exact h0)
      (by intro j hj1 hj2; rw [hextlen]; omega)]
    by_cases hi : i < s.Level
    · rw [if_neg (by omega), if_pos hi]
      unfold Node.distAt
      rw [hextdist, List.getD_append _ _ _ _ (by omega)]
    · by_cases hi2 : i < nl
      · rw [if_pos (by omega), if_neg hi, if_pos hi2]
      · rw [if_neg (by omega), if_neg hi, if_neg hi2]
        unfold Node.distAt
        rw [hextdist]
        simp only [List.getD_eq_getElem?_getD]
        rw [List.getElem?_eq_none]
        · rfl
        · simp only [List.length_append, List.length_replicate, hdl]
          unfold SkipList.Level Node.level at *
          omega
  · next h =>
    by_cases hi : i < s.Level
    · rw [if_pos hi]
    · rw [if_neg hi, if_neg (by unfold SkipList.Level Node.level at *; omega)]
      unfold Node.distAt
      simp only [List.getD_eq_getElem?_getD]
      rw [List.getElem?_eq_none (by omega)]
      rfl

/-! ## Spine computation lemmas -/

theorem spineAux_chain (s : SkipList) :
    ∀ (M : List Nat) (f : Nat), M ≠ [] →
      (∀ j, j < M.length - 1 → (s.nodeAt (M.getD j 0)).Next = some (M.getD (j + 1) 0)) →
      (s.nodeAt (M.getD (M.length - 1) 0)).Next = none →
      M.length ≤ f + 1 →
      spineAux s f (M.getD 0 0) = M := by
  intro M
  induction M with
  | nil => intro f hne; exact absurd rfl hne
  | cons a M' ih =>
    intro f _ hchain hlast hf
    cases M' with
    | nil =>
      have hnone : (s.nodeAt a).Next = none := by simpa using hlast
      cases f with
      | zero => simp [spineAux]
      | succ f => simp [spineAux, hnone]
    | cons b rest =>
      have hab : (s.nodeAt a).Next = some b := by
        have := hchain 0 (by simp)
        simpa using this
      cases f with
      | zero => simp at hf
      | succ f =>
        have hrec : spineAux s f ((b :: rest).getD 0 0) = b :: rest := by
          apply ih f (by simp)
          · intro j hj
            have := hchain (j + 1) (by simp at hj ⊢; omega)
            simpa using this
          · have := hlast
            have hidx : (a :: b :: rest).getD ((a :: b :: rest).length - 1) 0
                = (b :: rest).getD ((b :: rest).length - 1) 0 := by
              have hlen : (a :: b :: rest).length - 1 = ((b :: rest).length - 1) + 1 := by
                simp
            -- length (a::b::rest) - 1 = (length (b::rest) - 1) + 1
              rw [hlen, List.getD_cons_succ]
            rw [hidx] at this
            exact this
          · simp at hf ⊢
            omega
        have : (a :: b :: rest).getD 0 0 = a := by simp
        rw [this]
        unfold spineAux
        rw [hab]
        show a :: spineAux s f b = a :: b :: rest
        simp only [List.getD_cons_zero] at hrec
        rw [hrec]

theorem length_le_of_nodup_lt (L : List Nat) (n : Nat) (hnd : L.Nodup)
    (hv : ∀ a ∈ L, a < n) : L.length ≤ n := by
  classical
  have hcard : L.toFinset.card = L.length := List.toFinset_card_of_nodup hnd
  have hsub : L.toFinset ⊆ Finset.range n := by
    intro a ha
    rw [List.mem_toFinset] at ha
    rw [Finset.mem_range]
    exact hv a ha
  have := Finset.card_le_card hsub
  rw [hcard, Finset.card_range] at this
  exact this

theorem validIds_mem (s : SkipList) (L : List Nat) (hv : ValidIds s L) :
    ∀ a ∈ L, a < s.nodes.length := by
  intro a ha
  obtain ⟨j, hj, rfl⟩ := List.getElem_of_mem ha
  have : L.getD j 0 = L[j] := by
    rw [List.getD_eq_getElem?_getD, List.getElem?_eq_getElem hj]
    rfl
  rw [← this]
  exact hv j hj

theorem spine_eq_of (s : SkipList) (L : List Nat) (hsp : SpineOk s L)
    (hv : ValidIds s L) (hnd : L.Nodup) : spine s = L := by
  obtain ⟨hne, h0, hchain, hlast⟩ := hsp
  have hlen : L.length ≤ s.nodes.length :=
    length_le_of_nodup_lt L s.nodes.length hnd (validIds_mem s L hv)
  unfold spine
  rw [← h0]
  exact spineAux_chain s L s.nodes.length hne hchain hlast (by omega)

/-! ## Successor-scan lemmas -/

theorem succScan_spec (s : SkipList) (L : List Nat) (i : Nat) :
    ∀ (f m : Nat), m ≤ L.length → L.length ≤ m + f →
      (m ≤ succScan s L i f m ∧ succScan s L i f m ≤ L.length ∧
       (succScan s L i f m < L.length →
         i < (s.nodeAt (L.getD (succScan s L i f m) 0)).level) ∧
       (∀ t, m ≤ t → t < succScan s L i f m →
         ¬ i < (s.nodeAt (L.getD t 0)).level)) := by
  intro f
  induction f with
  | zero =>
    intro m hm1 hm2
    have : m = L.length := by omega
    subst this
    unfold succScan
    exact ⟨le_refl _, le_refl _, fun h => absurd h (by omega), fun t h1 h2 => absurd h2 (by omega)⟩
  | succ f ih =>
    intro m hm1 hm2
    unfold succScan
    by_cases hm : m < L.length
    · rw [if_pos hm]
      by_cases hlv : i < (s.nodeAt (L.getD m 0)).level
      · rw [if_pos hlv]
        exact ⟨le_refl _, by omega, fun _ => hlv, fun t h1 h2 => absurd h2 (by omega)⟩
      · rw [if_neg hlv]
        obtain ⟨a, b, c, d⟩ := ih (m + 1) (by omega) (by omega)
        refine ⟨by omega, b, c, ?_⟩
        intro t h1 h2
        by_cases htm : t = m
        · subst htm
          exact hlv
        · exact d t (by omega) h2
    · rw [if_neg hm]
      exact ⟨le_refl _, by omega, fun h => absurd h (by omega),
        fun t h1 h2 => absurd h2 (by omega)⟩

theorem succNat_spec (s : SkipList) (L : List Nat) (i j : Nat) (hj : j < L.length) :
    j < succNat s L i j ∧ succNat s L i j ≤ L.length ∧
    (succNat s L i j < L.length → i < (s.nodeAt (L.getD (succNat s L i j) 0)).level) ∧
    (∀ t, j < t → t < succNat s L i j → ¬ i < (s.nodeAt (L.getD t 0)).level) := by
  unfold succNat
  obtain ⟨a, b, c, d⟩ := succScan_spec s L i (L.length - j) (j + 1) (by omega) (by omega)
  exact ⟨by omega, b, c, fun t h1 h2 => d t (by omega) h2⟩

theorem succNat_unique (s : SkipList) (L : List Nat) (i j : Nat) (hj : j < L.length)
    (r : Nat) (h1 : j < r) (h2 : r ≤ L.length)
    (h3 : r < L.length → i < (s.nodeAt (L.getD r 0)).level)
    (h4 : ∀ t, j < t → t < r → ¬ i < (s.nodeAt (L.getD t 0)).level) :
    succNat s L i j = r := by
  obtain ⟨a, b, c, d⟩ := succNat_spec s L i j hj
  rcases Nat.lt_trichotomy (succNat s L i j) r with h | h | h
  · exact absurd (c (by omega)) (h4 _ a h)
  · exact h
  · exact absurd (h3 (by omega)) (d r h1 h)

/-! ## Key search characterization -/

theorem chain_lvl (s : SkipList) (L : List Nat) (h00 : L.getD 0 0 = 0) (i j : Nat)
    (hc : ChainMem s L i j) (hi : i < s.Level) :
    i < (s.nodeAt (L.getD j 0)).level := by
  rcases hc.2 with h | h
  · subst h
    rw [h00]
    exact hi
  · exact h

theorem chainMem_mono (s : SkipList) (L : List Nat) (i j : Nat)
    (hc : ChainMem s L (i + 1) j) : ChainMem s L i j := by
  rcases hc.2 with h | h
  · exact ⟨hc.1, Or.inl h⟩
  · exact ⟨hc.1, Or.inr (by omega)⟩

/-- The advance loop of the key searches, characterized: starting on a
level-`i` chain tower strictly below `target`, it stops on the last chain
tower strictly below `target`. -/
theorem searchLevel_adv (s : SkipList) (L : List Nat) (h00 : L.getD 0 0 = 0)
    (hlk : LinksOk s L) (target : Int) (i : Nat) (hi : i < s.Level) :
    ∀ (f j : Nat), ChainMem s L i j →
      (j = 0 ∨ (s.nodeAt (L.getD j 0)).key < target) →
      L.length ≤ j + f →
      ∃ p, searchLevel s target i f (L.getD j 0) ((j : Int) - 1) = (L.getD p 0, (p : Int) - 1) ∧
        ChainMem s L i p ∧ j ≤ p ∧
        (p = 0 ∨ (s.nodeAt (L.getD p 0)).key < target) ∧
        (succNat s L i p < L.length →
          ¬ (s.nodeAt (L.getD (succNat s L i p) 0)).key < target) := by
  intro f
  induction f with
  | zero =>
    intro j hc hk hf
    exact absurd hc.1 (by omega)
  | succ f ih =>
    intro j hc hk hf
    have hlv := chain_lvl s L h00 i j hc hi
    obtain ⟨hdist, hnext⟩ := hlk j hc.1 i hlv
    obtain ⟨ha, hb, hcc, hd⟩ := succNat_spec s L i j hc.1
    by_cases hsl : succNat s L i j < L.length
    · have heq : searchLevel s target i (f + 1) (L.getD j 0) ((j : Int) - 1)
          = if (s.nodeAt (L.getD (succNat s L i j) 0)).key < target then
              searchLevel s target i f (L.getD (succNat s L i j) 0)
                (((j : Int) - 1) + (s.nodeAt (L.getD j 0)).distAt i)
            else (L.getD j 0, (j : Int) - 1) := by
        conv_lhs => rw [searchLevel]
        rw [hnext, if_pos hsl]
      rw [heq]
      by_cases hkey : (s.nodeAt (L.getD (succNat s L i j) 0)).key < target
      · rw [if_pos hkey]
        have hpos : ((j : Int) - 1) + (s.nodeAt (L.getD j 0)).distAt i
            = ((succNat s L i j : Int) - 1) := by
          rw [hdist]
          omega
        rw [hpos]
        obtain ⟨p, hres, hcp, hjp, hkp, hst⟩ := ih (succNat s L i j)
          ⟨hsl, Or.inr (hcc hsl)⟩ (Or.inr hkey) (by omega)
        exact ⟨p, hres, hcp, by omega, hkp, hst⟩
      · rw [if_neg hkey]
        exact ⟨j, rfl, hc, le_refl _, hk, fun _ => hkey⟩
    · have hnone : (s.nodeAt (L.getD j 0)).nextAt i = none := by
        rw [hnext, if_neg hsl]
      have heq : searchLevel s target i (f + 1) (L.getD j 0) ((j : Int) - 1)
          = (L.getD j 0, (j : Int) - 1) := by
        conv_lhs => rw [searchLevel]
        rw [hnone]
      rw [heq]
      exact ⟨j, rfl, hc, le_refl _, hk, fun h => absurd h hsl⟩

/-- `predScan` satisfies the same specification. -/
theorem predScan_spec (s : SkipList) (L : List Nat) (h00 : L.getD 0 0 = 0)
    (target : Int) (i : Nat) :
    ∀ (f j : Nat), ChainMem s L i j →
      (j = 0 ∨ (s.nodeAt (L.getD j 0)).key < target) →
      L.length ≤ j + f →
      ChainMem s L i (predScan s L i target f j) ∧ j ≤ predScan s L i target f j ∧
      (predScan s L i target f j = 0 ∨
        (s.nodeAt (L.getD (predScan s L i target f j) 0)).key < target) ∧
      (succNat s L i (predScan s L i target f j) < L.length →
        ¬ (s.nodeAt (L.getD (succNat s L i (predScan s L i target f j)) 0)).key < target) := by
  intro f
  induction f with
  | zero =>
    intro j hc hk hf
    exact absurd hc.1 (by omega)
  | succ f ih =>
    intro j hc hk hf
    obtain ⟨ha, hb, hcc, hd⟩ := succNat_spec s L i j hc.1
    unfold predScan
    by_cases hsl : succNat s L i j < L.length
    · rw [if_pos hsl]
      by_cases hkey : (s.nodeAt (L.getD (succNat s L i j) 0)).key < target
      · rw [if_pos hkey]
        obtain ⟨a, b, c, d⟩ := ih (succNat s L i j) ⟨hsl, Or.inr (hcc hsl)⟩
          (Or.inr hkey) (by omega)
        exact ⟨a, by omega, c, d⟩
      · rw [if_neg hkey]
        exact ⟨hc, le_refl _, hk, fun _ => hkey⟩
    · rw [if_neg hsl]
      exact ⟨hc, le_refl _, hk, fun h => absurd h hsl⟩

theorem predAtLvl_spec (s : SkipList) (L : List Nat) (h00 : L.getD 0 0 = 0)
    (hne : L ≠ []) (target : Int) (i : Nat) :
    ChainMem s L i (predAtLvl s L i target) ∧
    (predAtLvl s L i target = 0 ∨
      (s.nodeAt (L.getD (predAtLvl s L i target) 0)).key < target) ∧
    (succNat s L i (predAtLvl s L i target) < L.length →
      ¬ (s.nodeAt (L.getD (succNat s L i (predAtLvl s L i target)) 0)).key < target) := by
  have hlen : 0 < L.length := List.length_pos.mpr hne
  obtain ⟨a, b, c, d⟩ := predScan_spec s L h00 target i L.length 0
    ⟨hlen, Or.inl rfl⟩ (Or.inl rfl) (by omega)
  exact ⟨a, c, d⟩

/-- Uniqueness of the level-`i` search predecessor. -/
theorem predAt_unique (s : SkipList) (L : List Nat) (h00 : L.getD 0 0 = 0)
    (hsk : SortedKeys s L) (target : Int) (i : Nat) (p1 p2 : Nat)
    (hc1 : ChainMem s L i p1)
    (hk1 : p1 = 0 ∨ (s.nodeAt (L.getD p1 0)).key < target)
    (hs1 : succNat s L i p1 < L.length →
      ¬ (s.nodeAt (L.getD (succNat s L i p1) 0)).key < target)
    (hc2 : ChainMem s L i p2)
    (hk2 : p2 = 0 ∨ (s.nodeAt (L.getD p2 0)).key < target)
    (hs2 : succNat s L i p2 < L.length →
      ¬ (s.nodeAt (L.getD (succNat s L i p2) 0)).key < target) :
    p1 = p2 := by
  have main : ∀ q1 q2 : Nat, ChainMem s L i q1 →
      (succNat s L i q1 < L.length →
        ¬ (s.nodeAt (L.getD (succNat s L i q1) 0)).key < target) →
      ChainMem s L i q2 →
      (q2 = 0 ∨ (s.nodeAt (L.getD q2 0)).key < target) →
      q1 < q2 → False := by
    intro q1 q2 hcq1 hsq1 hcq2 hkq2 hlt
    obtain ⟨a, b, c, d⟩ := succNat_spec s L i q1 hcq1.1
    have hq2ne : q2 ≠ 0 := by omega
    have hkq2' : (s.nodeAt (L.getD q2 0)).key < target := by
      rcases hkq2 with h | h
      · exact absurd h hq2ne
      · exact h
    have hlvq2 : i < (s.nodeAt (L.getD q2 0)).level := by
      rcases hcq2.2 with h | h
      · exact absurd h hq2ne
      · exact h
    have hsle : succNat s L i q1 ≤ q2 := by
      by_contra hgt
      exact d q2 hlt (by omega) hlvq2
    have hq2len : q2 < L.length := hcq2.1
    have hslt : succNat s L i q1 < L.length := by omega
    have := hsq1 hslt
    by_cases heq : succNat s L i q1 = q2
    · rw [heq] at this
      exact this hkq2'
    · have hord : (s.nodeAt (L.getD (succNat s L i q1) 0)).key
          < (s.nodeAt (L.getD q2 0)).key :=
        hsk (succNat s L i q1) hslt q2 hcq2.1 (by omega) (by omega)
      exact this (by omega)
  rcases Nat.lt_trichotomy p1 p2 with h | h | h
  · exact (main p1 p2 hc1 hs1 hc2 hk2 h).elim
  · exact h
  · exact (main p2 p1 hc2 hs2 hc1 hk1 h).elim

theorem succNat_zero (s : SkipList) (L : List Nat) (hlv : LevelsOk s L) (j : Nat)
    (hj : j < L.length) : succNat s L 0 j = j + 1 := by
  apply succNat_unique s L 0 j hj (j + 1) (by omega) (by omega)
  · intro h
    exact (hlv (j + 1) h (by omega)).1
  · intro t h1 h2
    omega

/-- The outer key-search descent produces `update[i] = predAtLvl i`,
`updatePos[i] = predAtLvl i - 1` at every level. -/
theorem searchUpd_eq (s : SkipList) (L : List Nat) (h00 : L.getD 0 0 = 0)
    (hlk : LinksOk s L) (hsk : SortedKeys s L) (hne : L ≠ [])
    (hnlen : L.length ≤ s.nodes.length) (target : Int) :
    ∀ (i0 : Nat), i0 ≤ s.Level → ∀ j, ChainMem s L i0 j →
      (j = 0 ∨ (s.nodeAt (L.getD j 0)).key < target) →
      searchUpd s target i0 (L.getD j 0) ((j : Int) - 1)
        = (List.range i0).map
            (fun i => (L.getD (predAtLvl s L i target) 0, (predAtLvl s L i target : Int) - 1)) := by
  intro i0
  induction i0 with
  | zero =>
    intro _ j _ _
    rfl
  | succ i0 ih =>
    intro hle j hc hk
    have hi0 : i0 < s.Level := by omega
    obtain ⟨p, hres, hcp, hjp, hkp, hst⟩ :=
      searchLevel_adv s L h00 hlk target i0 hi0 s.nodes.length j
        (chainMem_mono s L i0 j hc) hk (by omega)
    have hp : p = predAtLvl s L i0 target := by
      obtain ⟨pc, pk, ps⟩ := predAtLvl_spec s L h00 hne target i0
      exact predAt_unique s L h00 hsk target i0 p (predAtLvl s L i0 target)
        hcp hkp hst pc pk ps
    have hstep : searchUpd s target (i0 + 1) (L.getD j 0) ((j : Int) - 1)
        = searchUpd s target i0
            (searchLevel s target i0 s.nodes.length (L.getD j 0) ((j : Int) - 1)).1
            (searchLevel s target i0 s.nodes.length (L.getD j 0) ((j : Int) - 1)).2
          ++ [searchLevel s target i0 s.nodes.length (L.getD j 0) ((j : Int) - 1)] := rfl
    rw [hstep, hres]
    have hrec := ih (by omega) p hcp hkp
    rw [hrec, List.range_succ, List.map_append, List.map_cons, List.map_nil, hp]

theorem level_zero_len_one (s : SkipList) (L : List Nat) (hlv : LevelsOk s L)
    (hne : L ≠ []) (hL0 : s.Level = 0) : L.length = 1 := by
  by_contra hlen
  have h1 : 1 < L.length := by
    have := List.length_pos.mpr hne
    omega
  have := hlv 1 h1 (le_refl 1)
  omega

theorem predAtLvl_len_one (s : SkipList) (L : List Nat) (hlen1 : L.length = 1)
    (i : Nat) (target : Int) : predAtLvl s L i target = 0 := by
  have hsucc : succNat s L i 0 = 1 := by
    obtain ⟨a, b, c, d⟩ := succNat_spec s L i 0 (by omega)
    omega
  unfold predAtLvl
  rw [hlen1]
  conv_lhs => rw [predScan]
  rw [hsucc, hlen1, if_neg (by omega)]

theorem descend_eq_getD (s : SkipList) (key : Int) :
    ∀ (i : Nat) (x : Nat) (pos : Int),
      descend s key i x pos = (searchUpd s key i x pos).getD 0 (x, pos) := by
  intro i
  induction i with
  | zero =>
    intro x pos
    rfl
  | succ i ih =>
    intro x pos
    have hstep : descend s key (i + 1) x pos
        = descend s key i (searchLevel s key i s.nodes.length x pos).1
            (searchLevel s key i s.nodes.length x pos).2 := rfl
    have hstep2 : searchUpd s key (i + 1) x pos
        = searchUpd s key i (searchLevel s key i s.nodes.length x pos).1
            (searchLevel s key i s.nodes.length x pos).2
          ++ [searchLevel s key i s.nodes.length x pos] := rfl
    rw [hstep, hstep2, ih]
    cases hl : searchUpd s key i (searchLevel s key i s.nodes.length x pos).1
        (searchLevel s key i s.nodes.length x pos).2 with
    | nil => simp
    | cons a l => simp

theorem getD_map_range {α : Type} (n : Nat) (f : Nat → α) (d : α) (hn : 0 < n) :
    ((List.range n).map f).getD 0 d = f 0 := by
  rw [List.getD_eq_getElem?_getD, List.getElem?_map, List.getElem?_range hn]
  rfl

/-- The final key-search cursor is the level-0 predecessor, uniformly (also
when the list is empty and the head has level 0). -/
theorem searchCursor_eq (s : SkipList) (L : List Nat) (h00 : L.getD 0 0 = 0)
    (hlk : LinksOk s L) (hsk : SortedKeys s L) (hlv : LevelsOk s L) (hne : L ≠ [])
    (hnlen : L.length ≤ s.nodes.length) (target : Int) :
    (searchUpd s target s.Level 0 (-1)).getD 0 (0, -1)
      = (L.getD (predAtLvl s L 0 target) 0, (predAtLvl s L 0 target : Int) - 1) := by
  have hlen : 0 < L.length := List.length_pos.mpr hne
  have hfull : searchUpd s target s.Level 0 (-1)
      = (List.range s.Level).map
          (fun i => (L.getD (predAtLvl s L i target) 0, (predAtLvl s L i target : Int) - 1)) := by
    have hstart : searchUpd s target s.Level 0 (-1)
        = searchUpd s target s.Level (L.getD 0 0) (((0 : Nat) : Int) - 1) := by
      rw [h00]
      norm_num
    rw [hstart]
    exact searchUpd_eq s L h00 hlk hsk hne hnlen target s.Level (le_refl _) 0
      ⟨hlen, Or.inl rfl⟩ (Or.inl rfl)
  rw [hfull]
  by_cases hL : 0 < s.Level
  · rw [getD_map_range _ _ _ hL]
  · have hL0 : s.Level = 0 := by omega
    have hlen1 := level_zero_len_one s L hlv hne hL0
    rw [hL0, predAtLvl_len_one s L hlen1 0 target, h00]
    constructor

theorem getD_map_range_at {α : Type} (n : Nat) (f : Nat → α) (d : α) (i : Nat) (h : i < n) :
    ((List.range n).map f).getD i d = f i := by
  rw [List.getD_eq_getElem?_getD, List.getElem?_map, List.getElem?_range h]
  rfl

theorem predScan_stop (s : SkipList) (L : List Nat) (i : Nat) (target : Int) (j : Nat)
    (h : ¬ succNat s L i j < L.length) :
    ∀ f, predScan s L i target f j = j := by
  intro f
  cases f with
  | zero => rfl
  | succ f =>
    unfold predScan
    rw [if_neg h]

theorem succNat_ge_level (s : SkipList) (L : List Nat) (hlv : LevelsOk s L)
    (hne : L ≠ []) (i : Nat) (hi : s.Level ≤ i) :
    succNat s L i 0 = L.length := by
  have hlen : 0 < L.length := List.length_pos.mpr hne
  apply succNat_unique s L i 0 hlen L.length (by omega) (le_refl _)
    (fun h => absurd h (by omega))
  intro t h1 h2
  have := hlv t h2 (by omega)
  omega

theorem predAtLvl_ge_level (s : SkipList) (L : List Nat) (hlv : LevelsOk s L)
    (hne : L ≠ []) (i : Nat) (hi : s.Level ≤ i) (target : Int) :
    predAtLvl s L i target = 0 := by
  unfold predAtLvl
  exact predScan_stop s L i target 0
    (by rw [succNat_ge_level s L hlv hne i hi]; omega) L.length

theorem maxLevelOver_ge (s : SkipList) (l : List Nat) (a : Nat) (ha : a ∈ l) :
    (s.nodeAt a).level ≤ maxLevelOver s l := by
  unfold maxLevelOver
  induction l with
  | nil => cases ha
  | cons b l ih =>
    rw [List.map_cons, List.foldr_cons]
    rcases List.mem_cons.mp ha with h | h
    · subst h
      exact Nat.le_max_left _ _
    · exact le_trans (ih h) (Nat.le_max_right _ _)

theorem maxLevelOver_mem (s : SkipList) (l : List Nat) (hne : l ≠ []) :
    ∃ a ∈ l, (s.nodeAt a).level = maxLevelOver s l := by
  unfold maxLevelOver
  induction l with
  | nil => exact absurd rfl hne
  | cons b l ih =>
    rw [List.map_cons, List.foldr_cons]
    cases l with
    | nil =>
      refine ⟨b, List.mem_cons_self _ _, ?_⟩
      simp [maxLevelOver]
    | cons c l' =>
      obtain ⟨a, ha, haeq⟩ := ih (by simp)
      by_cases hcmp : ((c :: l').map (fun a => (s.nodeAt a).level)).foldr max 0
          ≤ (s.nodeAt b).level
      · refine ⟨b, List.mem_cons_self _ _, ?_⟩
        omega
      · refine ⟨a, List.mem_cons_of_mem _ ha, ?_⟩
        omega

/-- The advance loop of `GetByPos`: starting on a level-`i` chain tower at
spine position `≤ k + 1`, it stops on the last chain tower at position
`≤ k + 1`. -/
theorem posLevel_adv (s : SkipList) (L : List Nat) (h00 : L.getD 0 0 = 0)
    (hlk : LinksOk s L) (k : Int) (i : Nat) (hi : i < s.Level) :
    ∀ (f j : Nat), ChainMem s L i j → ((j : Int) ≤ k + 1) → L.length ≤ j + f →
      ∃ p, posLevel s k i f (L.getD j 0) ((j : Int) - 1) = (L.getD p 0, (p : Int) - 1) ∧
        ChainMem s L i p ∧ j ≤ p ∧ ((p : Int) ≤ k + 1) ∧
        (succNat s L i p < L.length → ¬ ((succNat s L i p : Int) ≤ k + 1)) := by
  intro f
  induction f with
  | zero =>
    intro j hc hk hf
    exact absurd hc.1 (by omega)
  | succ f ih =>
    intro j hc hk hf
    have hlv := chain_lvl s L h00 i j hc hi
    obtain ⟨hdist, hnext⟩ := hlk j hc.1 i hlv
    obtain ⟨ha, hb, hcc, hd⟩ := succNat_spec s L i j hc.1
    by_cases hsl : succNat s L i j < L.length
    · have heq : posLevel s k i (f + 1) (L.getD j 0) ((j : Int) - 1)
          = if ((j : Int) - 1) + (s.nodeAt (L.getD j 0)).distAt i ≤ k then
              posLevel s k i f (L.getD (succNat s L i j) 0)
                (((j : Int) - 1) + (s.nodeAt (L.getD j 0)).distAt i)
            else (L.getD j 0, (j : Int) - 1) := by
        conv_lhs => rw [posLevel]
        rw [hnext, if_pos hsl]
      rw [heq]
      have hposv : ((j : Int) - 1) + (s.nodeAt (L.getD j 0)).distAt i
          = ((succNat s L i j : Int) - 1) := by
        rw [hdist]
        omega
      by_cases hcnd : ((j : Int) - 1) + (s.nodeAt (L.getD j 0)).distAt i ≤ k
      · rw [if_pos hcnd, hposv]
        have hsk1 : ((succNat s L i j : Int)) ≤ k + 1 := by omega
        obtain ⟨p, hres, hcp, hjp, hkp, hst⟩ := ih (succNat s L i j)
          ⟨hsl, Or.inr (hcc hsl)⟩ hsk1 (by omega)
        exact ⟨p, hres, hcp, by omega, hkp, hst⟩
      · rw [if_neg hcnd]
        refine ⟨j, rfl, hc, le_refl _, hk, fun _ => ?_⟩
        omega
    · have hnone : (s.nodeAt (L.getD j 0)).nextAt i = none := by
        rw [hnext, if_neg hsl]
      have heq : posLevel s k i (f + 1) (L.getD j 0) ((j : Int) - 1)
          = (L.getD j 0, (j : Int) - 1) := by
        conv_lhs => rw [posLevel]
        rw [hnone]
      rw [heq]
      exact ⟨j, rfl, hc, le_refl _, hk, fun h => absurd h hsl⟩

/-- The advance loop of `RemoveByPos` (strict bound): stops on the last
level-`i` chain tower at position `≤ k`. -/
theorem posLevelStrict_adv (s : SkipList) (L : List Nat) (h00 : L.getD 0 0 = 0)
    (hlk : LinksOk s L) (k : Int) (i : Nat) (hi : i < s.Level) :
    ∀ (f j : Nat), ChainMem s L i j → ((j : Int) ≤ k) → L.length ≤ j + f →
      ∃ p, posLevelStrict s k i f (L.getD j 0) ((j : Int) - 1) = (L.getD p 0, (p : Int) - 1) ∧
        ChainMem s L i p ∧ j ≤ p ∧ ((p : Int) ≤ k) ∧
        (succNat s L i p < L.length → ¬ ((succNat s L i p : Int) ≤ k)) := by
  intro f
  induction f with
  | zero =>
    intro j hc hk hf
    exact absurd hc.1 (by omega)
  | succ f ih =>
    intro j hc hk hf
    have hlv := chain_lvl s L h00 i j hc hi
    obtain ⟨hdist, hnext⟩ := hlk j hc.1 i hlv
    obtain ⟨ha, hb, hcc, hd⟩ := succNat_spec s L i j hc.1
    by_cases hsl : succNat s L i j < L.length
    · have heq : posLevelStrict s k i (f + 1) (L.getD j 0) ((j : Int) - 1)
          = if ((j : Int) - 1) + (s.nodeAt (L.getD j 0)).distAt i < k then
              posLevelStrict s k i f (L.getD (succNat s L i j) 0)
                (((j : Int) - 1) + (s.nodeAt (L.getD j 0)).distAt i)
            else (L.getD j 0, (j : Int) - 1) := by
        conv_lhs => rw [posLevelStrict]
        rw [hnext, if_pos hsl]
      rw [heq]
      have hposv : ((j : Int) - 1) + (s.nodeAt (L.getD j 0)).distAt i
          = ((succNat s L i j : Int) - 1) := by
        rw [hdist]
        omega
      by_cases hcnd : ((j : Int) - 1) + (s.nodeAt (L.getD j 0)).distAt i < k
      · rw [if_pos hcnd, hposv]
        obtain ⟨p, hres, hcp, hjp, hkp, hst⟩ := ih (succNat s L i j)
          ⟨hsl, Or.inr (hcc hsl)⟩ (by omega) (by omega)
        exact ⟨p, hres, hcp, by omega, hkp, hst⟩
      · rw [if_neg hcnd]
        refine ⟨j, rfl, hc, le_refl _, hk, fun _ => ?_⟩
        omega
    · have hnone : (s.nodeAt (L.getD j 0)).nextAt i = none := by
        rw [hnext, if_neg hsl]
      have heq : posLevelStrict s k i (f + 1) (L.getD j 0) ((j : Int) - 1)
          = (L.getD j 0, (j : Int) - 1) := by
        conv_lhs => rw [posLevelStrict]
        rw [hnone]
      rw [heq]
      exact ⟨j, rfl, hc, le_refl _, hk, fun h => absurd h hsl⟩

/-- The `GetByPos` descent invariant: the final cursor is the last level-0
tower at position `≤ k + 1` (reached through the levels). -/
theorem posDescend_inv (s : SkipList) (L : List Nat) (h00 : L.getD 0 0 = 0)
    (hlk : LinksOk s L) (hnlen : L.length ≤ s.nodes.length) (k : Int) :
    ∀ (i0 : Nat), i0 ≤ s.Level → ∀ j, ChainMem s L i0 j → ((j : Int) ≤ k + 1) →
      ∃ p, posDescend s k i0 (L.getD j 0) ((j : Int) - 1) = (L.getD p 0, (p : Int) - 1) ∧
        j ≤ p ∧ p < L.length ∧ ((p : Int) ≤ k + 1) ∧
        (i0 = 0 → p = j) ∧
        (0 < i0 → (succNat s L 0 p < L.length → ¬ ((succNat s L 0 p : Int) ≤ k + 1))) := by
  intro i0
  induction i0 with
  | zero =>
    intro _ j hc hk
    exact ⟨j, rfl, le_refl _, hc.1, hk, fun _ => rfl, fun h => absurd h (by omega)⟩
  | succ i0 ih =>
    intro hle j hc hk
    have hi0 : i0 < s.Level := by omega
    obtain ⟨q, hres, hcq, hjq, hkq, hstq⟩ :=
      posLevel_adv s L h00 hlk k i0 hi0 s.nodes.length j (chainMem_mono s L i0 j hc) hk
        (by omega)
    have hstep : posDescend s k (i0 + 1) (L.getD j 0) ((j : Int) - 1)
        = posDescend s k i0 (posLevel s k i0 s.nodes.length (L.getD j 0) ((j : Int) - 1)).1
            (posLevel s k i0 s.nodes.length (L.getD j 0) ((j : Int) - 1)).2 := rfl
    rw [hstep, hres]
    obtain ⟨p, hp1, hp2, hp3, hp4, hp5, hp6⟩ := ih (by omega) q hcq hkq
    refine ⟨p, hp1, by omega, hp3, hp4, fun h => absurd h (by omega), fun _ => ?_⟩
    by_cases hz : i0 = 0
    · have hpq := hp5 hz
      subst hz
      rw [hpq]
      exact hstq
    · exact hp6 (by omega)

/-- The `RemoveByPos` descent records, at every level, the last level-`i`
chain tower at position `≤ k`. -/
theorem posSearchUpd_eq (s : SkipList) (L : List Nat) (h00 : L.getD 0 0 = 0)
    (hlk : LinksOk s L) (hnlen : L.length ≤ s.nodes.length) (k : Int) :
    ∀ (i0 : Nat), i0 ≤ s.Level → ∀ j, ChainMem s L i0 j → ((j : Int) ≤ k) →
      ∃ u : Nat → Nat,
        posSearchUpd s k i0 (L.getD j 0) ((j : Int) - 1)
          = (List.range i0).map (fun i => (L.getD (u i) 0, (u i : Int) - 1)) ∧
        ∀ i, i < i0 → ChainMem s L i (u i) ∧ ((u i : Int) ≤ k) ∧
          (succNat s L i (u i) < L.length → ¬ ((succNat s L i (u i) : Int) ≤ k)) := by
  intro i0
  induction i0 with
  | zero =>
    intro _ j _ _
    exact ⟨fun _ => 0, rfl, fun i hi => absurd hi (by omega)⟩
  | succ i0 ih =>
    intro hle j hc hk
    have hi0 : i0 < s.Level := by omega
    obtain ⟨q, hres, hcq, hjq, hkq, hstq⟩ :=
      posLevelStrict_adv s L h00 hlk k i0 hi0 s.nodes.length j
        (chainMem_mono s L i0 j hc) hk (by omega)
    have hstep : posSearchUpd s k (i0 + 1) (L.getD j 0) ((j : Int) - 1)
        = posSearchUpd s k i0
            (posLevelStrict s k i0 s.nodes.length (L.getD j 0) ((j : Int) - 1)).1
            (posLevelStrict s k i0 s.nodes.length (L.getD j 0) ((j : Int) - 1)).2
          ++ [posLevelStrict s k i0 s.nodes.length (L.getD j 0) ((j : Int) - 1)] := rfl
    rw [hstep, hres]
    obtain ⟨u', hu1, hu2⟩ := ih (by omega) q hcq hkq
    refine ⟨fun i => if i = i0 then q else u' i, ?_, ?_⟩
    · rw [hu1, List.range_succ, List.map_append, List.map_cons, List.map_nil]
      have hcong : (List.range i0).map (fun i => (L.getD (u' i) 0, ((u' i : Nat) : Int) - 1))
          = (List.range i0).map
              (fun i => (L.getD (if i = i0 then q else u' i) 0,
                ((if i = i0 then q else u' i : Nat) : Int) - 1)) := by
        apply List.map_congr_left
        intro a ha
        have : a < i0 := List.mem_range.mp ha
        rw [if_neg (by omega)]
      rw [← hcong]
      simp
    · intro i hi
      dsimp only
      by_cases hii : i = i0
      · subst hii
        have hred : (if i = i then q else u' i) = q := if_pos rfl
        rw [hred]
        exact ⟨hcq, hkq, hstq⟩
      · rw [if_neg hii]
        exact hu2 i (by omega)

theorem getD_eq_getElem {α : Type} (L : List α) (d : α) (j : Nat) (h : j < L.length) :
    L.getD j d = L[j] := by
  rw [List.getD_eq_getElem?_getD, List.getElem?_eq_getElem h]
  rfl

theorem getD_inj (L : List Nat) (hnd : L.Nodup) (j j' : Nat) (hj : j < L.length)
    (hj' : j' < L.length) (h : L.getD j 0 = L.getD j' 0) : j = j' := by
  rw [getD_eq_getElem L 0 j hj, getD_eq_getElem L 0 j' hj'] at h
  exact (hnd.getElem_inj_iff).mp h

theorem getD_mem (L : List Nat) (j : Nat) (h : j < L.length) : L.getD j 0 ∈ L := by
  rw [getD_eq_getElem L 0 j h]
  exact List.getElem_mem h

theorem head_cons_tail (L : List Nat) (hne : L ≠ []) (h00 : L.getD 0 0 = 0) :
    L = 0 :: L.tail := by
  cases L with
  | nil => exact absurd rfl hne
  | cons a l =>
    simp only [List.getD_cons_zero] at h00
    rw [h00]
    rfl

theorem nodeAt_append_lt (s : SkipList) (n : Node) (z : Nat) (hz : z < s.nodes.length) :
    SkipList.nodeAt { s with nodes := s.nodes ++ [n] } z = s.nodeAt z := by
  unfold SkipList.nodeAt
  simp only [List.getD_eq_getElem?_getD]
  rw [List.getElem?_append, if_pos hz]

theorem nodeAt_append_self (s : SkipList) (n : Node) :
    SkipList.nodeAt { s with nodes := s.nodes ++ [n] } s.nodes.length = n := by
  unfold SkipList.nodeAt
  simp only [List.getD_eq_getElem?_getD]
  rw [List.getElem?_concat_length]
  rfl

theorem level_pos_of_two (s : SkipList) (L : List Nat) (h00 : L.getD 0 0 = 0)
    (hne : L ≠ []) (hlv : LevelsOk s L) (hhm : HeadMax s L) (h2 : 2 ≤ L.length) :
    1 ≤ s.Level := by
  have htl : L.tail.length = L.length - 1 := List.length_tail L
  have hmem : L.getD 1 0 ∈ L.tail := by
    have hcons := head_cons_tail L hne h00
    have : L.getD 1 0 = L.tail.getD 0 0 := by
      conv_lhs => rw [hcons]
      rw [List.getD_cons_succ]
    rw [this]
    exact getD_mem L.tail 0 (by omega)
  have hge := maxLevelOver_ge s L.tail (L.getD 1 0) hmem
  have h1 := (hlv 1 (by omega) (le_refl 1)).1
  rw [hhm]
  omega

theorem level_zero_of_one (s : SkipList) (L : List Nat) (hhm : HeadMax s L)
    (h1 : L.length = 1) : s.Level = 0 := by
  have : L.tail = [] := by
    have := List.length_tail L
    rw [h1] at this
    exact List.eq_nil_of_length_eq_zero this
  rw [hhm, this]
  rfl

/-- Which branch `Set` takes, given the invariant: override exactly when the
level-0 successor of the search predecessor carries the key. -/
theorem Set_branches (s : SkipList) (L : List Nat) (hInv : InvAt s L) (nl : Nat)
    (target value : Int) :
    (¬ (predAtLvl s L 0 target + 1 < L.length ∧
        (s.nodeAt (L.getD (predAtLvl s L 0 target + 1) 0)).key = target) →
      s.Set nl target value
        = setInsert s (searchUpd s target s.Level 0 (-1))
            ((predAtLvl s L 0 target : Int) - 1) nl target value) ∧
    ((predAtLvl s L 0 target + 1 < L.length ∧
        (s.nodeAt (L.getD (predAtLvl s L 0 target + 1) 0)).key = target) →
      s.Set nl target value
        = (s.setNode (L.getD (predAtLvl s L 0 target + 1) 0)
            { s.nodeAt (L.getD (predAtLvl s L 0 target + 1) 0) with value := value },
           (some (L.getD (predAtLvl s L 0 target + 1) 0),
            (predAtLvl s L 0 target : Int) - 1, false))) := by
  obtain ⟨hsp, hvi, hnd, hco, hlv, hhm, hsk, hdl, hlk⟩ := hInv
  obtain ⟨hne, h00, hch, hla⟩ := hsp
  have hlen : 0 < L.length := List.length_pos.mpr hne
  have hnlen : L.length ≤ s.nodes.length :=
    length_le_of_nodup_lt L s.nodes.length hnd (validIds_mem s L hvi)
  have hcur := searchCursor_eq s L h00 hlk hsk hlv hne hnlen target
  have hdef : s.Set nl target value = (
      if (s.nodeAt ((searchUpd s target s.Level 0 (-1)).getD 0 (0, -1)).1).next.length > 0 then
        match (s.nodeAt ((searchUpd s target s.Level 0 (-1)).getD 0 (0, -1)).1).nextAt 0 with
        | some y =>
          if (s.nodeAt y).key = target then
            (s.setNode y { s.nodeAt y with value := value },
             (some y, ((searchUpd s target s.Level 0 (-1)).getD 0 (0, -1)).2, false))
          else setInsert s (searchUpd s target s.Level 0 (-1))
            ((searchUpd s target s.Level 0 (-1)).getD 0 (0, -1)).2 nl target value
        | none => setInsert s (searchUpd s target s.Level 0 (-1))
            ((searchUpd s target s.Level 0 (-1)).getD 0 (0, -1)).2 nl target value
      else setInsert s (searchUpd s target s.Level 0 (-1))
        ((searchUpd s target s.Level 0 (-1)).getD 0 (0, -1)).2 nl target value) := rfl
  rw [hdef, hcur]
  dsimp only
  by_cases h1 : L.length = 1
  · have hp00 : predAtLvl s L 0 target = 0 := predAtLvl_len_one s L h1 0 target
    have hL0 : s.Level = 0 := level_zero_of_one s L hhm h1
    have hlv0 : ¬ (s.nodeAt (L.getD (predAtLvl s L 0 target) 0)).next.length > 0 := by
      rw [hp00, h00]
      have : (s.nodeAt 0).next.length = s.Level := rfl
      omega
    rw [if_neg hlv0]
    exact ⟨fun _ => rfl, fun hcon => absurd hcon.1 (by omega)⟩
  · have h2 : 2 ≤ L.length := by omega
    have hL1 : 1 ≤ s.Level := level_pos_of_two s L h00 hne hlv hhm h2
    have hp0spec := predAtLvl_spec s L h00 hne target 0
    have hp0len : predAtLvl s L 0 target < L.length := hp0spec.1.1
    have hlvlp0 : 0 < (s.nodeAt (L.getD (predAtLvl s L 0 target) 0)).level :=
      chain_lvl s L h00 0 (predAtLvl s L 0 target) hp0spec.1 (by omega)
    have hlvlp0' : (s.nodeAt (L.getD (predAtLvl s L 0 target) 0)).next.length > 0 := hlvlp0
    rw [if_pos hlvlp0']
    have hnx : (s.nodeAt (L.getD (predAtLvl s L 0 target) 0)).nextAt 0
        = if predAtLvl s L 0 target + 1 < L.length
          then some (L.getD (predAtLvl s L 0 target + 1) 0) else none := by
      have hx := (hlk (predAtLvl s L 0 target) hp0len 0 hlvlp0).2
      rw [succNat_zero s L hlv (predAtLvl s L 0 target) hp0len] at hx
      exact hx
    by_cases hplt : predAtLvl s L 0 target + 1 < L.length
    · rw [hnx, if_pos hplt]
      by_cases hkey : (s.nodeAt (L.getD (predAtLvl s L 0 target + 1) 0)).key = target
      · refine ⟨fun hnf => absurd ⟨hplt, hkey⟩ hnf, fun _ => ?_⟩
        show (if (s.nodeAt (L.getD (predAtLvl s L 0 target + 1) 0)).key = target then _ else _) = _
        rw [if_pos hkey]
      · refine ⟨fun _ => ?_, fun hcon => absurd hcon.2 hkey⟩
        show (if (s.nodeAt (L.getD (predAtLvl s L 0 target + 1) 0)).key = target then _ else _) = _
        rw [if_neg hkey]
    · rw [hnx, if_neg hplt]
      exact ⟨fun _ => rfl, fun hcon => absurd hcon.1 hplt⟩

theorem succScan_congr (s s' : SkipList) (L : List Nat) (i : Nat)
    (h : ∀ z, (s'.nodeAt z).level = (s.nodeAt z).level) :
    ∀ f m, succScan s' L i f m = succScan s L i f m := by
  intro f
  induction f with
  | zero => intro m; rfl
  | succ f ih =>
    intro m
    unfold succScan
    rw [h, ih]

theorem succNat_congr (s s' : SkipList) (L : List Nat) (i : Nat)
    (h : ∀ z, (s'.nodeAt z).level = (s.nodeAt z).level) (j : Nat) :
    succNat s' L i j = succNat s L i j := by
  unfold succNat
  rw [succScan_congr s s' L i h]

/-- The invariant only mentions keys, links, distances and the count, so any
state agreeing on those (e.g. after a value overwrite) satisfies it too. -/
theorem InvAt_pointwise (s s' : SkipList) (L : List Nat)
    (hc : s'.count = s.count) (hl : s'.nodes.length = s.nodes.length)
    (hn : ∀ z, (s'.nodeAt z).key = (s.nodeAt z).key ∧
      (s'.nodeAt z).next = (s.nodeAt z).next ∧ (s'.nodeAt z).dist = (s.nodeAt z).dist)
    (hInv : InvAt s L) : InvAt s' L := by
  obtain ⟨⟨hne, h00, hch, hla⟩, hvi, hnd, hco, hlv, hhm, hsk, hdl, hlk⟩ := hInv
  have hlvl : ∀ z, (s'.nodeAt z).level = (s.nodeAt z).level := by
    intro z
    unfold Node.level
    rw [(hn z).2.1]
  have hNext : ∀ z, (s'.nodeAt z).Next = (s.nodeAt z).Next := by
    intro z
    unfold Node.Next
    rw [(hn z).2.1]
  have hnxt : ∀ z i, (s'.nodeAt z).nextAt i = (s.nodeAt z).nextAt i := by
    intro z i
    unfold Node.nextAt
    rw [(hn z).2.1]
  have hdst : ∀ z i, (s'.nodeAt z).distAt i = (s.nodeAt z).distAt i := by
    intro z i
    unfold Node.distAt
    rw [(hn z).2.2]
  have hLev : s'.Level = s.Level := hlvl 0
  have hmax : ∀ l, maxLevelOver s' l = maxLevelOver s l := by
    intro l
    unfold maxLevelOver
    congr 1
    apply List.map_congr_left
    intro a _
    exact hlvl a
  have hsn : ∀ i j, succNat s' L i j = succNat s L i j :=
    fun i j => succNat_congr s s' L i hlvl j
  refine ⟨⟨hne, h00, ?_, ?_⟩, ?_, hnd, ?_, ?_, ?_, ?_, ?_, ?_⟩
  · intro j hj
    rw [hNext]
    exact hch j hj
  · rw [hNext]
    exact hla
  · intro j hj
    rw [hl]
    exact hvi j hj
  · unfold CountOk
    rw [hc]
    exact hco
  · intro j hj h1
    rw [hlvl, hLev]
    exact hlv j hj h1
  · unfold HeadMax
    rw [hLev, hmax]
    exact hhm
  · intro j hj j' hj' h1 hlt
    rw [(hn _).1, (hn _).1]
    exact hsk j hj j' hj' h1 hlt
  · intro j hj
    unfold Node.level
    rw [(hn _).2.1, (hn _).2.2]
    exact hdl j hj
  · intro j hj i hi
    rw [hlvl] at hi
    rw [hsn, hnxt, hdst]
    exact hlk j hj i hi

theorem searchUpd_full (s : SkipList) (L : List Nat) (h00 : L.getD 0 0 = 0)
    (hlk : LinksOk s L) (hsk : SortedKeys s L) (hne : L ≠ [])
    (hnlen : L.length ≤ s.nodes.length) (target : Int) :
    searchUpd s target s.Level 0 (-1)
      = (List.range s.Level).map
          (fun i => (L.getD (predAtLvl s L i target) 0, (predAtLvl s L i target : Int) - 1)) := by
  have hlen : 0 < L.length := List.length_pos.mpr hne
  have hstart : searchUpd s target s.Level 0 (-1)
      = searchUpd s target s.Level (L.getD 0 0) (((0 : Nat) : Int) - 1) := by
    rw [h00]
    norm_num
  rw [hstart]
  exact searchUpd_eq s L h00 hlk hsk hne hnlen target s.Level (le_refl _) 0
    ⟨hlen, Or.inl rfl⟩ (Or.inl rfl)

/-- Facts about the per-level search predecessors, relative to the level-0
predecessor `p0`: all keys up to `p0` are below `target`, all keys after it
at least `target`, every `predAtLvl i` lies at or before `p0`, and its
level-`i` successor lies strictly after `p0`. -/
theorem search_prefacts (s : SkipList) (L : List Nat) (h00 : L.getD 0 0 = 0)
    (hne : L ≠ []) (hlv : LevelsOk s L) (hsk : SortedKeys s L) (target : Int) :
    (∀ t, 1 ≤ t → t ≤ predAtLvl s L 0 target → (s.nodeAt (L.getD t 0)).key < target) ∧
    (∀ t, predAtLvl s L 0 target + 1 ≤ t → t < L.length →
      target ≤ (s.nodeAt (L.getD t 0)).key) ∧
    (∀ i, predAtLvl s L i target ≤ predAtLvl s L 0 target) ∧
    (∀ i, predAtLvl s L 0 target < succNat s L i (predAtLvl s L i target)) ∧
    (∀ i t, ChainMem s L i t → t ≤ predAtLvl s L 0 target →
      t ≤ predAtLvl s L i target) := by
  have hP := fun i => predAtLvl_spec s L h00 hne target i
  have hp0lt : predAtLvl s L 0 target < L.length := (hP 0).1.1
  have hsz : succNat s L 0 (predAtLvl s L 0 target) = predAtLvl s L 0 target + 1 :=
    succNat_zero s L hlv _ hp0lt
  have hleft : ∀ t, 1 ≤ t → t ≤ predAtLvl s L 0 target →
      (s.nodeAt (L.getD t 0)).key < target := by
    intro t h1 h2
    have hp0ne : predAtLvl s L 0 target ≠ 0 := by omega
    have hkp0 : (s.nodeAt (L.getD (predAtLvl s L 0 target) 0)).key < target := by
      rcases (hP 0).2.1 with h | h
      · exact absurd h hp0ne
      · exact h
    by_cases hte : t = predAtLvl s L 0 target
    · rw [hte]
      exact hkp0
    · exact lt_trans (hsk t (by omega) (predAtLvl s L 0 target) hp0lt h1 (by omega)) hkp0
  have hright : ∀ t, predAtLvl s L 0 target + 1 ≤ t → t < L.length →
      target ≤ (s.nodeAt (L.getD t 0)).key := by
    intro t h1 h2
    have hstop : ¬ (s.nodeAt (L.getD (predAtLvl s L 0 target + 1) 0)).key < target := by
      have := (hP 0).2.2
      rw [hsz] at this
      exact this (by omega)
    by_cases hte : t = predAtLvl s L 0 target + 1
    · rw [hte]
      omega
    · have := hsk (predAtLvl s L 0 target + 1) (by omega) t h2 (by omega) (by omega)
      omega
  have hPsucc : ∀ i, predAtLvl s L 0 target < succNat s L i (predAtLvl s L i target) := by
    intro i
    by_contra hc
    have hile : succNat s L i (predAtLvl s L i target) ≤ predAtLvl s L 0 target := by omega
    obtain ⟨ha, hb, hcc, hd⟩ := succNat_spec s L i (predAtLvl s L i target) (hP i).1.1
    have h1 : 1 ≤ succNat s L i (predAtLvl s L i target) := by omega
    have hk := hleft _ h1 hile
    have := (hP i).2.2 (by omega)
    exact this hk
  have hchle : ∀ i t, ChainMem s L i t → t ≤ predAtLvl s L 0 target →
      t ≤ predAtLvl s L i target := by
    intro i t hct ht
    by_contra hc
    obtain ⟨ha, hb, hcc, hd⟩ := succNat_spec s L i (predAtLvl s L i target) (hP i).1.1
    have hts : succNat s L i (predAtLvl s L i target) ≤ t := by
      by_contra hc2
      have hmem : i < (s.nodeAt (L.getD t 0)).level := by
        rcases hct.2 with h | h
        · omega
        · exact h
      exact hd t (by omega) (by omega) hmem
    have := hPsucc i
    omega
  have hPle : ∀ i, predAtLvl s L i target ≤ predAtLvl s L 0 target := by
    intro i
    by_contra hc
    have h1 : predAtLvl s L 0 target + 1 ≤ predAtLvl s L i target := by omega
    have hPine : predAtLvl s L i target ≠ 0 := by omega
    have hki : (s.nodeAt (L.getD (predAtLvl s L i target) 0)).key < target := by
      rcases (hP i).2.1 with h | h
      · exact absurd h hPine
      · exact h
    have := hright _ h1 (hP i).1.1
    omega
  exact ⟨hleft, hright, hPle, hPsucc, hchle⟩

theorem length_insertAt (L : List Nat) (m a : Nat) (hm : m ≤ L.length) :
    (insertAt L m a).length = L.length + 1 := by
  unfold insertAt
  simp only [List.length_append, List.length_take, List.length_cons, List.length_drop]
  omega

theorem getD_insertAt_lt (L : List Nat) (m a j d : Nat) (hj : j < m) (hm : m ≤ L.length) :
    (insertAt L m a).getD j d = L.getD j d := by
  unfold insertAt
  have hlt : j < (L.take m).length := by
    simp only [List.length_take]
    omega
  simp only [List.getD_eq_getElem?_getD, List.getElem?_append, if_pos hlt,
    List.getElem?_take, if_pos hj]

theorem getD_insertAt_self (L : List Nat) (m a d : Nat) (hm : m ≤ L.length) :
    (insertAt L m a).getD m d = a := by
  unfold insertAt
  have hlen : (L.take m).length = m := by
    simp only [List.length_take]
    omega
  have hge : (L.take m).length ≤ m := le_of_eq hlen
  simp only [List.getD_eq_getElem?_getD, List.getElem?_append_right hge, hlen,
    Nat.sub_self, List.getElem?_cons_zero, Option.getD_some]

theorem getD_insertAt_gt (L : List Nat) (m a j d : Nat) (hj : m < j) (hm : m ≤ L.length) :
    (insertAt L m a).getD j d = L.getD (j - 1) d := by
  unfold insertAt
  have hlen : (L.take m).length = m := by
    simp only [List.length_take]
    omega
  have hge : (L.take m).length ≤ j := by omega
  have hsub : j - (L.take m).length = (j - m - 1) + 1 := by omega
  have hidx : m + (j - m - 1) = j - 1 := by omega
  simp only [List.getD_eq_getElem?_getD, List.getElem?_append_right hge, hsub,
    List.getElem?_cons_succ, List.getElem?_drop, hidx]

theorem insertAt_perm (L : List Nat) (m a : Nat) :
    (insertAt L m a).Perm (a :: L) := by
  unfold insertAt
  have h : (L.take m ++ a :: L.drop m).Perm (a :: (L.take m ++ L.drop m)) :=
    List.perm_middle
  simpa [List.take_append_drop] using h

theorem nodup_insertAt (L : List Nat) (m a : Nat) (h : L.Nodup) (ha : a ∉ L) :
    (insertAt L m a).Nodup :=
  ((insertAt_perm L m a).nodup_iff).mpr (List.nodup_cons.mpr ⟨ha, h⟩)

theorem mem_insertAt (L : List Nat) (m a b : Nat) :
    b ∈ insertAt L m a ↔ b = a ∨ b ∈ L := by
  rw [(insertAt_perm L m a).mem_iff]
  simp

theorem length_eraseAt (L : List Nat) (m : Nat) (hm : m < L.length) :
    (eraseAt L m).length = L.length - 1 := by
  unfold eraseAt
  simp only [List.length_append, List.length_take, List.length_drop]
  omega

theorem getD_eraseAt_lt (L : List Nat) (m j d : Nat) (hj : j < m) (hm : m ≤ L.length) :
    (eraseAt L m).getD j d = L.getD j d := by
  unfold eraseAt
  have hlt : j < (L.take m).length := by
    simp only [List.length_take]
    omega
  simp only [List.getD_eq_getElem?_getD, List.getElem?_append, if_pos hlt,
    List.getElem?_take, if_pos hj]

theorem getD_eraseAt_ge (L : List Nat) (m j d : Nat) (hj : m ≤ j) (hm : m ≤ L.length) :
    (eraseAt L m).getD j d = L.getD (j + 1) d := by
  unfold eraseAt
  have hlen : (L.take m).length = m := by
    simp only [List.length_take]
    omega
  have hge : (L.take m).length ≤ j := by omega
  have hidx : m + 1 + (j - m) = j + 1 := by omega
  simp only [List.getD_eq_getElem?_getD, List.getElem?_append_right hge, hlen,
    List.getElem?_drop, hidx]

theorem eraseAt_sublist (L : List Nat) (m : Nat) : (eraseAt L m).Sublist L := by
  unfold eraseAt
  have h1 : L.drop (m + 1) = (L.drop m).drop 1 := by
    rw [List.drop_drop]
  have h2 : (L.drop m).drop 1 = (L.drop m).tail := List.drop_one _
  have hsub : (L.take m ++ L.drop (m + 1)).Sublist (L.take m ++ L.drop m) := by
    rw [h1, h2]
    exact (List.tail_sublist _).append_left _
  simpa [List.take_append_drop] using hsub

theorem nodup_eraseAt (L : List Nat) (m : Nat) (h : L.Nodup) : (eraseAt L m).Nodup :=
  (eraseAt_sublist L m).nodup h

theorem mem_eraseAt (L : List Nat) (m b : Nat) (h : b ∈ eraseAt L m) : b ∈ L :=
  (eraseAt_sublist L m).mem h

theorem Node.Next_eq_nextAt (n : Node) : n.Next = n.nextAt 0 := by
  unfold Node.Next Node.nextAt
  by_cases h : n.next.length > 0
  · simp [h]
  · have : n.next = [] := List.eq_nil_of_length_eq_zero (Nat.eq_zero_of_not_pos h)
    simp [h, this]

theorem Node.nextAt_none (n : Node) (i : Nat) (h : n.next.length ≤ i) :
    n.nextAt i = none := by
  unfold Node.nextAt
  rw [List.getD_eq_getElem?_getD, List.getElem?_eq_none h]
  rfl

theorem getD_take_lt {α : Type} (l : List α) (n i : Nat) (d : α) (h : i < n) :
    (l.take n).getD i d = l.getD i d := by
  rw [List.getD_eq_getElem?_getD, List.getD_eq_getElem?_getD, List.getElem?_take,
    if_pos h]

theorem shrinkLevel_key (n : Node) (lv : Nat) : (n.shrinkLevel lv).key = n.key := by
  unfold Node.shrinkLevel
  split <;> rfl

theorem shrinkLevel_value (n : Node) (lv : Nat) : (n.shrinkLevel lv).value = n.value := by
  unfold Node.shrinkLevel
  split <;> rfl

theorem shrinkLevel_level (n : Node) (lv : Nat) (h : lv ≤ n.level) :
    (n.shrinkLevel lv).level = lv := by
  unfold Node.shrinkLevel
  by_cases hc : lv < n.level
  · rw [if_pos hc]
    show (n.next.take lv).length = lv
    rw [List.length_take]
    have : n.level = n.next.length := rfl
    omega
  · rw [if_neg hc]
    omega

theorem shrinkLevel_nextAt (n : Node) (lv i : Nat) (h : i < lv) :
    (n.shrinkLevel lv).nextAt i = n.nextAt i := by
  unfold Node.shrinkLevel
  by_cases hc : lv < n.level
  · rw [if_pos hc]
    show (n.next.take lv).getD i none = n.next.getD i none
    exact getD_take_lt n.next lv i none h
  · rw [if_neg hc]

theorem shrinkLevel_distAt (n : Node) (lv i : Nat) (h : i < lv) :
    (n.shrinkLevel lv).distAt i = n.distAt i := by
  unfold Node.shrinkLevel
  by_cases hc : lv < n.level
  · rw [if_pos hc]
    show (n.dist.take lv).getD i 0 = n.dist.getD i 0
    exact getD_take_lt n.dist lv i 0 h
  · rw [if_neg hc]

theorem shrinkLevel_distLen (n : Node) (lv : Nat) (hd : n.dist.length = n.level) :
    (n.shrinkLevel lv).dist.length = (n.shrinkLevel lv).level := by
  unfold Node.shrinkLevel
  by_cases hc : lv < n.level
  · rw [if_pos hc]
    show (n.dist.take lv).length = (n.next.take lv).length
    rw [List.length_take, List.length_take]
    have : n.level = n.next.length := rfl
    omega
  · rw [if_neg hc]
    exact hd

theorem shrinkLoop_spec (s : SkipList) : ∀ n,
    shrinkLoop s n ≤ n ∧
    (∀ i, shrinkLoop s n ≤ i → i < n → (s.nodeAt 0).nextAt i = none) ∧
    (shrinkLoop s n = 0 ∨ (s.nodeAt 0).nextAt (shrinkLoop s n - 1) ≠ none) := by
  intro n
  induction n with
  | zero =>
    exact ⟨le_refl _, fun i h1 h2 => absurd h2 (by omega), Or.inl rfl⟩
  | succ n ih =>
    unfold shrinkLoop
    by_cases hc : (s.nodeAt 0).nextAt n = none
    · rw [if_pos hc]
      obtain ⟨a, b, c⟩ := ih
      refine ⟨by omega, ?_, c⟩
      intro i h1 h2
      by_cases hin : i = n
      · subst hin
        exact hc
      · exact b i h1 (by omega)
    · rw [if_neg hc]
      exact ⟨le_refl _, fun i h1 h2 => absurd h2 (by omega), Or.inr hc⟩

theorem mem_tail_pos (L : List Nat) (hne : L ≠ []) (h00 : L.getD 0 0 = 0) (a : Nat)
    (ha : a ∈ L.tail) : ∃ t, 1 ≤ t ∧ t < L.length ∧ L.getD t 0 = a := by
  obtain ⟨idx, hidx, heq⟩ := List.mem_iff_getElem.mp ha
  have htl : L.tail.length = L.length - 1 := List.length_tail _
  refine ⟨idx + 1, by omega, by omega, ?_⟩
  have h1 : L.getD (idx + 1) 0 = L.tail.getD idx 0 := by
    conv_lhs => rw [head_cons_tail L hne h00]
    rw [List.getD_cons_succ]
  rw [h1, getD_eq_getElem L.tail 0 idx hidx]
  exact heq

theorem getD_mem_tail (L : List Nat) (hne : L ≠ []) (h00 : L.getD 0 0 = 0) (t : Nat)
    (h1 : 1 ≤ t) (h2 : t < L.length) : L.getD t 0 ∈ L.tail := by
  have hLh : L = 0 :: L.tail := head_cons_tail L hne h00
  have htlen : L.tail.length = L.length - 1 := List.length_tail _
  have hstep : ∀ (M : List Nat) (n : Nat), M = 0 :: L.tail →
      M.getD (n + 1) 0 = L.tail.getD n 0 := by
    intro M n hM
    rw [hM, List.getD_cons_succ]
  have ht0 : t = (t - 1) + 1 := by omega
  rw [ht0, hstep L (t - 1) hLh]
  exact getD_mem L.tail (t - 1) (by omega)

theorem nodeAt_ge (s : SkipList) (z : Nat) (h : s.nodes.length ≤ z) :
    s.nodeAt z = newNode 0 0 0 := by
  unfold SkipList.nodeAt
  rw [List.getD_eq_getElem?_getD, List.getElem?_eq_none h]
  rfl

/-- Correctness of the insert path of `Set`: the new state satisfies the
invariant along the spine with the new tower inserted right after the level-0
search predecessor `p0`, the returned position is `p0` (i.e. the new tower's
rank), and the count grew by one. -/
theorem setInsert_spec (s : SkipList) (L : List Nat) (hInv : InvAt s L) (nl : Nat)
    (hnl : 1 ≤ nl) (target value : Int)
    (hnf : ¬ (predAtLvl s L 0 target + 1 < L.length ∧
      (s.nodeAt (L.getD (predAtLvl s L 0 target + 1) 0)).key = target))
    (r : SkipList × (Option Nat × Int × Bool))
    (hr : r = setInsert s (searchUpd s target s.Level 0 (-1))
        ((predAtLvl s L 0 target : Int) - 1) nl target value) :
    InvAt r.1 (insertAt L (predAtLvl s L 0 target + 1) s.nodes.length) ∧
    r.2 = (some s.nodes.length, ((predAtLvl s L 0 target : Int) - 1) + 1, true) ∧
    r.1.count = s.count + 1 ∧
    (r.1.nodeAt s.nodes.length).key = target ∧
    (r.1.nodeAt s.nodes.length).value = value ∧
    r.1.Level = max s.Level nl ∧
    r.1.nodes.length = s.nodes.length + 1 ∧
    (∀ z, z ≠ s.nodes.length → (r.1.nodeAt z).key = (s.nodeAt z).key ∧
      (r.1.nodeAt z).value = (s.nodeAt z).value) := by
  obtain ⟨⟨hne, h00, hch, hla⟩, hvi, hnd, hco, hlv, hhm, hsk, hdl, hlk⟩ := hInv
  have hlen : 0 < L.length := List.length_pos.mpr hne
  have hnlen : L.length ≤ s.nodes.length :=
    length_le_of_nodup_lt L s.nodes.length hnd (validIds_mem s L hvi)
  have h0n : 0 < s.nodes.length := by
    have := hvi 0 hlen
    rw [h00] at this
    exact this
  have hP := fun i => predAtLvl_spec s L h00 hne target i
  obtain ⟨hleft, hright, hPle, hPsucc, hchle⟩ := search_prefacts s L h00 hne hlv hsk target
  set p0 := predAtLvl s L 0 target with hp0def
  have hp0lt : p0 < L.length := (hP 0).1.1
  have hrightS : ∀ t, p0 + 1 ≤ t → t < L.length → target < (s.nodeAt (L.getD t 0)).key := by
    intro t h1 h2
    have h3 := hright t h1 h2
    by_cases hte : t = p0 + 1
    · subst hte
      have : (s.nodeAt (L.getD (p0 + 1) 0)).key ≠ target := fun hc => hnf ⟨by omega, hc⟩
      omega
    · have h4 := hright (p0 + 1) (by omega) (by omega)
      have h5 := hsk (p0 + 1) (by omega) t h2 (by omega) (by omega)
      omega
  have hdl0 : (s.nodeAt 0).dist.length = s.Level := by
    have := hdl 0 hlen
    rw [h00] at this
    exact this
  -- stage states
  have hs1len : (setExtend s nl).nodes.length = s.nodes.length := setExtend_length s nl
  set xid := s.nodes.length with hxiddef
  set s2 : SkipList :=
    { setExtend s nl with nodes := (setExtend s nl).nodes ++ [newNode target value nl] }
    with hs2def
  have hs2len : s2.nodes.length = s.nodes.length + 1 := by
    show ((setExtend s nl).nodes ++ [newNode target value nl]).length = s.nodes.length + 1
    rw [List.length_append, hs1len]
    rfl
  have hs2count : s2.count = s.count := setExtend_count s nl
  have hs2_old : ∀ z, z < s.nodes.length → z ≠ 0 → s2.nodeAt z = s.nodeAt z := by
    intro z hz hz0
    have h1 : SkipList.nodeAt
        { setExtend s nl with nodes := (setExtend s nl).nodes ++ [newNode target value nl] } z
        = (setExtend s nl).nodeAt z :=
      nodeAt_append_lt (setExtend s nl) (newNode target value nl) z (by omega)
    rw [hs2def, h1]
    exact setExtend_other s nl z hz0
  have hs2_head : s2.nodeAt 0 = (setExtend s nl).nodeAt 0 :=
    nodeAt_append_lt (setExtend s nl) (newNode target value nl) 0 (by omega)
  have hs2_xid : s2.nodeAt xid = newNode target value nl := by
    have h1 := nodeAt_append_self (setExtend s nl) (newNode target value nl)
    rw [hs1len] at h1
    exact h1
  have hs2Level : s2.Level = max s.Level nl := by
    show (s2.nodeAt 0).level = _
    rw [hs2_head]
    exact setExtend_head_level s nl h0n
  have hs2_head_distLen : (s2.nodeAt 0).dist.length = max s.Level nl := by
    rw [hs2_head]
    exact setExtend_head_distLen s nl h0n hdl0
  have hs2_head_nextAt : ∀ i, (s2.nodeAt 0).nextAt i
      = if i < s.Level then (s.nodeAt 0).nextAt i else none := by
    intro i
    rw [hs2_head]
    exact setExtend_head_nextAt s nl h0n i
  have hs2_head_distAt : ∀ i, (s2.nodeAt 0).distAt i
      = if i < s.Level then (s.nodeAt 0).distAt i
        else if i < nl then s.count + 1 else 0 := by
    intro i
    rw [hs2_head]
    exact setExtend_head_distAt s nl h0n hdl0 i
  -- the update vector after extension
  set upd1 := extendUpd (searchUpd s target s.Level 0 (-1)) s.Level nl with hupd1def
  have hupdfull := searchUpd_full s L h00 hlk hsk hne hnlen target
  have hmaplen : (searchUpd s target s.Level 0 (-1)).length = s.Level := by
    rw [hupdfull, List.length_map, List.length_range]
  have hupd1get : ∀ i, i < max s.Level nl →
      upd1.getD i (0, -1)
        = (L.getD (predAtLvl s L i target) 0, (predAtLvl s L i target : Int) - 1) := by
    intro i him
    rw [hupd1def]
    unfold extendUpd
    by_cases hext : s.Level < nl
    · rw [if_pos hext]
      by_cases hio : i < s.Level
      · rw [List.getD_append _ _ _ _ (by omega : i < (searchUpd s target s.Level 0 (-1)).length),
          hupdfull, getD_map_range_at _ _ _ _ hio]
      · rw [List.getD_eq_getElem?_getD,
          List.getElem?_append_right (by omega : (searchUpd s target s.Level 0 (-1)).length ≤ i),
          hmaplen, List.getElem?_replicate, if_pos (by omega : i - s.Level < nl - s.Level)]
        rw [predAtLvl_ge_level s L hlv hne i (by omega) target, h00]
        constructor
    · rw [if_neg hext, hupdfull, getD_map_range_at _ _ _ _ (by omega : i < s.Level)]
  have hupd1len : upd1.length = max s.Level nl := by
    rw [hupd1def]
    unfold extendUpd
    by_cases hext : s.Level < nl
    · rw [if_pos hext, List.length_append, hmaplen, List.length_replicate]
      omega
    · rw [if_neg hext, hmaplen]
      omega
  have hu1ne : ∀ i, (upd1.getD i (0, -1)).1 ≠ xid := by
    intro i
    by_cases him : i < max s.Level nl
    · rw [hupd1get i him]
      have := hvi (predAtLvl s L i target) (hP i).1.1
      omega
    · rw [List.getD_eq_getElem?_getD, List.getElem?_eq_none (by omega : upd1.length ≤ i)]
      show (0 : Nat) ≠ xid
      omega
  -- pre-splice slot values of the update towers
  have hslot2 : ∀ i, i < max s.Level nl →
      (s2.nodeAt (L.getD (predAtLvl s L i target) 0)).nextAt i
        = (if succNat s L i (predAtLvl s L i target) < L.length
           then some (L.getD (succNat s L i (predAtLvl s L i target)) 0) else none) ∧
      (s2.nodeAt (L.getD (predAtLvl s L i target) 0)).distAt i
        = (succNat s L i (predAtLvl s L i target) : Int) - (predAtLvl s L i target : Int) ∧
      i < (s2.nodeAt (L.getD (predAtLvl s L i target) 0)).next.length ∧
      i < (s2.nodeAt (L.getD (predAtLvl s L i target) 0)).dist.length := by
    intro i him
    by_cases hio : i < s.Level
    · have hchain := (hP i).1
      have hilvl : i < (s.nodeAt (L.getD (predAtLvl s L i target) 0)).level :=
        chain_lvl s L h00 i (predAtLvl s L i target) hchain hio
      obtain ⟨hdist, hnext⟩ := hlk (predAtLvl s L i target) (hP i).1.1 i hilvl
      by_cases hPz : predAtLvl s L i target = 0
      · rw [hPz, h00] at hdist hnext hilvl ⊢
        refine ⟨?_, ?_, ?_, ?_⟩
        · rw [hs2_head_nextAt i, if_pos hio, hnext]
        · rw [hs2_head_distAt i, if_pos hio, hdist]
        · show i < (s2.nodeAt 0).level
          rw [hs2_head, setExtend_head_level s nl h0n]
          omega
        · rw [hs2_head_distLen]
          omega
      · have hidne : L.getD (predAtLvl s L i target) 0 ≠ 0 := by
          intro hc
          exact hPz (getD_inj L hnd _ _ (hP i).1.1 hlen (by rw [h00]; exact hc))
        have hsame : s2.nodeAt (L.getD (predAtLvl s L i target) 0)
            = s.nodeAt (L.getD (predAtLvl s L i target) 0) :=
          hs2_old _ (hvi _ (hP i).1.1) hidne
        rw [hsame]
        exact ⟨hnext, hdist, hilvl, by rw [hdl _ (hP i).1.1]; exact hilvl⟩
    · have hPz : predAtLvl s L i target = 0 :=
        predAtLvl_ge_level s L hlv hne i (by omega) target
      have hsucc : succNat s L i (predAtLvl s L i target) = L.length := by
        rw [hPz]
        exact succNat_ge_level s L hlv hne i (by omega)
      rw [hsucc, hPz, h00]
      refine ⟨?_, ?_, ?_, ?_⟩
      · rw [hs2_head_nextAt i, if_neg hio, if_neg (by omega)]
      · rw [hs2_head_distAt i, if_neg hio, if_pos (by omega)]
        have hcoeq : s.count = (L.length : Int) - 1 := hco
        omega
      · show i < (s2.nodeAt 0).level
        rw [hs2_head, setExtend_head_level s nl h0n]
        omega
      · rw [hs2_head_distLen]
        omega
  have hvalid_x : ∀ i, i < max s.Level nl → i < nl →
      xid < s2.nodes.length ∧ i < (s2.nodeAt xid).next.length ∧
      i < (s2.nodeAt xid).dist.length := by
    intro i _ hinl
    rw [hs2_xid]
    refine ⟨by omega, ?_, ?_⟩
    · show i < (List.replicate nl (none : Option Nat)).length
      rw [List.length_replicate]
      exact hinl
    · show i < (List.replicate nl (0 : Int)).length
      rw [List.length_replicate]
      exact hinl
  have hslots := spliceRange_slots s2 upd1 ((p0 : Int) - 1) nl xid hu1ne (max s.Level nl)
    (by
      intro i hi
      rw [hupd1get i hi]
      have h := hslot2 i hi
      exact ⟨by have := hvi (predAtLvl s L i target) (hP i).1.1; omega, h.2.2.1, h.2.2.2⟩)
    (fun i hi hinl => hvalid_x i hi hinl)
  set s3 := spliceRange s2 upd1 ((p0 : Int) - 1) nl xid (max s.Level nl) with hs3def
  have hrval : r = ({ s3 with count := s3.count + 1 },
      (some xid, ((p0 : Int) - 1) + 1, true)) := by
    rw [hr]
    have h0 : setInsert s (searchUpd s target s.Level 0 (-1)) ((p0 : Int) - 1) nl target value
        = ({ spliceRange s2 upd1 ((p0 : Int) - 1) nl (setExtend s nl).nodes.length s2.Level
              with count := (spliceRange s2 upd1 ((p0 : Int) - 1) nl
                (setExtend s nl).nodes.length s2.Level).count + 1 },
           (some (setExtend s nl).nodes.length, ((p0 : Int) - 1) + 1, true)) := rfl
    rw [h0, hs1len, hs2Level]
  -- move to the final state and the new spine
  rw [hrval]
  set s4 : SkipList := { s3 with count := s3.count + 1 } with hs4def
  set L' : List Nat := insertAt L (p0 + 1) xid with hLpdef
  dsimp only
  have hp0le : p0 + 1 ≤ L.length := by omega
  have hlenL' : L'.length = L.length + 1 := length_insertAt L (p0 + 1) xid hp0le
  have hget_lt : ∀ j, j ≤ p0 → L'.getD j 0 = L.getD j 0 := fun j hj =>
    getD_insertAt_lt L (p0 + 1) xid j 0 (by omega) hp0le
  have hget_self : L'.getD (p0 + 1) 0 = xid := getD_insertAt_self L (p0 + 1) xid 0 hp0le
  have hget_gt : ∀ j, p0 + 2 ≤ j → L'.getD j 0 = L.getD (j - 1) 0 := fun j hj =>
    getD_insertAt_gt L (p0 + 1) xid j 0 (by omega) hp0le
  have hxnotL : xid ∉ L := by
    intro hmem
    have := validIds_mem s L hvi xid hmem
    omega
  have hs4node : ∀ z, s4.nodeAt z = s3.nodeAt z := fun z => rfl
  have hs4len : s4.nodes.length = s.nodes.length + 1 := by
    show s3.nodes.length = s.nodes.length + 1
    rw [hs3def, spliceRange_length, hs2len]
  have hs4count : s4.count = s.count + 1 := by
    show s3.count + 1 = s.count + 1
    rw [hs3def, spliceRange_count, hs2count]
  have hs3key : ∀ z, (s3.nodeAt z).key = (s2.nodeAt z).key := by
    intro z
    rw [hs3def, spliceRange_key]
  have hs3value : ∀ z, (s3.nodeAt z).value = (s2.nodeAt z).value := by
    intro z
    rw [hs3def, spliceRange_value]
  have hs3nextLen : ∀ z, (s3.nodeAt z).next.length = (s2.nodeAt z).next.length := by
    intro z
    rw [hs3def, spliceRange_nextLen]
  have hs3distLen : ∀ z, (s3.nodeAt z).dist.length = (s2.nodeAt z).dist.length := by
    intro z
    rw [hs3def, spliceRange_distLen]
  have hs4lvl : ∀ z, (s4.nodeAt z).level = (s2.nodeAt z).level := fun z => hs3nextLen z
  have hs2lvlx : (s2.nodeAt xid).level = nl := by
    rw [hs2_xid]
    show (List.replicate nl (none : Option Nat)).length = nl
    rw [List.length_replicate]
  have hs2lvlz : ∀ z, z < s.nodes.length → z ≠ 0 →
      (s2.nodeAt z).level = (s.nodeAt z).level := by
    intro z h1 h2
    rw [hs2_old z h1 h2]
  have hLev4 : s4.Level = max s.Level nl := by
    show (s4.nodeAt 0).level = max s.Level nl
    rw [hs4lvl]
    exact hs2Level
  have hlvl' : ∀ t, 1 ≤ t → t < L.length + 1 →
      (s4.nodeAt (L'.getD t 0)).level
        = if t ≤ p0 then (s.nodeAt (L.getD t 0)).level
          else if t = p0 + 1 then nl
          else (s.nodeAt (L.getD (t - 1) 0)).level := by
    intro t h1 h2
    by_cases hta : t ≤ p0
    · rw [if_pos hta, hget_lt t hta, hs4lvl]
      exact hs2lvlz _ (hvi t (by omega)) (fun hc => by
        have := getD_inj L hnd t 0 (by omega) hlen (by rw [h00]; exact hc)
        omega)
    · by_cases htb : t = p0 + 1
      · rw [if_neg hta, if_pos htb, htb, hget_self, hs4lvl]
        exact hs2lvlx
      · rw [if_neg hta, if_neg htb, hget_gt t (by omega), hs4lvl]
        exact hs2lvlz _ (hvi (t - 1) (by omega)) (fun hc => by
          have := getD_inj L hnd (t - 1) 0 (by omega) hlen (by rw [h00]; exact hc)
          omega)
  -- successor translation to the new spine
  have hT1 : ∀ i j, j < L.length → succNat s L i j ≤ p0 →
      succNat s4 L' i j = succNat s L i j := by
    intro i j hj hso
    obtain ⟨ha, hb, hc, hd⟩ := succNat_spec s L i j hj
    apply succNat_unique s4 L' i j (by omega) (succNat s L i j) ha (by omega)
    · intro _
      rw [hlvl' (succNat s L i j) (by omega) (by omega), if_pos hso]
      exact hc (by omega)
    · intro t h1 h2
      rw [hlvl' t (by omega) (by omega), if_pos (by omega)]
      exact hd t h1 h2
  have hT2 : ∀ i, i < nl →
      succNat s4 L' i (predAtLvl s L i target) = p0 + 1 := by
    intro i hinl
    obtain ⟨ha, hb, hc, hd⟩ := succNat_spec s L i (predAtLvl s L i target) (hP i).1.1
    have hple := hPle i
    have hps := hPsucc i
    apply succNat_unique s4 L' i (predAtLvl s L i target)
      (by have := (hP i).1.1; omega) (p0 + 1) (by omega) (by omega)
    · intro _
      rw [hlvl' (p0 + 1) (by omega) (by omega), if_neg (by omega), if_pos rfl]
      exact hinl
    · intro t h1 h2
      rw [hlvl' t (by omega) (by omega), if_pos (by omega)]
      exact hd t h1 (by omega)
  have hT3 : ∀ i (j' : Nat), predAtLvl s L i target ≤ j' → j' ≤ p0 + 1 →
      (j' = p0 + 1 ∨ nl ≤ i) →
      succNat s4 L' i j' = succNat s L i (predAtLvl s L i target) + 1 := by
    intro i j' hj1 hj2 hcase
    obtain ⟨ha, hb, hc, hd⟩ := succNat_spec s L i (predAtLvl s L i target) (hP i).1.1
    have hple := hPle i
    have hps := hPsucc i
    apply succNat_unique s4 L' i j' (by omega)
      (succNat s L i (predAtLvl s L i target) + 1) (by omega) (by omega)
    · intro hlt
      rw [hlvl' (succNat s L i (predAtLvl s L i target) + 1) (by omega) (by omega),
        if_neg (by omega), if_neg (by omega)]
      have hidx : succNat s L i (predAtLvl s L i target) + 1 - 1
          = succNat s L i (predAtLvl s L i target) := by omega
      rw [hidx]
      exact hc (by omega)
    · intro t h1 h2
      by_cases hta : t ≤ p0
      · rw [hlvl' t (by omega) (by omega), if_pos hta]
        exact hd t (by omega) (by omega)
      · by_cases htb : t = p0 + 1
        · rcases hcase with hcc | hcc
          · omega
          · rw [hlvl' t (by omega) (by omega), if_neg hta, if_pos htb]
            omega
        · rw [hlvl' t (by omega) (by omega), if_neg hta, if_neg htb]
          exact hd (t - 1) (by omega) (by omega)
  have hT4 : ∀ i (jo : Nat), p0 + 1 ≤ jo → jo < L.length →
      succNat s4 L' i (jo + 1) = succNat s L i jo + 1 := by
    intro i jo hjo1 hjo2
    obtain ⟨ha, hb, hc, hd⟩ := succNat_spec s L i jo hjo2
    apply succNat_unique s4 L' i (jo + 1) (by omega) (succNat s L i jo + 1)
      (by omega) (by omega)
    · intro hlt
      rw [hlvl' (succNat s L i jo + 1) (by omega) (by omega),
        if_neg (by omega), if_neg (by omega)]
      have hidx : succNat s L i jo + 1 - 1 = succNat s L i jo := by omega
      rw [hidx]
      exact hc (by omega)
    · intro t h1 h2
      rw [hlvl' t (by omega) (by omega), if_neg (by omega), if_neg (by omega)]
      exact hd (t - 1) (by omega) (by omega)
  -- the central link invariant on the new spine
  have hlk' : LinksOk s4 L' := by
    intro j' hj' i hi
    rw [hlenL'] at hj'
    by_cases hja : j' ≤ p0
    · rw [hget_lt j' hja] at hi ⊢
      by_cases hjP : j' = predAtLvl s L i target
      · subst hjP
        have hps := hPsucc i
        have him : i < max s.Level nl := by
          rw [hs4lvl] at hi
          by_cases hPz : predAtLvl s L i target = 0
          · rw [hPz, h00] at hi
            have h5 : (s2.nodeAt 0).level = max s.Level nl := hs2Level
            omega
          · have hidne : L.getD (predAtLvl s L i target) 0 ≠ 0 := fun hc => hPz
              (getD_inj L hnd _ _ (hP i).1.1 hlen (by rw [h00]; exact hc))
            rw [hs2lvlz _ (hvi _ (hP i).1.1) hidne] at hi
            have := hlv (predAtLvl s L i target) (hP i).1.1 (by omega)
            omega
        have hu2 : (upd1.getD i (0, -1)).2 = (predAtLvl s L i target : Int) - 1 := by
          rw [hupd1get i him]
        have hcomp := (hslots (L.getD (predAtLvl s L i target) 0) i).2.1 him
          (by rw [hupd1get i him])
        obtain ⟨hsn, hsd, _, _⟩ := hslot2 i him
        by_cases hinl : i < nl
        · obtain ⟨hnx, hds⟩ := hcomp.1 hinl
          rw [hu2] at hds
          constructor
          · rw [hs4node, hds, hT2 i hinl]
            push_cast
            omega
          · rw [hs4node, hnx, hT2 i hinl, if_pos (by omega), hget_self]
        · obtain ⟨hnx, hds⟩ := hcomp.2 (by omega)
          have hsucc4 := hT3 i (predAtLvl s L i target) (le_refl _) (by omega)
            (Or.inr (by omega))
          constructor
          · rw [hs4node, hds, hsd, hsucc4]
            push_cast
            omega
          · rw [hs4node, hnx, hsn, hsucc4]
            by_cases hSlt : succNat s L i (predAtLvl s L i target) < L.length
            · rw [if_pos hSlt, if_pos (by omega), hget_gt _ (by omega)]
              have hidx : succNat s L i (predAtLvl s L i target) + 1 - 1
                  = succNat s L i (predAtLvl s L i target) := by omega
              rw [hidx]
            · rw [if_neg hSlt, if_neg (by omega)]
      · -- untouched tower strictly before the insertion point
        have hilvl : i < (s.nodeAt (L.getD j' 0)).level := by
          by_cases hj0 : j' = 0
          · subst hj0
            have hiS : i < s.Level := by
              by_contra hge
              exact hjP (by rw [predAtLvl_ge_level s L hlv hne i (by omega) target])
            rw [h00]
            exact hiS
          · rw [hs4lvl] at hi
            rw [hs2lvlz _ (hvi j' (by omega)) (fun hc => hj0
              (getD_inj L hnd j' 0 (by omega) hlen (by rw [h00]; exact hc)))] at hi
            exact hi
        have hchm : ChainMem s L i j' := by
          refine ⟨by omega, ?_⟩
          by_cases hj0 : j' = 0
          · exact Or.inl hj0
          · exact Or.inr hilvl
        have him : i < max s.Level nl := by
          by_cases hj0 : j' = 0
          · subst hj0
            rw [h00] at hilvl
            have h5 : (s.nodeAt 0).level = s.Level := rfl
            omega
          · have := hlv j' (by omega) (by omega)
            omega
        have hzu : L.getD j' 0 ≠ (upd1.getD i (0, -1)).1 := by
          rw [hupd1get i him]
          exact fun hc => hjP (getD_inj L hnd j' _ (by omega) (hP i).1.1 hc)
        have hzx : L.getD j' 0 ≠ xid := by
          have := hvi j' (by omega)
          omega
        have hunch := (hslots (L.getD j' 0) i).1 (Or.inr ⟨hzu, hzx⟩)
        have hs2slot : (s2.nodeAt (L.getD j' 0)).nextAt i
              = (s.nodeAt (L.getD j' 0)).nextAt i ∧
            (s2.nodeAt (L.getD j' 0)).distAt i = (s.nodeAt (L.getD j' 0)).distAt i := by
          by_cases hj0 : j' = 0
          · subst hj0
            have hiS : i < s.Level := by
              have h5 := hilvl
              rw [h00] at h5
              exact h5
            rw [h00]
            exact ⟨by rw [hs2_head_nextAt, if_pos hiS],
              by rw [hs2_head_distAt, if_pos hiS]⟩
          · rw [hs2_old _ (hvi j' (by omega)) (fun hc => hj0
              (getD_inj L hnd j' 0 (by omega) hlen (by rw [h00]; exact hc)))]
            exact ⟨rfl, rfl⟩
        obtain ⟨hsd, hsn⟩ := hlk j' (by omega) i hilvl
        have hSop0 : succNat s L i j' ≤ p0 := by
          obtain ⟨ha, hb, hc, hd⟩ := succNat_spec s L i j' (by omega)
          by_contra hgt
          have hjlt : j' < predAtLvl s L i target := by
            have := hchle i j' hchm hja
            omega
          have hPlvl : i < (s.nodeAt (L.getD (predAtLvl s L i target) 0)).level := by
            rcases (hP i).1.2 with h | h
            · omega
            · exact h
          exact hd (predAtLvl s L i target) hjlt (by have := hPle i; omega) hPlvl
        constructor
        · rw [hs4node, hunch.2, hs2slot.2, hsd, hT1 i j' (by omega) hSop0]
        · rw [hs4node, hunch.1, hs2slot.1, hsn, hT1 i j' (by omega) hSop0,
            if_pos (by omega), if_pos (by omega), hget_lt _ hSop0]
    · by_cases hjb : j' = p0 + 1
      · -- the freshly inserted tower
        subst hjb
        rw [hget_self] at hi ⊢
        rw [hs4lvl, hs2lvlx] at hi
        have him : i < max s.Level nl := by omega
        have hps := hPsucc i
        have hple := hPle i
        have hcomp := (hslots xid i).2.2 him rfl
        obtain ⟨hnx, hds⟩ := hcomp.1 hi
        rw [hupd1get i him] at hnx hds
        dsimp only at hnx hds
        obtain ⟨hsn, hsd, _, _⟩ := hslot2 i him
        have hsucc4 := hT3 i (p0 + 1) (by omega) (le_refl _) (Or.inl rfl)
        constructor
        · rw [hs4node, hds, hsd, hsucc4]
          push_cast
          omega
        · rw [hs4node, hnx, hsn, hsucc4]
          by_cases hSlt : succNat s L i (predAtLvl s L i target) < L.length
          · rw [if_pos hSlt, if_pos (by omega), hget_gt _ (by omega)]
            have hidx : succNat s L i (predAtLvl s L i target) + 1 - 1
                = succNat s L i (predAtLvl s L i target) := by omega
            rw [hidx]
          · rw [if_neg hSlt, if_neg (by omega)]
      · -- towers after the insertion point, shifted by one
        have hjo1 : p0 + 1 ≤ j' - 1 := by omega
        have hjo2 : j' - 1 < L.length := by omega
        rw [hget_gt j' (by omega)] at hi ⊢
        have hidne : L.getD (j' - 1) 0 ≠ 0 := fun hc => by
          have := getD_inj L hnd (j' - 1) 0 (by omega) hlen (by rw [h00]; exact hc)
          omega
        rw [hs4lvl, hs2lvlz _ (hvi _ hjo2) hidne] at hi
        have him : i < max s.Level nl := by
          have := hlv (j' - 1) hjo2 (by omega)
          omega
        have hzu : L.getD (j' - 1) 0 ≠ (upd1.getD i (0, -1)).1 := by
          rw [hupd1get i him]
          exact fun hc => by
            have := getD_inj L hnd (j' - 1) _ hjo2 (hP i).1.1 hc
            have := hPle i
            omega
        have hzx : L.getD (j' - 1) 0 ≠ xid := by
          have := hvi _ hjo2
          omega
        have hunch := (hslots (L.getD (j' - 1) 0) i).1 (Or.inr ⟨hzu, hzx⟩)
        have hs2s : s2.nodeAt (L.getD (j' - 1) 0) = s.nodeAt (L.getD (j' - 1) 0) :=
          hs2_old _ (hvi _ hjo2) hidne
        obtain ⟨hsd, hsn⟩ := hlk (j' - 1) hjo2 i hi
        obtain ⟨ha, hb, hc, hd⟩ := succNat_spec s L i (j' - 1) hjo2
        have hsucc4 : succNat s4 L' i j' = succNat s L i (j' - 1) + 1 := by
          have h6 := hT4 i (j' - 1) hjo1 hjo2
          have hj'eq : j' - 1 + 1 = j' := by omega
          rw [hj'eq] at h6
          exact h6
        constructor
        · rw [hs4node, hunch.2, hs2s, hsd, hsucc4]
          push_cast
          omega
        · rw [hs4node, hunch.1, hs2s, hsn, hsucc4]
          by_cases hSlt : succNat s L i (j' - 1) < L.length
          · rw [if_pos hSlt, if_pos (by omega), hget_gt _ (by omega)]
            have hidx : succNat s L i (j' - 1) + 1 - 1 = succNat s L i (j' - 1) := by
              omega
            rw [hidx]
          · rw [if_neg hSlt, if_neg (by omega)]
  -- the remaining invariant components
  have hlv' : LevelsOk s4 L' := by
    intro j hj hj1
    rw [hlenL'] at hj
    rw [hlvl' j hj1 hj]
    have h5 : s4.Level = max s.Level nl := hLev4
    by_cases hja : j ≤ p0
    · rw [if_pos hja]
      have := hlv j (by omega) hj1
      omega
    · by_cases hjb : j = p0 + 1
      · rw [if_neg hja, if_pos hjb]
        omega
      · rw [if_neg hja, if_neg hjb]
        have := hlv (j - 1) (by omega) (by omega)
        omega
  have hvi' : ValidIds s4 L' := by
    intro j hj
    rw [hlenL'] at hj
    rw [hs4len]
    by_cases hja : j ≤ p0
    · rw [hget_lt j hja]
      have := hvi j (by omega)
      omega
    · by_cases hjb : j = p0 + 1
      · rw [hjb, hget_self]
        omega
      · rw [hget_gt j (by omega)]
        have := hvi (j - 1) (by omega)
        omega
  have hco' : CountOk s4 L' := by
    unfold CountOk
    rw [hs4count, hlenL']
    have hcoeq : s.count = (L.length : Int) - 1 := hco
    push_cast
    omega
  have hkey' : ∀ j, 1 ≤ j → j < L.length + 1 →
      (s4.nodeAt (L'.getD j 0)).key
        = if j ≤ p0 then (s.nodeAt (L.getD j 0)).key
          else if j = p0 + 1 then target
          else (s.nodeAt (L.getD (j - 1) 0)).key := by
    intro j h1 h2
    by_cases hja : j ≤ p0
    · rw [if_pos hja, hget_lt j hja, hs4node, hs3key, hs2_old _ (hvi j (by omega))
        (fun hc => by
          have := getD_inj L hnd j 0 (by omega) hlen (by rw [h00]; exact hc)
          omega)]
    · by_cases hjb : j = p0 + 1
      · rw [if_neg hja, if_pos hjb, hjb, hget_self, hs4node, hs3key, hs2_xid]
        rfl
      · rw [if_neg hja, if_neg hjb, hget_gt j (by omega), hs4node, hs3key,
          hs2_old _ (hvi (j - 1) (by omega)) (fun hc => by
            have := getD_inj L hnd (j - 1) 0 (by omega) hlen (by rw [h00]; exact hc)
            omega)]
  have hsk' : SortedKeys s4 L' := by
    intro j hj j2 hj2 h1j hjj
    rw [hlenL'] at hj hj2
    rw [hkey' j h1j hj, hkey' j2 (by omega) hj2]
    by_cases hja : j ≤ p0
    · rw [if_pos hja]
      by_cases hjb : j2 ≤ p0
      · rw [if_pos hjb]
        exact hsk j (by omega) j2 (by omega) h1j hjj
      · by_cases hjc : j2 = p0 + 1
        · rw [if_neg hjb, if_pos hjc]
          exact hleft j h1j (by omega)
        · rw [if_neg hjb, if_neg hjc]
          have h4 := hleft j h1j (by omega)
          have h5 := hrightS (j2 - 1) (by omega) (by omega)
          omega
    · by_cases hjb : j = p0 + 1
      · rw [if_neg hja, if_pos hjb]
        have hjc : ¬ j2 ≤ p0 := by omega
        have hjd : j2 ≠ p0 + 1 := by omega
        rw [if_neg hjc, if_neg hjd]
        exact hrightS (j2 - 1) (by omega) (by omega)
      · rw [if_neg hja, if_neg hjb]
        have hjc : ¬ j2 ≤ p0 := by omega
        have hjd : j2 ≠ p0 + 1 := by omega
        rw [if_neg hjc, if_neg hjd]
        exact hsk (j - 1) (by omega) (j2 - 1) (by omega) (by omega) (by omega)
  have hdl' : DistLen s4 L' := by
    intro j hj
    rw [hlenL'] at hj
    have hz : ∀ z, (s2.nodeAt z).dist.length = (s2.nodeAt z).level →
        (s4.nodeAt z).dist.length = (s4.nodeAt z).level := by
      intro z h
      show (s3.nodeAt z).dist.length = (s3.nodeAt z).next.length
      rw [hs3distLen, hs3nextLen]
      exact h
    apply hz
    by_cases hj0 : j = 0
    · subst hj0
      have h0' : L'.getD 0 0 = 0 := by rw [hget_lt 0 (by omega), h00]
      rw [h0', hs2_head_distLen]
      exact hs2Level.symm
    · by_cases hja : j ≤ p0
      · rw [hget_lt j hja, hs2_old _ (hvi j (by omega)) (fun hc => hj0
          (getD_inj L hnd j 0 (by omega) hlen (by rw [h00]; exact hc)))]
        exact hdl j (by omega)
      · by_cases hjb : j = p0 + 1
        · rw [hjb, hget_self, hs2_xid]
          show (List.replicate nl (0 : Int)).length
            = (List.replicate nl (none : Option Nat)).length
          rw [List.length_replicate, List.length_replicate]
        · rw [hget_gt j (by omega), hs2_old _ (hvi (j - 1) (by omega)) (fun hc => by
            have := getD_inj L hnd (j - 1) 0 (by omega) hlen (by rw [h00]; exact hc)
            omega)]
          exact hdl (j - 1) (by omega)
  have hL'head : L' = 0 :: L'.tail := by
    apply head_cons_tail
    · intro hc
      have h7 := hlenL'
      rw [hc, List.length_nil] at h7
      omega
    · rw [hget_lt 0 (by omega), h00]
  have hxidtail : xid ∈ L'.tail := by
    have hmem' : xid ∈ L' := (mem_insertAt L (p0 + 1) xid xid).mpr (Or.inl rfl)
    rw [hL'head] at hmem'
    rcases List.mem_cons.mp hmem' with h | h
    · omega
    · exact h
  have hmemL' : ∀ a, a ∈ L'.tail → (s4.nodeAt a).level ≤ max s.Level nl := by
    intro a hmem
    have hmem' : a ∈ L' := by
      rw [hL'head]
      exact List.mem_cons_of_mem _ hmem
    rcases (mem_insertAt L (p0 + 1) xid a).mp hmem' with h | h
    · subst h
      rw [hs4lvl, hs2lvlx]
      omega
    · by_cases ha0 : a = 0
      · subst ha0
        exact le_of_eq hLev4
      · have halt : a < s.nodes.length := validIds_mem s L hvi a h
        rw [hs4lvl, hs2lvlz a halt ha0]
        have hat : a ∈ L.tail := by
          have hLhead : L = 0 :: L.tail := head_cons_tail L hne h00
          rw [hLhead] at h
          rcases List.mem_cons.mp h with h2 | h2
          · exact absurd h2 ha0
          · exact h2
        have h8 := maxLevelOver_ge s L.tail a hat
        have h9 : s.Level = maxLevelOver s L.tail := hhm
        omega
  have hhm' : HeadMax s4 L' := by
    unfold HeadMax
    rw [hLev4]
    apply le_antisymm
    · apply max_le
      · by_cases hS0 : s.Level = 0
        · rw [hS0]
          exact Nat.zero_le _
        · have hLtne : L.tail ≠ [] := by
            intro hc
            have h9 : s.Level = maxLevelOver s L.tail := hhm
            rw [hc] at h9
            exact hS0 (by rw [h9]; rfl)
          obtain ⟨a, hat, haeq⟩ := maxLevelOver_mem s L.tail hLtne
          have ha0 : a ≠ 0 := by
            intro hc
            have hLhead : L = 0 :: L.tail := head_cons_tail L hne h00
            have hnd2 : L.Nodup := hnd
            rw [hLhead] at hnd2
            rcases List.nodup_cons.mp hnd2 with ⟨h0nin, _⟩
            rw [hc] at hat
            exact h0nin hat
          have haL : a ∈ L := by
            have hLhead : L = 0 :: L.tail := head_cons_tail L hne h00
            rw [hLhead]
            exact List.mem_cons_of_mem _ hat
          have hat' : a ∈ L'.tail := by
            have hmem' : a ∈ L' := (mem_insertAt L (p0 + 1) xid a).mpr (Or.inr haL)
            rw [hL'head] at hmem'
            rcases List.mem_cons.mp hmem' with h | h
            · exact absurd h ha0
            · exact h
          have h8 := maxLevelOver_ge s4 L'.tail a hat'
          have halvl : (s4.nodeAt a).level = (s.nodeAt a).level := by
            rw [hs4lvl, hs2lvlz a (validIds_mem s L hvi a haL) ha0]
          have h9 : s.Level = maxLevelOver s L.tail := hhm
          omega
      · have h8 := maxLevelOver_ge s4 L'.tail xid hxidtail
        have h9 : (s4.nodeAt xid).level = nl := by rw [hs4lvl, hs2lvlx]
        omega
    · have hLt'ne : L'.tail ≠ [] := by
        intro hc
        rw [hc] at hxidtail
        exact List.not_mem_nil _ hxidtail
      obtain ⟨a, hat, haeq⟩ := maxLevelOver_mem s4 L'.tail hLt'ne
      have := hmemL' a hat
      omega
  have hlvl0 : ∀ j, j < L'.length → 0 < (s4.nodeAt (L'.getD j 0)).level := by
    intro j hj
    by_cases hj0 : j = 0
    · subst hj0
      have h0' : L'.getD 0 0 = 0 := by rw [hget_lt 0 (by omega), h00]
      rw [h0']
      have h5 : (s4.nodeAt 0).level = max s.Level nl := hLev4
      omega
    · have := hlv' j hj (by omega)
      omega
  have hsp' : SpineOk s4 L' := by
    refine ⟨?_, ?_, ?_, ?_⟩
    · intro hc
      have h7 := hlenL'
      rw [hc, List.length_nil] at h7
      omega
    · rw [hget_lt 0 (by omega), h00]
    · intro j hj
      rw [hlenL'] at hj
      have hj' : j < L'.length := by omega
      obtain ⟨hsd, hsn⟩ := hlk' j hj' 0 (hlvl0 j hj')
      rw [Node.Next_eq_nextAt, hsn, succNat_zero s4 L' hlv' j hj',
        if_pos (by omega)]
    · have hlast : L'.length - 1 < L'.length := by omega
      obtain ⟨hsd, hsn⟩ := hlk' (L'.length - 1) hlast 0 (hlvl0 _ hlast)
      rw [Node.Next_eq_nextAt, hsn, succNat_zero s4 L' hlv' _ hlast,
        if_neg (by omega)]
  refine ⟨⟨hsp', hvi', nodup_insertAt L (p0 + 1) xid hnd hxnotL, hco', hlv', hhm',
      hsk', hdl', hlk'⟩, rfl, hs4count, ?_, ?_, hLev4, hs4len, ?_⟩
  · rw [hs4node, hs3key, hs2_xid]
    rfl
  · rw [hs4node, hs3value, hs2_xid]
    rfl
  · intro z hz
    constructor
    · rw [hs4node, hs3key]
      by_cases hz0 : z = 0
      · subst hz0
        rw [hs2_head]
        exact setExtend_head_key s nl h0n
      · by_cases hzl : z < s.nodes.length
        · rw [hs2_old z hzl hz0]
        · have hz2 : s2.nodes.length ≤ z := by
            rw [hs2len]
            omega
          rw [nodeAt_ge s2 z hz2, nodeAt_ge s z (by omega)]
    · rw [hs4node, hs3value]
      by_cases hz0 : z = 0
      · subst hz0
        rw [hs2_head]
        exact setExtend_head_value s nl h0n
      · by_cases hzl : z < s.nodes.length
        · rw [hs2_old z hzl hz0]
        · have hz2 : s2.nodes.length ≤ z := by
            rw [hs2len]
            omega
          rw [nodeAt_ge s2 z hz2, nodeAt_ge s z (by omega)]

/-- Correctness of the shared removal tail (`removeFinish`): removing the
tower at spine position `q` through any update vector whose entry at each
level is the last level-`i` chain tower strictly before `q` yields the
invariant along the spine with position `q` erased; count drops by one and
all keys/values are untouched. -/
theorem removeFinish_spec (s : SkipList) (L : List Nat) (hInv : InvAt s L)
    (q : Nat) (hq1 : 1 ≤ q) (hq2 : q < L.length)
    (upd : List (Nat × Int)) (u : Nat → Nat)
    (hu1 : ∀ i, i < s.Level → (upd.getD i (0, -1)).1 = L.getD (u i) 0)
    (hu0 : ∀ i, s.Level ≤ i → (upd.getD i (0, -1)).1 = 0)
    (hu2 : ∀ i, i < s.Level → ChainMem s L i (u i))
    (hu3 : ∀ i, i < s.Level → u i < q)
    (hu4 : ∀ i, i < s.Level → q ≤ succNat s L i (u i))
    (hu5 : ∀ i, i < s.Level → ∀ t, ChainMem s L i t → t < q → t ≤ u i) :
    InvAt (removeFinish s upd (L.getD q 0)) (eraseAt L q) ∧
    (removeFinish s upd (L.getD q 0)).count = s.count - 1 ∧
    (removeFinish s upd (L.getD q 0)).nodes.length = s.nodes.length ∧
    (∀ z, ((removeFinish s upd (L.getD q 0)).nodeAt z).key = (s.nodeAt z).key ∧
      ((removeFinish s upd (L.getD q 0)).nodeAt z).value = (s.nodeAt z).value) := by
  obtain ⟨⟨hne, h00, hch, hla⟩, hvi, hnd, hco, hlv, hhm, hsk, hdl, hlk⟩ := hInv
  have hlen : 0 < L.length := List.length_pos.mpr hne
  have hnlen : L.length ≤ s.nodes.length :=
    length_le_of_nodup_lt L s.nodes.length hnd (validIds_mem s L hvi)
  have h0n : 0 < s.nodes.length := by
    have := hvi 0 hlen
    rw [h00] at this
    exact this
  set yid := L.getD q 0 with hyiddef
  have hyne0 : yid ≠ 0 := fun hc => by
    have := getD_inj L hnd q 0 hq2 hlen (by rw [h00]; exact hc)
    omega
  have hylt : yid < s.nodes.length := hvi q hq2
  have hdl0 : (s.nodeAt 0).dist.length = s.Level := by
    have := hdl 0 hlen
    rw [h00] at this
    exact this
  -- stage 1: the unlink loop
  set s1 := unlinkRange s upd yid s.Level with hs1def
  have huvalid : ∀ i, i < s.Level → (upd.getD i (0, -1)).1 < s.nodes.length ∧
      i < (s.nodeAt (upd.getD i (0, -1)).1).next.length ∧
      i < (s.nodeAt (upd.getD i (0, -1)).1).dist.length := by
    intro i hi
    rw [hu1 i hi]
    have hcm := hu2 i hi
    have hlvli : i < (s.nodeAt (L.getD (u i) 0)).level := chain_lvl s L h00 i (u i) hcm hi
    refine ⟨hvi (u i) hcm.1, hlvli, ?_⟩
    rw [hdl (u i) hcm.1]
    exact hlvli
  have huy : ∀ i, (upd.getD i (0, -1)).1 ≠ yid := by
    intro i
    by_cases hi : i < s.Level
    · rw [hu1 i hi]
      exact fun hc => by
        have h7 := getD_inj L hnd (u i) q (hu2 i hi).1 hq2 hc
        have h8 := hu3 i hi
        omega
    · rw [hu0 i (by omega)]
      exact fun hc => hyne0 hc.symm
  have hslots := unlinkRange_slots s upd yid s.Level huvalid huy
  have hs1lvl : ∀ z, (s1.nodeAt z).level = (s.nodeAt z).level := by
    intro z
    show (s1.nodeAt z).next.length = (s.nodeAt z).next.length
    rw [hs1def, unlinkRange_nextLen]
  have hs1len : s1.nodes.length = s.nodes.length := by rw [hs1def, unlinkRange_length]
  have hs1count : s1.count = s.count := by rw [hs1def, unlinkRange_count]
  have hs1key : ∀ z, (s1.nodeAt z).key = (s.nodeAt z).key := by
    intro z
    rw [hs1def, unlinkRange_key]
  have hs1value : ∀ z, (s1.nodeAt z).value = (s.nodeAt z).value := by
    intro z
    rw [hs1def, unlinkRange_value]
  have hs1dlen : ∀ z, (s1.nodeAt z).dist.length = (s.nodeAt z).dist.length := by
    intro z
    rw [hs1def, unlinkRange_distLen]
  have hs1Lev : s1.Level = s.Level := hs1lvl 0
  -- stage 2: shrink the head and decrement the count
  set newLv := shrinkLoop s1 s1.Level with hnewdef
  set s2 := s1.setNode 0 ((s1.nodeAt 0).shrinkLevel newLv) with hs2def
  set sF : SkipList := { s2 with count := s2.count - 1 } with hsFdef
  have hfin : removeFinish s upd yid = sF := rfl
  have hnewle : newLv ≤ s.Level := by
    have h7 := (shrinkLoop_spec s1 s1.Level).1
    have h8 : newLv ≤ s1.Level := h7
    omega
  have hsF_ne : ∀ z, z ≠ 0 → sF.nodeAt z = s1.nodeAt z := by
    intro z hz
    show (s1.setNode 0 _).nodeAt z = s1.nodeAt z
    exact nodeAt_setNode_ne s1 0 _ z hz
  have hsF_head : sF.nodeAt 0 = (s1.nodeAt 0).shrinkLevel newLv := by
    show (s1.setNode 0 _).nodeAt 0 = _
    exact nodeAt_setNode_self s1 0 _ (by rw [hs1len]; omega)
  have hsFlen : sF.nodes.length = s.nodes.length := by
    show (s1.setNode 0 _).nodes.length = _
    rw [setNode_nodes_length, hs1len]
  have hsFcount : sF.count = s.count - 1 := by
    show (s1.setNode 0 _).count - 1 = s.count - 1
    rw [setNode_count, hs1count]
  have hsFheadlvl : (sF.nodeAt 0).level = newLv := by
    rw [hsF_head]
    apply shrinkLevel_level
    rw [hs1lvl 0]
    exact hnewle
  have hsFLev : sF.Level = newLv := hsFheadlvl
  have hsFhead_nextAt : ∀ i, i < newLv → (sF.nodeAt 0).nextAt i = (s1.nodeAt 0).nextAt i := by
    intro i hi
    rw [hsF_head]
    exact shrinkLevel_nextAt _ _ _ hi
  have hsFhead_distAt : ∀ i, i < newLv → (sF.nodeAt 0).distAt i = (s1.nodeAt 0).distAt i := by
    intro i hi
    rw [hsF_head]
    exact shrinkLevel_distAt _ _ _ hi
  have hsFkeyval : ∀ z, (sF.nodeAt z).key = (s.nodeAt z).key ∧
      (sF.nodeAt z).value = (s.nodeAt z).value := by
    intro z
    by_cases hz : z = 0
    · subst hz
      exact ⟨by rw [hsF_head, shrinkLevel_key, hs1key],
        by rw [hsF_head, shrinkLevel_value, hs1value]⟩
    · exact ⟨by rw [hsF_ne z hz, hs1key], by rw [hsF_ne z hz, hs1value]⟩
  -- the new spine
  set L' := eraseAt L q with hLpdef
  have hlenL' : L'.length = L.length - 1 := length_eraseAt L q hq2
  have hget_lt : ∀ j, j < q → L'.getD j 0 = L.getD j 0 := fun j hj =>
    getD_eraseAt_lt L q j 0 hj (by omega)
  have hget_ge : ∀ j, q ≤ j → L'.getD j 0 = L.getD (j + 1) 0 := fun j hj =>
    getD_eraseAt_ge L q j 0 hj (by omega)
  have h00' : L'.getD 0 0 = 0 := by rw [hget_lt 0 (by omega), h00]
  have hnd' : L'.Nodup := nodup_eraseAt L q hnd
  have hidne : ∀ t, 1 ≤ t → t < L.length → L.getD t 0 ≠ 0 := fun t h1 h2 hc => by
    have := getD_inj L hnd t 0 h2 hlen (by rw [h00]; exact hc)
    omega
  have hlvl' : ∀ t, 1 ≤ t → t < L'.length →
      (sF.nodeAt (L'.getD t 0)).level
        = if t < q then (s.nodeAt (L.getD t 0)).level
          else (s.nodeAt (L.getD (t + 1) 0)).level := by
    intro t h1 h2
    by_cases hta : t < q
    · rw [if_pos hta, hget_lt t hta, hsF_ne _ (hidne t h1 (by omega)), hs1lvl]
    · rw [if_neg hta, hget_ge t (by omega), hsF_ne _ (hidne (t + 1) (by omega) (by omega)),
        hs1lvl]
  -- successor translation to the erased spine
  have hV1 : ∀ i j, j < q → succNat s L i j < q → succNat sF L' i j = succNat s L i j := by
    intro i j hjq hsq
    obtain ⟨ha, hb, hc, hd⟩ := succNat_spec s L i j (by omega)
    apply succNat_unique sF L' i j (by omega) (succNat s L i j) ha (by omega)
    · intro _
      rw [hlvl' (succNat s L i j) (by omega) (by omega), if_pos hsq]
      exact hc (by omega)
    · intro t h1 h2
      rw [hlvl' t (by omega) (by omega), if_pos (by omega)]
      exact hd t h1 h2
  have hV2 : ∀ i j, j < q → succNat s L i j = q →
      succNat sF L' i j = succNat s L i q - 1 := by
    intro i j hjq hsq
    obtain ⟨ha, hb, hc, hd⟩ := succNat_spec s L i j (by omega)
    obtain ⟨ha2, hb2, hc2, hd2⟩ := succNat_spec s L i q hq2
    apply succNat_unique sF L' i j (by omega) (succNat s L i q - 1) (by omega) (by omega)
    · intro hlt
      rw [hlvl' (succNat s L i q - 1) (by omega) (by omega), if_neg (by omega)]
      have hidx : succNat s L i q - 1 + 1 = succNat s L i q := by omega
      rw [hidx]
      exact hc2 (by omega)
    · intro t h1 h2
      by_cases hta : t < q
      · rw [hlvl' t (by omega) (by omega), if_pos hta]
        exact hd t h1 (by omega)
      · rw [hlvl' t (by omega) (by omega), if_neg hta]
        exact hd2 (t + 1) (by omega) (by omega)
  have hV3 : ∀ i j, j < q → q < succNat s L i j →
      succNat sF L' i j = succNat s L i j - 1 := by
    intro i j hjq hgt
    obtain ⟨ha, hb, hc, hd⟩ := succNat_spec s L i j (by omega)
    apply succNat_unique sF L' i j (by omega) (succNat s L i j - 1) (by omega) (by omega)
    · intro hlt
      rw [hlvl' (succNat s L i j - 1) (by omega) (by omega), if_neg (by omega)]
      have hidx : succNat s L i j - 1 + 1 = succNat s L i j := by omega
      rw [hidx]
      exact hc (by omega)
    · intro t h1 h2
      by_cases hta : t < q
      · rw [hlvl' t (by omega) (by omega), if_pos hta]
        exact hd t h1 (by omega)
      · rw [hlvl' t (by omega) (by omega), if_neg hta]
        exact hd (t + 1) (by omega) (by omega)
  have hV4 : ∀ i j, q ≤ j → j < L'.length →
      succNat sF L' i j = succNat s L i (j + 1) - 1 := by
    intro i j hjge hjlt
    obtain ⟨ha, hb, hc, hd⟩ := succNat_spec s L i (j + 1) (by omega)
    apply succNat_unique sF L' i j hjlt (succNat s L i (j + 1) - 1) (by omega) (by omega)
    · intro hlt
      rw [hlvl' (succNat s L i (j + 1) - 1) (by omega) (by omega), if_neg (by omega)]
      have hidx : succNat s L i (j + 1) - 1 + 1 = succNat s L i (j + 1) := by omega
      rw [hidx]
      exact hc (by omega)
    · intro t h1 h2
      rw [hlvl' t (by omega) (by omega), if_neg (by omega)]
      exact hd (t + 1) (by omega) (by omega)
  -- the pre-shrink link structure along the erased spine
  have hlk1 : ∀ j', j' < L'.length → ∀ i, i < s.Level →
      i < (s.nodeAt (L'.getD j' 0)).level →
      (s1.nodeAt (L'.getD j' 0)).distAt i = (succNat sF L' i j' : Int) - (j' : Int) ∧
      (s1.nodeAt (L'.getD j' 0)).nextAt i
        = (if succNat sF L' i j' < L'.length
           then some (L'.getD (succNat sF L' i j') 0) else none) := by
    intro j' hj' i hiS hio
    by_cases hja : j' < q
    · rw [hget_lt j' hja] at hio ⊢
      by_cases hjU : j' = u i
      · subst hjU
        have hcomp := (hslots (L.getD (u i) 0) i).2 hiS (hu1 i hiS).symm
        obtain ⟨hud, hun⟩ := hlk (u i) (by omega) i hio
        have hSub := hu4 i hiS
        obtain ⟨ha3, hb3, hc3, hd3⟩ := succNat_spec s L i (u i) (by omega)
        by_cases hSq : succNat s L i (u i) = q
        · -- the unlinked tower is the direct level-i successor: relink past it
          have hnxy : (s.nodeAt (L.getD (u i) 0)).nextAt i = some yid := by
            rw [hun, hSq, if_pos hq2, ← hyiddef]
          obtain ⟨hnx, hds⟩ := hcomp.1 hnxy
          have hilvly : i < (s.nodeAt (L.getD q 0)).level := by
            have h7 := hc3 (by omega)
            rw [hSq] at h7
            exact h7
          obtain ⟨hyd, hyn⟩ := hlk q hq2 i hilvly
          rw [← hyiddef] at hyd hyn
          obtain ⟨ha2, hb2, hc2, hd2⟩ := succNat_spec s L i q hq2
          constructor
          · rw [hds, hud, hyd, hV2 i (u i) (hu3 i hiS) hSq]
            push_cast
            omega
          · rw [hnx, hyn, hV2 i (u i) (hu3 i hiS) hSq]
            by_cases hS2 : succNat s L i q < L.length
            · rw [if_pos hS2, if_pos (by omega), hget_ge _ (by omega)]
              have hidx : succNat s L i q - 1 + 1 = succNat s L i q := by omega
              rw [hidx]
            · rw [if_neg hS2, if_neg (by omega)]
        · -- the level-i link jumps past the unlinked tower: only the span shrinks
          have hgtq : q < succNat s L i (u i) := by omega
          have hnxy : ¬ (s.nodeAt (L.getD (u i) 0)).nextAt i = some yid := by
            rw [hun]
            by_cases hS : succNat s L i (u i) < L.length
            · rw [if_pos hS]
              intro hc
              injection hc with hc2
              rw [hyiddef] at hc2
              have := getD_inj L hnd _ q hS hq2 hc2
              omega
            · rw [if_neg hS]
              exact fun hc => Option.noConfusion hc
          obtain ⟨hnx, hds⟩ := hcomp.2 hnxy
          constructor
          · rw [hds, hud, hV3 i (u i) (hu3 i hiS) hgtq]
            push_cast
            omega
          · rw [hnx, hun, hV3 i (u i) (hu3 i hiS) hgtq]
            by_cases hS : succNat s L i (u i) < L.length
            · rw [if_pos hS, if_pos (by omega), hget_ge _ (by omega)]
              have hidx : succNat s L i (u i) - 1 + 1 = succNat s L i (u i) := by omega
              rw [hidx]
            · rw [if_neg hS, if_neg (by omega)]
      · -- untouched tower strictly before the removal point
        have hchm : ChainMem s L i j' := by
          refine ⟨by omega, ?_⟩
          by_cases hj0 : j' = 0
          · exact Or.inl hj0
          · exact Or.inr hio
        have hjle : j' ≤ u i := hu5 i hiS j' hchm hja
        have hjlt : j' < u i := by omega
        have hulvl : i < (s.nodeAt (L.getD (u i) 0)).level := by
          rcases (hu2 i hiS).2 with h | h
          · omega
          · exact h
        obtain ⟨ha, hb, hc, hd⟩ := succNat_spec s L i j' (by omega)
        have hSle : succNat s L i j' ≤ u i := by
          by_contra hgt
          exact hd (u i) hjlt (by omega) hulvl
        have hcomp := (hslots (L.getD j' 0) i).1 (Or.inr (by
          rw [hu1 i hiS]
          exact fun hc => hjU (getD_inj L hnd j' (u i) (by omega) (hu2 i hiS).1 hc)))
        obtain ⟨hud, hun⟩ := hlk j' (by omega) i hio
        have hSq : succNat s L i j' < q := by
          have := hu3 i hiS
          omega
        constructor
        · rw [hcomp.2, hud, hV1 i j' hja hSq]
        · rw [hcomp.1, hun, hV1 i j' hja hSq, if_pos (by omega), if_pos (by omega),
            hget_lt _ hSq]
    · -- towers after the removal point, shifted down by one
      rw [hget_ge j' (by omega)] at hio ⊢
      have hj1lt : j' + 1 < L.length := by omega
      have hcomp := (hslots (L.getD (j' + 1) 0) i).1 (Or.inr (by
        rw [hu1 i hiS]
        exact fun hc => by
          have h7 := getD_inj L hnd (j' + 1) (u i) hj1lt (hu2 i hiS).1 hc
          have h8 := hu3 i hiS
          omega))
      obtain ⟨hud, hun⟩ := hlk (j' + 1) hj1lt i hio
      obtain ⟨ha, hb, hc, hd⟩ := succNat_spec s L i (j' + 1) hj1lt
      constructor
      · rw [hcomp.2, hud, hV4 i j' (by omega) hj']
        push_cast
        omega
      · rw [hcomp.1, hun, hV4 i j' (by omega) hj']
        by_cases hS : succNat s L i (j' + 1) < L.length
        · rw [if_pos hS, if_pos (by omega), hget_ge _ (by omega)]
          have hidx : succNat s L i (j' + 1) - 1 + 1 = succNat s L i (j' + 1) := by omega
          rw [hidx]
        · rw [if_neg hS, if_neg (by omega)]
  -- the full link invariant after the shrink
  have hlk' : LinksOk sF L' := by
    intro j' hj' i hi
    by_cases hj0 : j' = 0
    · subst hj0
      have h5 : (sF.nodeAt (L'.getD 0 0)).level = newLv := by
        rw [h00']
        exact hsFheadlvl
      have hinew : i < newLv := by omega
      have hiS : i < s.Level := by omega
      obtain ⟨hd1, hn1⟩ := hlk1 0 hj' i hiS (by
        rw [h00']
        show i < s.Level
        exact hiS)
      rw [h00'] at hd1 hn1 ⊢
      constructor
      · rw [hsFhead_distAt i hinew, hd1]
      · rw [hsFhead_nextAt i hinew, hn1]
    · have hzne : L'.getD j' 0 ≠ 0 := by
        by_cases hja : j' < q
        · rw [hget_lt j' hja]
          exact hidne j' (by omega) (by omega)
        · rw [hget_ge j' (by omega)]
          exact hidne (j' + 1) (by omega) (by omega)
      have hio : i < (s.nodeAt (L'.getD j' 0)).level := by
        rw [hsF_ne _ hzne, hs1lvl] at hi
        exact hi
      have hiS : i < s.Level := by
        by_cases hja : j' < q
        · have h6 := hio
          rw [hget_lt j' hja] at h6
          have := hlv j' (by omega) (by omega)
          omega
        · have h6 := hio
          rw [hget_ge j' (by omega)] at h6
          have := hlv (j' + 1) (by omega) (by omega)
          omega
      obtain ⟨hd1, hn1⟩ := hlk1 j' hj' i hiS hio
      exact ⟨by rw [hsF_ne _ hzne, hd1], by rw [hsF_ne _ hzne, hn1]⟩
  -- levels are capped by the shrunk head level
  have hlv' : LevelsOk sF L' := by
    intro j hj hj1
    have hlow : 1 ≤ (sF.nodeAt (L'.getD j 0)).level := by
      rw [hlvl' j hj1 hj]
      by_cases hja : j < q
      · rw [if_pos hja]
        exact (hlv j (by omega) (by omega)).1
      · rw [if_neg hja]
        exact (hlv (j + 1) (by omega) (by omega)).1
    have hup : (sF.nodeAt (L'.getD j 0)).level ≤ newLv := by
      by_contra hgt
      have hlvS : (sF.nodeAt (L'.getD j 0)).level ≤ s.Level := by
        rw [hlvl' j hj1 hj]
        by_cases hja : j < q
        · rw [if_pos hja]
          exact (hlv j (by omega) (by omega)).2
        · rw [if_neg hja]
          exact (hlv (j + 1) (by omega) (by omega)).2
      have hnewlt : newLv < s.Level := by omega
      have hnone : (s1.nodeAt 0).nextAt newLv = none := by
        refine (shrinkLoop_spec s1 s1.Level).2.1 newLv (le_refl _) ?_
        have h8 := hs1Lev
        omega
      obtain ⟨hd1, hn1⟩ := hlk1 0 (by omega) newLv hnewlt (by
        rw [h00']
        show newLv < s.Level
        exact hnewlt)
      rw [h00'] at hn1
      obtain ⟨ha, hb, hc, hd⟩ := succNat_spec sF L' newLv 0 (by omega)
      have hsle : succNat sF L' newLv 0 ≤ j := by
        by_contra hgt2
        exact hd j (by omega) (by omega) (by omega)
      have h9 := hn1
      rw [hnone, if_pos (by omega)] at h9
      exact Option.noConfusion h9
    have h5 : sF.Level = newLv := hsFLev
    exact ⟨hlow, by omega⟩
  -- the head level is again the maximum tower level
  have hne' : L' ≠ [] := by
    intro hc2
    have h7 := hlenL'
    rw [hc2, List.length_nil] at h7
    omega
  have hhm' : HeadMax sF L' := by
    unfold HeadMax
    rw [hsFLev]
    apply le_antisymm
    · by_cases hnv0 : newLv = 0
      · rw [hnv0]
        exact Nat.zero_le _
      · have hne2 : (s1.nodeAt 0).nextAt (newLv - 1) ≠ none := by
          rcases (shrinkLoop_spec s1 s1.Level).2.2 with h0 | h
          · exact absurd h0 hnv0
          · exact h
        have hm1 : newLv - 1 < s.Level := by omega
        have h0len : 0 < L'.length := by omega
        obtain ⟨hd1, hn1⟩ := hlk1 0 h0len (newLv - 1) hm1 (by
          rw [h00']
          show newLv - 1 < s.Level
          exact hm1)
        rw [h00'] at hn1
        by_cases hS : succNat sF L' (newLv - 1) 0 < L'.length
        · obtain ⟨ha, hb, hc, hd⟩ := succNat_spec sF L' (newLv - 1) 0 h0len
          have hlvlbig := hc hS
          have hmem : L'.getD (succNat sF L' (newLv - 1) 0) 0 ∈ L'.tail :=
            getD_mem_tail L' hne' h00' _ (by omega) hS
          have h8 := maxLevelOver_ge sF L'.tail _ hmem
          omega
        · rw [hn1, if_neg hS] at hne2
          exact absurd rfl hne2
    · by_cases htail : L'.tail = []
      · rw [htail]
        exact Nat.zero_le _
      · obtain ⟨a, hat, haeq⟩ := maxLevelOver_mem sF L'.tail htail
        obtain ⟨t, ht1, ht2, ht3⟩ := mem_tail_pos L' hne' h00' a hat
        have h7 := hlv' t ht2 ht1
        rw [ht3] at h7
        have h8 : sF.Level = newLv := hsFLev
        omega
  -- plain components
  have hvi' : ValidIds sF L' := by
    intro j hj
    rw [hsFlen]
    by_cases hja : j < q
    · rw [hget_lt j hja]
      exact hvi j (by omega)
    · rw [hget_ge j (by omega)]
      exact hvi (j + 1) (by omega)
  have hco' : CountOk sF L' := by
    unfold CountOk
    rw [hsFcount, hlenL']
    have hcoeq : s.count = (L.length : Int) - 1 := hco
    omega
  have hsk' : SortedKeys sF L' := by
    have hkeyf : ∀ t, 1 ≤ t → t < L'.length → (sF.nodeAt (L'.getD t 0)).key
        = (s.nodeAt (L.getD (if t < q then t else t + 1) 0)).key := by
      intro t h1 h2
      by_cases hta : t < q
      · rw [if_pos hta, hget_lt t hta, (hsFkeyval _).1]
      · rw [if_neg hta, hget_ge t (by omega), (hsFkeyval _).1]
    intro j hj j2 hj2 h1j hjj
    rw [hkeyf j h1j hj, hkeyf j2 (by omega) hj2]
    by_cases hja : j < q
    · rw [if_pos hja]
      by_cases hjb : j2 < q
      · rw [if_pos hjb]
        exact hsk j (by omega) j2 (by omega) h1j hjj
      · rw [if_neg hjb]
        exact hsk j (by omega) (j2 + 1) (by omega) h1j (by omega)
    · rw [if_neg hja]
      have hjb : ¬ j2 < q := by omega
      rw [if_neg hjb]
      exact hsk (j + 1) (by omega) (j2 + 1) (by omega) (by omega) (by omega)
  have hdl2 : DistLen sF L' := by
    intro j hj
    by_cases hj0 : j = 0
    · subst hj0
      rw [h00', hsF_head]
      apply shrinkLevel_distLen
      rw [hs1dlen 0, hdl0, hs1lvl 0]
      rfl
    · by_cases hja : j < q
      · rw [hget_lt j hja, hsF_ne _ (hidne j (by omega) (by omega))]
        show (s1.nodeAt _).dist.length = (s1.nodeAt _).level
        rw [hs1dlen, hs1lvl]
        exact hdl j (by omega)
      · rw [hget_ge j (by omega), hsF_ne _ (hidne (j + 1) (by omega) (by omega))]
        show (s1.nodeAt _).dist.length = (s1.nodeAt _).level
        rw [hs1dlen, hs1lvl]
        exact hdl (j + 1) (by omega)
  -- the spine chain
  have hsp' : SpineOk sF L' := by
    refine ⟨hne', h00', ?_, ?_⟩
    · intro j hj
      have hj' : j < L'.length := by omega
      have hlvj : 0 < (sF.nodeAt (L'.getD j 0)).level := by
        by_cases hj0 : j = 0
        · subst hj0
          rw [h00']
          have h5 : (sF.nodeAt 0).level = newLv := hsFheadlvl
          have h6 : 1 < L'.length := by omega
          have h7 := hlv' 1 h6 (le_refl 1)
          have h8 : sF.Level = newLv := hsFLev
          omega
        · exact (hlv' j hj' (by omega)).1
      obtain ⟨hd1, hn1⟩ := hlk' j hj' 0 hlvj
      rw [Node.Next_eq_nextAt, hn1, succNat_zero sF L' hlv' j hj', if_pos (by omega)]
    · by_cases hone : L'.length = 1
      · have hidx : L'.length - 1 = 0 := by omega
        rw [hidx, h00', Node.Next_eq_nextAt]
        by_cases hnv : newLv = 0
        · apply Node.nextAt_none
          have h6 : (sF.nodeAt 0).next.length = newLv := hsFheadlvl
          omega
        · obtain ⟨hd1, hn1⟩ := hlk' 0 (by omega) 0 (by
            rw [h00']
            have h5 : (sF.nodeAt 0).level = newLv := hsFheadlvl
            omega)
          rw [h00'] at hn1
          rw [hn1, succNat_zero sF L' hlv' 0 (by omega), if_neg (by omega)]
      · have hlast : L'.length - 1 < L'.length := by omega
        obtain ⟨hd1, hn1⟩ := hlk' (L'.length - 1) hlast 0 ((hlv' _ hlast (by omega)).1)
        rw [Node.Next_eq_nextAt, hn1, succNat_zero sF L' hlv' _ hlast, if_neg (by omega)]
  rw [hfin]
  exact ⟨⟨hsp', hvi', hnd', hco', hlv', hhm', hsk', hdl2, hlk'⟩, hsFcount, hsFlen, hsFkeyval⟩

/-- Branch analysis of `Remove`, mirroring `Set_branches`: hit iff the tower
right after the level-0 search predecessor carries the key. -/
theorem Remove_branches (s : SkipList) (L : List Nat) (hInv : InvAt s L) (target : Int) :
    (¬ (predAtLvl s L 0 target + 1 < L.length ∧
        (s.nodeAt (L.getD (predAtLvl s L 0 target + 1) 0)).key = target) →
      s.Remove target = (s, (none, InvalidPos))) ∧
    ((predAtLvl s L 0 target + 1 < L.length ∧
        (s.nodeAt (L.getD (predAtLvl s L 0 target + 1) 0)).key = target) →
      s.Remove target
        = (removeFinish s (searchUpd s target s.Level 0 (-1))
             (L.getD (predAtLvl s L 0 target + 1) 0),
           (some (L.getD (predAtLvl s L 0 target + 1) 0),
            ((predAtLvl s L 0 target : Int) - 1) + 1))) := by
  obtain ⟨hsp, hvi, hnd, hco, hlv, hhm, hsk, hdl, hlk⟩ := hInv
  obtain ⟨hne, h00, hch, hla⟩ := hsp
  have hlen : 0 < L.length := List.length_pos.mpr hne
  have hnlen : L.length ≤ s.nodes.length :=
    length_le_of_nodup_lt L s.nodes.length hnd (validIds_mem s L hvi)
  have hcur := searchCursor_eq s L h00 hlk hsk hlv hne hnlen target
  have hdef : s.Remove target = (
      if (s.nodeAt ((searchUpd s target s.Level 0 (-1)).getD 0 (0, -1)).1).next.length > 0 then
        match (s.nodeAt ((searchUpd s target s.Level 0 (-1)).getD 0 (0, -1)).1).nextAt 0 with
        | some y =>
          if (s.nodeAt y).key = target then
            (removeFinish s (searchUpd s target s.Level 0 (-1)) y,
             (some y, ((searchUpd s target s.Level 0 (-1)).getD 0 (0, -1)).2 + 1))
          else (s, (none, InvalidPos))
        | none => (s, (none, InvalidPos))
      else (s, (none, InvalidPos))) := rfl
  rw [hdef, hcur]
  dsimp only
  by_cases h1 : L.length = 1
  · have hp00 : predAtLvl s L 0 target = 0 := predAtLvl_len_one s L h1 0 target
    have hL0 : s.Level = 0 := level_zero_of_one s L hhm h1
    have hlv0 : ¬ (s.nodeAt (L.getD (predAtLvl s L 0 target) 0)).next.length > 0 := by
      rw [hp00, h00]
      have : (s.nodeAt 0).next.length = s.Level := rfl
      omega
    rw [if_neg hlv0]
    exact ⟨fun _ => rfl, fun hcon => absurd hcon.1 (by omega)⟩
  · have h2 : 2 ≤ L.length := by omega
    have hp0spec := predAtLvl_spec s L h00 hne target 0
    have hp0len : predAtLvl s L 0 target < L.length := hp0spec.1.1
    have hlvlp0 : 0 < (s.nodeAt (L.getD (predAtLvl s L 0 target) 0)).level :=
      chain_lvl s L h00 0 (predAtLvl s L 0 target) hp0spec.1
        (by have := level_pos_of_two s L h00 hne hlv hhm h2; omega)
    have hlvlp0' : (s.nodeAt (L.getD (predAtLvl s L 0 target) 0)).next.length > 0 := hlvlp0
    rw [if_pos hlvlp0']
    have hnx : (s.nodeAt (L.getD (predAtLvl s L 0 target) 0)).nextAt 0
        = if predAtLvl s L 0 target + 1 < L.length
          then some (L.getD (predAtLvl s L 0 target + 1) 0) else none := by
      have hx := (hlk (predAtLvl s L 0 target) hp0len 0 hlvlp0).2
      rw [succNat_zero s L hlv (predAtLvl s L 0 target) hp0len] at hx
      exact hx
    by_cases hplt : predAtLvl s L 0 target + 1 < L.length
    · rw [hnx, if_pos hplt]
      by_cases hkey : (s.nodeAt (L.getD (predAtLvl s L 0 target + 1) 0)).key = target
      · refine ⟨fun hnf => absurd ⟨hplt, hkey⟩ hnf, fun _ => ?_⟩
        show (if (s.nodeAt (L.getD (predAtLvl s L 0 target + 1) 0)).key = target
          then _ else _) = _
        rw [if_pos hkey]
      · refine ⟨fun _ => ?_, fun hcon => absurd hcon.2 hkey⟩
        show (if (s.nodeAt (L.getD (predAtLvl s L 0 target + 1) 0)).key = target
          then _ else _) = _
        rw [if_neg hkey]
    · rw [hnx, if_neg hplt]
      exact ⟨fun _ => rfl, fun hcon => absurd hcon.1 hplt⟩

/-- Branch analysis of `Get`: same search cursor, no mutation. -/
theorem Get_spec (s : SkipList) (L : List Nat) (hInv : InvAt s L) (target : Int) :
    ((predAtLvl s L 0 target + 1 < L.length ∧
        (s.nodeAt (L.getD (predAtLvl s L 0 target + 1) 0)).key = target) →
      s.Get target = (some (L.getD (predAtLvl s L 0 target + 1) 0),
        ((predAtLvl s L 0 target : Int) - 1) + 1)) ∧
    (¬ (predAtLvl s L 0 target + 1 < L.length ∧
        (s.nodeAt (L.getD (predAtLvl s L 0 target + 1) 0)).key = target) →
      s.Get target = (none, InvalidPos)) := by
  obtain ⟨hsp, hvi, hnd, hco, hlv, hhm, hsk, hdl, hlk⟩ := hInv
  obtain ⟨hne, h00, hch, hla⟩ := hsp
  have hlen : 0 < L.length := List.length_pos.mpr hne
  have hnlen : L.length ≤ s.nodes.length :=
    length_le_of_nodup_lt L s.nodes.length hnd (validIds_mem s L hvi)
  have hcur := searchCursor_eq s L h00 hlk hsk hlv hne hnlen target
  have hdesc : descend s target s.Level 0 (-1)
      = (searchUpd s target s.Level 0 (-1)).getD 0 (0, -1) :=
    descend_eq_getD s target s.Level 0 (-1)
  have hdef : s.Get target = (
      if (s.nodeAt (descend s target s.Level 0 (-1)).1).next.length > 0 then
        match (s.nodeAt (descend s target s.Level 0 (-1)).1).nextAt 0 with
        | some y =>
          if (s.nodeAt y).key = target then (some y, (descend s target s.Level 0 (-1)).2 + 1)
          else (none, InvalidPos)
        | none => (none, InvalidPos)
      else (none, InvalidPos)) := rfl
  rw [hdef, hdesc, hcur]
  dsimp only
  by_cases h1 : L.length = 1
  · have hp00 : predAtLvl s L 0 target = 0 := predAtLvl_len_one s L h1 0 target
    have hL0 : s.Level = 0 := level_zero_of_one s L hhm h1
    have hlv0 : ¬ (s.nodeAt (L.getD (predAtLvl s L 0 target) 0)).next.length > 0 := by
      rw [hp00, h00]
      have : (s.nodeAt 0).next.length = s.Level := rfl
      omega
    rw [if_neg hlv0]
    exact ⟨fun hcon => absurd hcon.1 (by omega), fun _ => rfl⟩
  · have h2 : 2 ≤ L.length := by omega
    have hp0spec := predAtLvl_spec s L h00 hne target 0
    have hp0len : predAtLvl s L 0 target < L.length := hp0spec.1.1
    have hlvlp0 : 0 < (s.nodeAt (L.getD (predAtLvl s L 0 target) 0)).level :=
      chain_lvl s L h00 0 (predAtLvl s L 0 target) hp0spec.1
        (by have := level_pos_of_two s L h00 hne hlv hhm h2; omega)
    have hlvlp0' : (s.nodeAt (L.getD (predAtLvl s L 0 target) 0)).next.length > 0 := hlvlp0
    rw [if_pos hlvlp0']
    have hnx : (s.nodeAt (L.getD (predAtLvl s L 0 target) 0)).nextAt 0
        = if predAtLvl s L 0 target + 1 < L.length
          then some (L.getD (predAtLvl s L 0 target + 1) 0) else none := by
      have hx := (hlk (predAtLvl s L 0 target) hp0len 0 hlvlp0).2
      rw [succNat_zero s L hlv (predAtLvl s L 0 target) hp0len] at hx
      exact hx
    by_cases hplt : predAtLvl s L 0 target + 1 < L.length
    · rw [hnx, if_pos hplt]
      by_cases hkey : (s.nodeAt (L.getD (predAtLvl s L 0 target + 1) 0)).key = target
      · refine ⟨fun _ => ?_, fun hnf => absurd ⟨hplt, hkey⟩ hnf⟩
        show (if (s.nodeAt (L.getD (predAtLvl s L 0 target + 1) 0)).key = target
          then _ else _) = _
        rw [if_pos hkey]
      · refine ⟨fun hcon => absurd hcon.2 hkey, fun _ => ?_⟩
        show (if (s.nodeAt (L.getD (predAtLvl s L 0 target + 1) 0)).key = target
          then _ else _) = _
        rw [if_neg hkey]
    · rw [hnx, if_neg hplt]
      exact ⟨fun hcon => absurd hcon.1 hplt, fun _ => rfl⟩

/-- `GetByPos` correctness: out of range yields `nil`, in range yields the
tower at spine position `k + 1` (0-based rank `k`).  No mutation either way. -/
theorem GetByPos_spec (s : SkipList) (L : List Nat) (hInv : InvAt s L) (k : Int) :
    ((k < 0 ∨ k ≥ s.count) → s.GetByPos k = none) ∧
    (0 ≤ k → k < s.count →
      ∃ t : Nat, (t : Int) = k + 1 ∧ t < L.length ∧ s.GetByPos k = some (L.getD t 0)) := by
  obtain ⟨⟨hne, h00, hch, hla⟩, hvi, hnd, hco, hlv, hhm, hsk, hdl, hlk⟩ := hInv
  have hlen : 0 < L.length := List.length_pos.mpr hne
  have hnlen : L.length ≤ s.nodes.length :=
    length_le_of_nodup_lt L s.nodes.length hnd (validIds_mem s L hvi)
  have hdef : s.GetByPos k = (if k < 0 ∨ k ≥ s.count then none
      else some (posDescend s k s.Level 0 (-1)).1) := rfl
  constructor
  · intro hg
    rw [hdef, if_pos hg]
  · intro hk0 hkc
    have hguard : ¬ (k < 0 ∨ k ≥ s.count) := by
      intro hg
      rcases hg with h | h <;> omega
    have hcoeq : s.count = (L.length : Int) - 1 := hco
    have hlen2 : 2 ≤ L.length := by omega
    have hL1 : 1 ≤ s.Level := level_pos_of_two s L h00 hne hlv hhm hlen2
    obtain ⟨p, hp1, hp2, hp3, hp4, hp5, hp6⟩ :=
      posDescend_inv s L h00 hlk hnlen k s.Level (le_refl _) 0 ⟨hlen, Or.inl rfl⟩ (by omega)
    have hstart : posDescend s k s.Level 0 (-1)
        = posDescend s k s.Level (L.getD 0 0) (((0 : Nat) : Int) - 1) := by
      rw [h00]
      norm_num
    have hpk : (p : Int) = k + 1 := by
      have hstop := hp6 (by omega)
      rw [succNat_zero s L hlv p hp3] at hstop
      by_cases hS : p + 1 < L.length
      · have h7 := hstop hS
        omega
      · omega
    refine ⟨p, hpk, hp3, ?_⟩
    rw [hdef, if_neg hguard, hstart, hp1]

/-- `Remove` correctness: on a hit the state is the removal of spine position
`p0 + 1` with the returned node/rank; on a miss the state is untouched and the
sentinels are returned. -/
theorem Remove_spec (s : SkipList) (L : List Nat) (hInv : InvAt s L) (target : Int) :
    ((predAtLvl s L 0 target + 1 < L.length ∧
        (s.nodeAt (L.getD (predAtLvl s L 0 target + 1) 0)).key = target) →
      InvAt (s.Remove target).1 (eraseAt L (predAtLvl s L 0 target + 1)) ∧
      (s.Remove target).2
        = (some (L.getD (predAtLvl s L 0 target + 1) 0),
           ((predAtLvl s L 0 target : Int) - 1) + 1) ∧
      (s.Remove target).1.count = s.count - 1 ∧
      (s.Remove target).1.nodes.length = s.nodes.length ∧
      (∀ z, ((s.Remove target).1.nodeAt z).key = (s.nodeAt z).key ∧
        ((s.Remove target).1.nodeAt z).value = (s.nodeAt z).value)) ∧
    (¬ (predAtLvl s L 0 target + 1 < L.length ∧
        (s.nodeAt (L.getD (predAtLvl s L 0 target + 1) 0)).key = target) →
      s.Remove target = (s, (none, InvalidPos))) := by
  have hbr := Remove_branches s L hInv target
  have hInv' := hInv
  obtain ⟨⟨hne, h00, hch, hla⟩, hvi, hnd, hco, hlv, hhm, hsk, hdl, hlk⟩ := hInv'
  have hlen : 0 < L.length := List.length_pos.mpr hne
  have hnlen : L.length ≤ s.nodes.length :=
    length_le_of_nodup_lt L s.nodes.length hnd (validIds_mem s L hvi)
  constructor
  · intro hpres
    rw [hbr.2 hpres]
    obtain ⟨hleft, hright, hPle, hPsucc, hchle⟩ := search_prefacts s L h00 hne hlv hsk target
    have hP := fun i => predAtLvl_spec s L h00 hne target i
    have hufull := searchUpd_full s L h00 hlk hsk hne hnlen target
    have hu1 : ∀ i, i < s.Level →
        ((searchUpd s target s.Level 0 (-1)).getD i (0, -1)).1
          = L.getD (predAtLvl s L i target) 0 := by
      intro i hi
      rw [hufull, getD_map_range_at _ _ _ _ hi]
    have hu0 : ∀ i, s.Level ≤ i →
        ((searchUpd s target s.Level 0 (-1)).getD i (0, -1)).1 = 0 := by
      intro i hi
      rw [hufull, List.getD_eq_getElem?_getD, List.getElem?_eq_none (by
        rw [List.length_map, List.length_range]
        omega)]
      rfl
    have hmain := removeFinish_spec s L hInv (predAtLvl s L 0 target + 1) (by omega) hpres.1
      (searchUpd s target s.Level 0 (-1)) (fun i => predAtLvl s L i target)
      hu1 hu0 (fun i _ => (hP i).1)
      (fun i _ => by dsimp only; have := hPle i; omega)
      (fun i _ => by dsimp only; have := hPsucc i; omega)
      (fun i _ t hct htl => by dsimp only; have := hchle i t hct (by omega); omega)
    exact ⟨hmain.1, rfl, hmain.2.1, hmain.2.2.1, hmain.2.2.2⟩
  · exact hbr.1

/-- `RemoveByPos` correctness: out of range returns the state untouched with
`nil`; in range removes the tower at spine position `k + 1` exactly as
`Remove` would. -/
theorem RemoveByPos_spec (s : SkipList) (L : List Nat) (hInv : InvAt s L) (k : Int) :
    ((k < 0 ∨ k ≥ s.count) → s.RemoveByPos k = (s, none)) ∧
    (0 ≤ k → k < s.count →
      ∃ q : Nat, (q : Int) = k + 1 ∧ 1 ≤ q ∧ q < L.length ∧
        (s.RemoveByPos k).2 = some (L.getD q 0) ∧
        InvAt (s.RemoveByPos k).1 (eraseAt L q) ∧
        (s.RemoveByPos k).1.count = s.count - 1 ∧
        (s.RemoveByPos k).1.nodes.length = s.nodes.length ∧
        (∀ z, ((s.RemoveByPos k).1.nodeAt z).key = (s.nodeAt z).key ∧
          ((s.RemoveByPos k).1.nodeAt z).value = (s.nodeAt z).value)) := by
  have hInv' := hInv
  obtain ⟨⟨hne, h00, hch, hla⟩, hvi, hnd, hco, hlv, hhm, hsk, hdl, hlk⟩ := hInv'
  have hlen : 0 < L.length := List.length_pos.mpr hne
  have hnlen : L.length ≤ s.nodes.length :=
    length_le_of_nodup_lt L s.nodes.length hnd (validIds_mem s L hvi)
  have hdef : s.RemoveByPos k = (if k < 0 ∨ k ≥ s.count then (s, none) else
      match (s.nodeAt ((posSearchUpd s k s.Level 0 (-1)).getD 0 (0, -1)).1).Next with
      | some y => (removeFinish s (posSearchUpd s k s.Level 0 (-1)) y, some y)
      | none => (s, none)) := rfl
  constructor
  · intro hg
    rw [hdef, if_pos hg]
  · intro hk0 hkc
    have hguard : ¬ (k < 0 ∨ k ≥ s.count) := by
      intro hg
      rcases hg with h | h <;> omega
    have hcoeq : s.count = (L.length : Int) - 1 := hco
    have hlen2 : 2 ≤ L.length := by omega
    have hL1 : 1 ≤ s.Level := level_pos_of_two s L h00 hne hlv hhm hlen2
    have hstart : posSearchUpd s k s.Level 0 (-1)
        = posSearchUpd s k s.Level (L.getD 0 0) (((0 : Nat) : Int) - 1) := by
      rw [h00]
      norm_num
    obtain ⟨u, hueq, huprop⟩ := posSearchUpd_eq s L h00 hlk hnlen k s.Level (le_refl _) 0
      ⟨hlen, Or.inl rfl⟩ (by omega)
    have hufull : posSearchUpd s k s.Level 0 (-1)
        = (List.range s.Level).map (fun i => (L.getD (u i) 0, (u i : Int) - 1)) := by
      rw [hstart, hueq]
    obtain ⟨hcm0, hle0, hst0⟩ := huprop 0 (by omega)
    have hu0len : u 0 < L.length := hcm0.1
    have hsucc0 : succNat s L 0 (u 0) = u 0 + 1 := succNat_zero s L hlv (u 0) hu0len
    have hult : u 0 + 1 < L.length := by omega
    have hk0eq : (u 0 : Int) = k := by
      have h7 := hst0 (by rw [hsucc0]; exact hult)
      rw [hsucc0] at h7
      omega
    have hx : ((posSearchUpd s k s.Level 0 (-1)).getD 0 (0, -1)).1 = L.getD (u 0) 0 := by
      rw [hufull, getD_map_range_at _ _ _ _ (by omega : 0 < s.Level)]
    have hlvlu0 : 0 < (s.nodeAt (L.getD (u 0) 0)).level :=
      chain_lvl s L h00 0 (u 0) hcm0 (by omega)
    have hNext : (s.nodeAt ((posSearchUpd s k s.Level 0 (-1)).getD 0 (0, -1)).1).Next
        = some (L.getD (u 0 + 1) 0) := by
      rw [hx, Node.Next_eq_nextAt]
      have h7 := (hlk (u 0) hu0len 0 hlvlu0).2
      rw [hsucc0] at h7
      rw [h7, if_pos hult]
    have hres : s.RemoveByPos k
        = (removeFinish s (posSearchUpd s k s.Level 0 (-1)) (L.getD (u 0 + 1) 0),
           some (L.getD (u 0 + 1) 0)) := by
      rw [hdef, if_neg hguard, hNext]
    have hu1 : ∀ i, i < s.Level →
        ((posSearchUpd s k s.Level 0 (-1)).getD i (0, -1)).1 = L.getD (u i) 0 := by
      intro i hi
      rw [hufull, getD_map_range_at _ _ _ _ hi]
    have hu0' : ∀ i, s.Level ≤ i →
        ((posSearchUpd s k s.Level 0 (-1)).getD i (0, -1)).1 = 0 := by
      intro i hi
      rw [hufull, List.getD_eq_getElem?_getD, List.getElem?_eq_none (by
        rw [List.length_map, List.length_range]
        omega)]
      rfl
    have hu3 : ∀ i, i < s.Level → u i < u 0 + 1 := by
      intro i hi
      have h7 := (huprop i hi).2.1
      omega
    have hu4 : ∀ i, i < s.Level → u 0 + 1 ≤ succNat s L i (u i) := by
      intro i hi
      obtain ⟨hcmi, hlei, hsti⟩ := huprop i hi
      obtain ⟨ha, hb, hc, hd⟩ := succNat_spec s L i (u i) hcmi.1
      by_cases hS : succNat s L i (u i) < L.length
      · have h7 := hsti hS
        omega
      · omega
    have hu5 : ∀ i, i < s.Level → ∀ t, ChainMem s L i t → t < u 0 + 1 → t ≤ u i := by
      intro i hi t hct htl
      by_cases ht0 : t = 0
      · omega
      · by_contra hgt
        obtain ⟨hcmi, hlei, hsti⟩ := huprop i hi
        obtain ⟨ha, hb, hc, hd⟩ := succNat_spec s L i (u i) hcmi.1
        have hlvt : i < (s.nodeAt (L.getD t 0)).level := by
          rcases hct.2 with h | h
          · exact absurd h ht0
          · exact h
        have hsle : succNat s L i (u i) ≤ t := by
          by_contra h8
          exact hd t (by omega) (by omega) hlvt
        have h9 := hu4 i hi
        omega
    have hmain := removeFinish_spec s L hInv (u 0 + 1) (by omega) hult
      (posSearchUpd s k s.Level 0 (-1)) u hu1 hu0' (fun i hi => (huprop i hi).1) hu3 hu4 hu5
    refine ⟨u 0 + 1, by push_cast; omega, by omega, hult, ?_, ?_, ?_, ?_, ?_⟩
    · rw [hres]
    · rw [hres]
      exact hmain.1
    · rw [hres]
      exact hmain.2.1
    · rw [hres]
      exact hmain.2.2.1
    · rw [hres]
      exact hmain.2.2.2

/-- `Set` on a fresh key: full characterization of the insert path. -/
theorem Set_spec_insert (s : SkipList) (L : List Nat) (hInv : InvAt s L) (nl : Nat)
    (hnl : 1 ≤ nl) (target value : Int)
    (hnf : ¬ (predAtLvl s L 0 target + 1 < L.length ∧
      (s.nodeAt (L.getD (predAtLvl s L 0 target + 1) 0)).key = target)) :
    InvAt (s.Set nl target value).1
        (insertAt L (predAtLvl s L 0 target + 1) s.nodes.length) ∧
    (s.Set nl target value).2
      = (some s.nodes.length, ((predAtLvl s L 0 target : Int) - 1) + 1, true) ∧
    (s.Set nl target value).1.count = s.count + 1 ∧
    ((s.Set nl target value).1.nodeAt s.nodes.length).key = target ∧
    ((s.Set nl target value).1.nodeAt s.nodes.length).value = value ∧
    (s.Set nl target value).1.Level = max s.Level nl ∧
    (s.Set nl target value).1.nodes.length = s.nodes.length + 1 ∧
    (∀ z, z ≠ s.nodes.length →
      ((s.Set nl target value).1.nodeAt z).key = (s.nodeAt z).key ∧
      ((s.Set nl target value).1.nodeAt z).value = (s.nodeAt z).value) :=
  setInsert_spec s L hInv nl hnl target value hnf (s.Set nl target value)
    ((Set_branches s L hInv nl target value).1 hnf)

/-- `Set` on an existing key: value overwritten in place, nothing else moves. -/
theorem Set_spec_override (s : SkipList) (L : List Nat) (hInv : InvAt s L) (nl : Nat)
    (target value : Int)
    (hov : predAtLvl s L 0 target + 1 < L.length ∧
      (s.nodeAt (L.getD (predAtLvl s L 0 target + 1) 0)).key = target) :
    (s.Set nl target value).2
      = (some (L.getD (predAtLvl s L 0 target + 1) 0),
         (predAtLvl s L 0 target : Int) - 1, false) ∧
    InvAt (s.Set nl target value).1 L ∧
    (s.Set nl target value).1.count = s.count ∧
    (s.Set nl target value).1.nodes.length = s.nodes.length ∧
    ((s.Set nl target value).1.nodeAt (L.getD (predAtLvl s L 0 target + 1) 0)).value
      = value ∧
    (∀ z, ((s.Set nl target value).1.nodeAt z).key = (s.nodeAt z).key) ∧
    (∀ z, z ≠ L.getD (predAtLvl s L 0 target + 1) 0 →
      ((s.Set nl target value).1.nodeAt z).value = (s.nodeAt z).value) ∧
    (s.Set nl target value).1.Level = s.Level := by
  have hbr := (Set_branches s L hInv nl target value).2 hov
  have hylt : L.getD (predAtLvl s L 0 target + 1) 0 < s.nodes.length :=
    hInv.2.1 (predAtLvl s L 0 target + 1) hov.1
  have hy0 : L.getD (predAtLvl s L 0 target + 1) 0 ≠ 0 := by
    intro hc
    have h00 : L.getD 0 0 = 0 := hInv.1.2.1
    have hlen : 0 < L.length := List.length_pos.mpr hInv.1.1
    have := getD_inj L hInv.2.2.1 (predAtLvl s L 0 target + 1) 0 hov.1 hlen
      (by rw [h00]; exact hc)
    omega
  rw [hbr]
  dsimp only
  have hself := nodeAt_setNode_self s (L.getD (predAtLvl s L 0 target + 1) 0)
    { s.nodeAt (L.getD (predAtLvl s L 0 target + 1) 0) with value := value } hylt
  refine ⟨rfl, ?_, setNode_count _ _ _, setNode_nodes_length _ _ _, ?_, ?_, ?_, ?_⟩
  · apply InvAt_pointwise s _ L (setNode_count _ _ _) (setNode_nodes_length _ _ _) ?_ hInv
    intro z
    by_cases hz : z = L.getD (predAtLvl s L 0 target + 1) 0
    · subst hz
      rw [hself]
      exact ⟨rfl, rfl, rfl⟩
    · rw [nodeAt_setNode_ne s _ _ z hz]
      exact ⟨rfl, rfl, rfl⟩
  · rw [hself]
  · intro z
    by_cases hz : z = L.getD (predAtLvl s L 0 target + 1) 0
    · subst hz
      rw [hself]
    · rw [nodeAt_setNode_ne s _ _ z hz]
  · intro z hz
    rw [nodeAt_setNode_ne s _ _ z hz]
  · show ((s.setNode _ _).nodeAt 0).level = (s.nodeAt 0).level
    rw [nodeAt_setNode_ne s _ _ 0 (fun hc => hy0 hc.symm)]

/-- A state satisfying the invariant along some spine satisfies it along its
computed spine. -/
theorem InvAt_to_Inv (s' : SkipList) (L : List Nat) (h : InvAt s' L) : Inv s' := by
  have hspine := spine_eq_of s' L h.1 h.2.1 h.2.2.1
  unfold Inv
  rw [hspine]
  exact h

theorem Inv_emptySL : Inv emptySL := by decide

/-- Every valid operation preserves the invariant. -/
theorem applyOp_Inv (s : SkipList) (hInv : Inv s) (op : Op) (hv : op.validB = true) :
    Inv (applyOp s op) := by
  cases op with
  | set lvl key value =>
    have hnl : 1 ≤ lvl := by
      have h7 : Op.validB (Op.set lvl key value) = true := hv
      unfold Op.validB at h7
      exact of_decide_eq_true h7
    show Inv (s.Set lvl key value).1
    by_cases hov : (predAtLvl s (spine s) 0 key + 1 < (spine s).length ∧
        (s.nodeAt ((spine s).getD (predAtLvl s (spine s) 0 key + 1) 0)).key = key)
    · exact InvAt_to_Inv _ _ (Set_spec_override s (spine s) hInv lvl key value hov).2.1
    · exact InvAt_to_Inv _ _ (Set_spec_insert s (spine s) hInv lvl hnl key value hov).1
  | remove key =>
    show Inv (s.Remove key).1
    by_cases hov : (predAtLvl s (spine s) 0 key + 1 < (spine s).length ∧
        (s.nodeAt ((spine s).getD (predAtLvl s (spine s) 0 key + 1) 0)).key = key)
    · exact InvAt_to_Inv _ _ ((Remove_spec s (spine s) hInv key).1 hov).1
    · have h7 := (Remove_spec s (spine s) hInv key).2 hov
      rw [h7]
      exact hInv
  | removeByPos k =>
    show Inv (s.RemoveByPos k).1
    by_cases hg : k < 0 ∨ k ≥ s.count
    · have h7 := (RemoveByPos_spec s (spine s) hInv k).1 hg
      rw [h7]
      exact hInv
    · have hk0 : 0 ≤ k := by
        by_contra h8
        exact hg (Or.inl (by omega))
      have hkc : k < s.count := by
        by_contra h8
        exact hg (Or.inr (by omega))
      obtain ⟨q, hq, h1q, h2q, hres2, hinv', hcnt, hlen', hkv⟩ :=
        (RemoveByPos_spec s (spine s) hInv k).2 hk0 hkc
      exact InvAt_to_Inv _ _ hinv'

/-- Every valid operation sequence from the empty list lands in an invariant
state. -/
theorem runOps_Inv (ops : List Op) (hv : ValidOps ops) : Inv (runOps ops) := by
  have hgen : ∀ (s : SkipList), Inv s → (∀ op ∈ ops, op.validB = true) →
      Inv (ops.foldl applyOp s) := by
    clear hv
    induction ops with
    | nil =>
      intro s hs _
      exact hs
    | cons op ops ih =>
      intro s hs hvv
      rw [List.foldl_cons]
      exact ih (applyOp s op) (applyOp_Inv s hs op (hvv op (List.mem_cons_self _ _)))
        (fun o ho => hvv o (List.mem_cons_of_mem _ ho))
  exact hgen emptySL Inv_emptySL hv

/-- Every reachable state satisfies the full structural invariant. -/
theorem Reachable_Inv (s : SkipList) (h : Reachable s) : Inv s := by
  obtain ⟨ops, hv, hrun⟩ := h
  rw [← hrun]
  exact runOps_Inv ops hv

/-- `Get` on the key stored at spine position `j` finds that tower with rank
`j - 1`. -/
theorem Get_found (s : SkipList) (L : List Nat) (hInv : InvAt s L) (j : Nat)
    (h1 : 1 ≤ j) (h2 : j < L.length) (target : Int)
    (hk : (s.nodeAt (L.getD j 0)).key = target) :
    s.Get target = (some (L.getD j 0), (j : Int) - 1) := by
  have hInv' := hInv
  obtain ⟨⟨hne, h00, hch, hla⟩, hvi, hnd, hco, hlv, hhm, hsk, hdl, hlk⟩ := hInv'
  have hlen : 0 < L.length := List.length_pos.mpr hne
  obtain ⟨hc1, hk1, hs1⟩ := predAtLvl_spec s L h00 hne target 0
  have hp0 : predAtLvl s L 0 target = j - 1 := by
    apply predAt_unique s L h00 hsk target 0 _ (j - 1) hc1 hk1 hs1
    · refine ⟨by omega, ?_⟩
      by_cases hj1 : j - 1 = 0
      · exact Or.inl hj1
      · exact Or.inr (by have := hlv (j - 1) (by omega) (by omega); omega)
    · by_cases hj1 : j - 1 = 0
      · exact Or.inl hj1
      · right
        have h7 := hsk (j - 1) (by omega) j h2 (by omega) (by omega)
        omega
    · rw [succNat_zero s L hlv (j - 1) (by omega)]
      intro h7
      have hj1 : j - 1 + 1 = j := by omega
      rw [hj1, hk]
      omega
  have hpres : predAtLvl s L 0 target + 1 < L.length ∧
      (s.nodeAt (L.getD (predAtLvl s L 0 target + 1) 0)).key = target := by
    constructor
    · omega
    · have hj1 : predAtLvl s L 0 target + 1 = j := by omega
      rw [hj1]
      exact hk
  have hres := (Get_spec s L hInv target).1 hpres
  have hj1 : predAtLvl s L 0 target + 1 = j := by omega
  rw [hj1] at hres
  have h9 : ((predAtLvl s L 0 target : Int) - 1) + 1 = (j : Int) - 1 := by omega
  rw [h9] at hres
  exact hres

/-- `Get` on a key carried by no tower returns the sentinels. -/
theorem Get_absent (s : SkipList) (L : List Nat) (hInv : InvAt s L) (target : Int)
    (habs : ∀ j, 1 ≤ j → j < L.length → (s.nodeAt (L.getD j 0)).key ≠ target) :
    s.Get target = (none, InvalidPos) := by
  apply (Get_spec s L hInv target).2
  intro hpres
  exact habs (predAtLvl s L 0 target + 1) (by omega) hpres.1 hpres.2

/-- C8: inserting keys 3,6,7,9,12,17,19,21,25,26 with forced levels
1,4,1,2,1,2,1,1,3,1 yields ranks 0..9 (both as returned by each `Set` call
and as reported by `Get` afterwards, with each `Get` finding the tower of the
right key); then `RemoveByPos(8)` returns the tower with key 25, after which
`Get(25)` is absent and `Size()` is 9. -/
theorem C8_textbook_scenario :
    runSetRanks scenarioOps emptySL = [0, 1, 2, 3, 4, 5, 6, 7, 8, 9] ∧
    scenarioKeys.map (fun k => ((scenarioSL.Get k).1.map fun x => (scenarioSL.nodeAt x).key))
      = scenarioKeys.map some ∧
    scenarioKeys.map (fun k => (scenarioSL.Get k).2) = [0, 1, 2, 3, 4, 5, 6, 7, 8, 9] ∧
    (scenarioSL.RemoveByPos 8).2 = some 9 ∧
    (scenarioSL.nodeAt 9).key = 25 ∧
    (scenarioSL.RemoveByPos 8).1.Get 25 = (none, InvalidPos) ∧
    (scenarioSL.RemoveByPos 8).1.Size = 9 := by
  decide

/-- C9: out-of-range construction parameters are rejected loudly
(modelled as `none` for the Go `log.Panic`) and exactly they; in-range values
are stored unclamped; defaults are `p = 1/2`, `maxLevel = 64`; a fresh list is
empty with `Size() = 0`. -/
theorem C9_construction_validation :
    (∀ m : Int, WithMaxLevel m = none ↔ m < 1 ∨ m > 512) ∧
    (∀ q : ℚ, WithProbability q = none ↔ q < 1/100 ∨ q > 99/100) ∧
    (∀ m : Int, ∀ f, WithMaxLevel m = some f → ∀ c, (f c).maxLevel = m ∧ (f c).p = c.p) ∧
    (∀ q : ℚ, ∀ f, WithProbability q = some f → ∀ c, (f c).p = q ∧ (f c).maxLevel = c.maxLevel) ∧
    NewSkipList [] = (defaultConfig, emptySL) ∧
    defaultConfig.p = 1/2 ∧ defaultConfig.maxLevel = 64 ∧ emptySL.Size = 0 := by
  refine ⟨fun m => ?_, fun q => ?_, fun m f h c => ?_, fun q f h c => ?_, rfl, rfl, rfl, rfl⟩
  · unfold WithMaxLevel
    constructor
    · intro h
      by_cases hc : m < 1 ∨ m > MaxLevel
      · simpa [MaxLevel] using hc
      · rw [if_neg hc] at h
        exact absurd h (by simp)
    · intro h
      have hc : m < 1 ∨ m > MaxLevel := by simpa [MaxLevel] using h
      rw [if_pos hc]
  · unfold WithProbability
    constructor
    · intro h
      by_cases hc : q < 1/100 ∨ q > 99/100
      · exact hc
      · rw [if_neg hc] at h
        exact absurd h (by simp)
    · intro h
      rw [if_pos h]
  · unfold WithMaxLevel at h
    split at h
    · exact absurd h (by simp)
    · cases h with
      | refl => exact ⟨rfl, rfl⟩
  · unfold WithProbability at h
    split at h
    · exact absurd h (by simp)
    · cases h with
      | refl => exact ⟨rfl, rfl⟩

/-- Witness for C9 at concrete inputs: `maxLevel = 600` and probability `0`
are rejected. -/
theorem C9_construction_validation_witness :
    WithMaxLevel 600 = none ∧ WithProbability 0 = none :=
  ⟨(C9_construction_validation.1 600).mpr (by norm_num),
   (C9_construction_validation.2.1 0).mpr (by norm_num)⟩

/-- C3 counterexample: inserting key 20 (level draw 1) into the one-key
list `{10}`: the recorded `update[0]/updatePos[0]` is `(node 1, 0)`,
`update[0].dist[0]` is 1 before the splice (no head extension occurs), and
`Set` returns insertion rank 1 — so the claim's
`delta = insertionRank - updatePos[0] = 1` predicts a new-tower distance of
`update[0].dist[0] - delta = 0` and a spliced `update[0].dist[0] = delta + 1 = 2`,
but the code produces 1 for both (it uses `delta = pos - updatePos[0] = 0`,
which also refutes `delta ≥ 1`). -/
theorem C3_counterexample :
    searchUpd c3base 20 c3base.Level 0 (-1) = [(1, 0)] ∧
    (c3base.nodeAt 1).distAt 0 = 1 ∧
    c3base.Level = 1 ∧
    (c3base.Set 1 20 0).2.2.1 = 1 ∧
    ((c3base.Set 1 20 0).1.nodeAt 2).distAt 0 = 1 ∧
    ¬ ((c3base.Set 1 20 0).1.nodeAt 2).distAt 0
        = (c3base.nodeAt 1).distAt 0 - ((c3base.Set 1 20 0).2.2.1 - 0) ∧
    ¬ ((c3base.Set 1 20 0).1.nodeAt 1).distAt 0 = ((c3base.Set 1 20 0).2.2.1 - 0) + 1 := by
  decide

/-- C4: evaluating the override path at the failing input.  After
`Set(3, 10)` on the empty list, `Set(3, 20)` overwrites the value in place,
returns the existing tower with `inserted = false`, and changes no link,
distance, count or height — but it returns position `-1` (the predecessor's
recorded rank; the `pos++` of `Get` is missing), while the tower's 0-based
rank is 0 as `Get(3)` reports, contradicting `Set`'s own documentation that
the returned position lies in `0..n-1`. -/
theorem C4_override_rank_bug :
    (c4base.Set 1 3 20).2.2.1 = -1 ∧
    (c4base.Get 3).2 = 0 ∧
    (c4base.Set 1 3 20).2.2.2 = false ∧
    (c4base.Set 1 3 20).2.1 = some 1 ∧
    ((c4base.Set 1 3 20).1.nodeAt 1).value = 20 ∧
    (c4base.Set 1 3 20).1.count = c4base.count ∧
    (c4base.Set 1 3 20).1.nodes.length = c4base.nodes.length ∧
    ((c4base.Set 1 3 20).1.nodeAt 1).next = (c4base.nodeAt 1).next ∧
    ((c4base.Set 1 3 20).1.nodeAt 1).dist = (c4base.nodeAt 1).dist ∧
    (c4base.Set 1 3 20).1.nodeAt 0 = c4base.nodeAt 0 := by
  decide


/-- C3 (amended): on the insert path, at each level `i` strictly below the
new tower's level the splice links `update[i] -> new tower` and assigns the
new tower's distance `update[i].dist[i] - delta` and `update[i]`'s distance
`delta + 1`, where `delta = pos - updatePos[i]
= (insertionRank - 1) - updatePos[i] = p0 - predAtLvl i` is always `>= 0`
and equals `0` at level 0; at levels at or above the new tower's level the
distance is merely incremented with no relinking.  (Here `update[i].dist[i]`
pre-splice equals the level-`i` spine span `succNat - predAtLvl`.) -/
theorem C3_amended_splice (s : SkipList) (L : List Nat) (hInv : InvAt s L) (nl : Nat)
    (hnl : 1 ≤ nl) (target value : Int)
    (hnf : ¬ (predAtLvl s L 0 target + 1 < L.length ∧
      (s.nodeAt (L.getD (predAtLvl s L 0 target + 1) 0)).key = target))
    (i : Nat) (hi : i < max s.Level nl) :
    (0 : Int) ≤ (predAtLvl s L 0 target : Int) - (predAtLvl s L i target : Int) ∧
    (i = 0 → (predAtLvl s L 0 target : Int) - (predAtLvl s L i target : Int) = 0) ∧
    (i < nl →
      ((s.Set nl target value).1.nodeAt s.nodes.length).distAt i
        = ((succNat s L i (predAtLvl s L i target) : Int) - (predAtLvl s L i target : Int))
          - ((predAtLvl s L 0 target : Int) - (predAtLvl s L i target : Int)) ∧
      ((s.Set nl target value).1.nodeAt (L.getD (predAtLvl s L i target) 0)).distAt i
        = ((predAtLvl s L 0 target : Int) - (predAtLvl s L i target : Int)) + 1 ∧
      ((s.Set nl target value).1.nodeAt (L.getD (predAtLvl s L i target) 0)).nextAt i
        = some s.nodes.length) ∧
    (nl ≤ i →
      ((s.Set nl target value).1.nodeAt (L.getD (predAtLvl s L i target) 0)).distAt i
        = (s.nodeAt (L.getD (predAtLvl s L i target) 0)).distAt i + 1 ∧
      ((s.Set nl target value).1.nodeAt (L.getD (predAtLvl s L i target) 0)).nextAt i
        = (s.nodeAt (L.getD (predAtLvl s L i target) 0)).nextAt i) := by
  have hInvO := hInv
  obtain ⟨⟨hne, h00, hch, hla⟩, hvi, hnd, hco, hlv, hhm, hsk, hdl, hlk⟩ := hInv
  have hlen : 0 < L.length := List.length_pos.mpr hne
  have hnlen : L.length ≤ s.nodes.length :=
    length_le_of_nodup_lt L s.nodes.length hnd (validIds_mem s L hvi)
  have h0n : 0 < s.nodes.length := by
    have := hvi 0 hlen
    rw [h00] at this
    exact this
  have hP := fun i => predAtLvl_spec s L h00 hne target i
  obtain ⟨hleft, hright, hPle, hPsucc, hchle⟩ := search_prefacts s L h00 hne hlv hsk target
  set p0 := predAtLvl s L 0 target with hp0def
  have hp0lt : p0 < L.length := (hP 0).1.1
  have hrightS : ∀ t, p0 + 1 ≤ t → t < L.length → target < (s.nodeAt (L.getD t 0)).key := by
    intro t h1 h2
    have h3 := hright t h1 h2
    by_cases hte : t = p0 + 1
    · subst hte
      have : (s.nodeAt (L.getD (p0 + 1) 0)).key ≠ target := fun hc => hnf ⟨by omega, hc⟩
      omega
    · have h4 := hright (p0 + 1) (by omega) (by omega)
      have h5 := hsk (p0 + 1) (by omega) t h2 (by omega) (by omega)
      omega
  have hdl0 : (s.nodeAt 0).dist.length = s.Level := by
    have := hdl 0 hlen
    rw [h00] at this
    exact this
  -- stage states
  have hs1len : (setExtend s nl).nodes.length = s.nodes.length := setExtend_length s nl
  set xid := s.nodes.length with hxiddef
  set s2 : SkipList :=
    { setExtend s nl with nodes := (setExtend s nl).nodes ++ [newNode target value nl] }
    with hs2def
  have hs2len : s2.nodes.length = s.nodes.length + 1 := by
    show ((setExtend s nl).nodes ++ [newNode target value nl]).length = s.nodes.length + 1
    rw [List.length_append, hs1len]
    rfl
  have hs2count : s2.count = s.count := setExtend_count s nl
  have hs2_old : ∀ z, z < s.nodes.length → z ≠ 0 → s2.nodeAt z = s.nodeAt z := by
    intro z hz hz0
    have h1 : SkipList.nodeAt
        { setExtend s nl with nodes := (setExtend s nl).nodes ++ [newNode target value nl] } z
        = (setExtend s nl).nodeAt z :=
      nodeAt_append_lt (setExtend s nl) (newNode target value nl) z (by omega)
    rw [hs2def, h1]
    exact setExtend_other s nl z hz0
  have hs2_head : s2.nodeAt 0 = (setExtend s nl).nodeAt 0 :=
    nodeAt_append_lt (setExtend s nl) (newNode target value nl) 0 (by omega)
  have hs2_xid : s2.nodeAt xid = newNode target value nl := by
    have h1 := nodeAt_append_self (setExtend s nl) (newNode target value nl)
    rw [hs1len] at h1
    exact h1
  have hs2Level : s2.Level = max s.Level nl := by
    show (s2.nodeAt 0).level = _
    rw [hs2_head]
    exact setExtend_head_level s nl h0n
  have hs2_head_distLen : (s2.nodeAt 0).dist.length = max s.Level nl := by
    rw [hs2_head]
    exact setExtend_head_distLen s nl h0n hdl0
  have hs2_head_nextAt : ∀ i, (s2.nodeAt 0).nextAt i
      = if i < s.Level then (s.nodeAt 0).nextAt i else none := by
    intro i
    rw [hs2_head]
    exact setExtend_head_nextAt s nl h0n i
  have hs2_head_distAt : ∀ i, (s2.nodeAt 0).distAt i
      = if i < s.Level then (s.nodeAt 0).distAt i
        else if i < nl then s.count + 1 else 0 := by
    intro i
    rw [hs2_head]
    exact setExtend_head_distAt s nl h0n hdl0 i
  -- the update vector after extension
  set upd1 := extendUpd (searchUpd s target s.Level 0 (-1)) s.Level nl with hupd1def
  have hupdfull := searchUpd_full s L h00 hlk hsk hne hnlen target
  have hmaplen : (searchUpd s target s.Level 0 (-1)).length = s.Level := by
    rw [hupdfull, List.length_map, List.length_range]
  have hupd1get : ∀ i, i < max s.Level nl →
      upd1.getD i (0, -1)
        = (L.getD (predAtLvl s L i target) 0, (predAtLvl s L i target : Int) - 1) := by
    intro i him
    rw [hupd1def]
    unfold extendUpd
    by_cases hext : s.Level < nl
    · rw [if_pos hext]
      by_cases hio : i < s.Level
      · rw [List.getD_append _ _ _ _ (by omega : i < (searchUpd s target s.Level 0 (-1)).length),
          hupdfull, getD_map_range_at _ _ _ _ hio]
      · rw [List.getD_eq_getElem?_getD,
          List.getElem?_append_right (by omega : (searchUpd s target s.Level 0 (-1)).length ≤ i),
          hmaplen, List.getElem?_replicate, if_pos (by omega : i - s.Level < nl - s.Level)]
        rw [predAtLvl_ge_level s L hlv hne i (by omega) target, h00]
        constructor
    · rw [if_neg hext, hupdfull, getD_map_range_at _ _ _ _ (by omega : i < s.Level)]
  have hupd1len : upd1.length = max s.Level nl := by
    rw [hupd1def]
    unfold extendUpd
    by_cases hext : s.Level < nl
    · rw [if_pos hext, List.length_append, hmaplen, List.length_replicate]
      omega
    · rw [if_neg hext, hmaplen]
      omega
  have hu1ne : ∀ i, (upd1.getD i (0, -1)).1 ≠ xid := by
    intro i
    by_cases him : i < max s.Level nl
    · rw [hupd1get i him]
      have := hvi (predAtLvl s L i target) (hP i).1.1
      omega
    · rw [List.getD_eq_getElem?_getD, List.getElem?_eq_none (by omega : upd1.length ≤ i)]
      show (0 : Nat) ≠ xid
      omega
  -- pre-splice slot values of the update towers
  have hslot2 : ∀ i, i < max s.Level nl →
      (s2.nodeAt (L.getD (predAtLvl s L i target) 0)).nextAt i
        = (if succNat s L i (predAtLvl s L i target) < L.length
           then some (L.getD (succNat s L i (predAtLvl s L i target)) 0) else none) ∧
      (s2.nodeAt (L.getD (predAtLvl s L i target) 0)).distAt i
        = (succNat s L i (predAtLvl s L i target) : Int) - (predAtLvl s L i target : Int) ∧
      i < (s2.nodeAt (L.getD (predAtLvl s L i target) 0)).next.length ∧
      i < (s2.nodeAt (L.getD (predAtLvl s L i target) 0)).dist.length := by
    intro i him
    by_cases hio : i < s.Level
    · have hchain := (hP i).1
      have hilvl : i < (s.nodeAt (L.getD (predAtLvl s L i target) 0)).level :=
        chain_lvl s L h00 i (predAtLvl s L i target) hchain hio
      obtain ⟨hdist, hnext⟩ := hlk (predAtLvl s L i target) (hP i).1.1 i hilvl
      by_cases hPz : predAtLvl s L i target = 0
      · rw [hPz, h00] at hdist hnext hilvl ⊢
        refine ⟨?_, ?_, ?_, ?_⟩
        · rw [hs2_head_nextAt i, if_pos hio, hnext]
        · rw [hs2_head_distAt i, if_pos hio, hdist]
        · show i < (s2.nodeAt 0).level
          rw [hs2_head, setExtend_head_level s nl h0n]
          omega
        · rw [hs2_head_distLen]
          omega
      · have hidne : L.getD (predAtLvl s L i target) 0 ≠ 0 := by
          intro hc
          exact hPz (getD_inj L hnd _ _ (hP i).1.1 hlen (by rw [h00]; exact hc))
        have hsame : s2.nodeAt (L.getD (predAtLvl s L i target) 0)
            = s.nodeAt (L.getD (predAtLvl s L i target) 0) :=
          hs2_old _ (hvi _ (hP i).1.1) hidne
        rw [hsame]
        exact ⟨hnext, hdist, hilvl, by rw [hdl _ (hP i).1.1]; exact hilvl⟩
    · have hPz : predAtLvl s L i target = 0 :=
        predAtLvl_ge_level s L hlv hne i (by omega) target
      have hsucc : succNat s L i (predAtLvl s L i target) = L.length := by
        rw [hPz]
        exact succNat_ge_level s L hlv hne i (by omega)
      rw [hsucc, hPz, h00]
      refine ⟨?_, ?_, ?_, ?_⟩
      · rw [hs2_head_nextAt i, if_neg hio, if_neg (by omega)]
      · rw [hs2_head_distAt i, if_neg hio, if_pos (by omega)]
        have hcoeq : s.count = (L.length : Int) - 1 := hco
        omega
      · show i < (s2.nodeAt 0).level
        rw [hs2_head, setExtend_head_level s nl h0n]
        omega
      · rw [hs2_head_distLen]
        omega
  have hvalid_x : ∀ i, i < max s.Level nl → i < nl →
      xid < s2.nodes.length ∧ i < (s2.nodeAt xid).next.length ∧
      i < (s2.nodeAt xid).dist.length := by
    intro i _ hinl
    rw [hs2_xid]
    refine ⟨by omega, ?_, ?_⟩
    · show i < (List.replicate nl (none : Option Nat)).length
      rw [List.length_replicate]
      exact hinl
    · show i < (List.replicate nl (0 : Int)).length
      rw [List.length_replicate]
      exact hinl
  have hslots := spliceRange_slots s2 upd1 ((p0 : Int) - 1) nl xid hu1ne (max s.Level nl)
    (by
      intro i hi
      rw [hupd1get i hi]
      have h := hslot2 i hi
      exact ⟨by have := hvi (predAtLvl s L i target) (hP i).1.1; omega, h.2.2.1, h.2.2.2⟩)
    (fun i hi hinl => hvalid_x i hi hinl)
  set s3 := spliceRange s2 upd1 ((p0 : Int) - 1) nl xid (max s.Level nl) with hs3def
  have hbr := (Set_branches s L hInvO nl target value).1 hnf
  have hrval : s.Set nl target value = ({ s3 with count := s3.count + 1 },
      (some xid, ((p0 : Int) - 1) + 1, true)) := by
    rw [hbr]
    have h0 : setInsert s (searchUpd s target s.Level 0 (-1)) ((p0 : Int) - 1) nl target value
        = ({ spliceRange s2 upd1 ((p0 : Int) - 1) nl (setExtend s nl).nodes.length s2.Level
              with count := (spliceRange s2 upd1 ((p0 : Int) - 1) nl
                (setExtend s nl).nodes.length s2.Level).count + 1 },
           (some (setExtend s nl).nodes.length, ((p0 : Int) - 1) + 1, true)) := rfl
    rw [h0, hs1len, hs2Level]
  rw [hrval]
  dsimp only
  have hs4node : ∀ z, ({ s3 with count := s3.count + 1 } : SkipList).nodeAt z
      = s3.nodeAt z := fun z => rfl
  refine ⟨?_, ?_, ?_, ?_⟩
  · have := hPle i
    omega
  · intro h0i
    subst h0i
    omega
  · intro hinl
    obtain ⟨hnx, hds⟩ := ((hslots xid i).2.2 hi rfl).1 hinl
    rw [hupd1get i hi] at hnx hds
    dsimp only at hnx hds
    obtain ⟨hsn, hsd, _, _⟩ := hslot2 i hi
    obtain ⟨hun, hud⟩ :=
      ((hslots (L.getD (predAtLvl s L i target) 0) i).2.1 hi (by rw [hupd1get i hi])).1 hinl
    have hu2 : (upd1.getD i (0, -1)).2 = (predAtLvl s L i target : Int) - 1 := by
      rw [hupd1get i hi]
    rw [hu2] at hud
    refine ⟨?_, ?_, ?_⟩
    · rw [hs4node, hds, hsd]
      push_cast
      omega
    · rw [hs4node, hud]
      push_cast
      omega
    · rw [hs4node, hun]
  · intro hge
    have hiS : i < s.Level := by
      rcases lt_max_iff.mp hi with h | h
      · exact h
      · omega
    obtain ⟨hun, hud⟩ :=
      ((hslots (L.getD (predAtLvl s L i target) 0) i).2.1 hi (by rw [hupd1get i hi])).2 hge
    by_cases hPz : predAtLvl s L i target = 0
    · rw [hPz, h00] at hun hud ⊢
      constructor
      · rw [hs4node, hud, hs2_head_distAt i, if_pos hiS]
      · rw [hs4node, hun, hs2_head_nextAt i, if_pos hiS]
    · have hidne : L.getD (predAtLvl s L i target) 0 ≠ 0 := fun hc => hPz
        (getD_inj L hnd _ _ (hP i).1.1 hlen (by rw [h00]; exact hc))
      have hsame := hs2_old _ (hvi _ (hP i).1.1) hidne
      constructor
      · rw [hs4node, hud, hsame]
      · rw [hs4node, hun, hsame]

theorem C3_amended_splice_witness :
    ((c3base.Set 1 20 0).1.nodeAt c3base.nodes.length).distAt 0
      = ((succNat c3base (spine c3base) 0 (predAtLvl c3base (spine c3base) 0 20) : Int)
          - (predAtLvl c3base (spine c3base) 0 20 : Int))
        - ((predAtLvl c3base (spine c3base) 0 20 : Int)
          - (predAtLvl c3base (spine c3base) 0 20 : Int)) :=
  ((C3_amended_splice c3base (spine c3base) (by decide) 1 (by decide) 20 0 (by decide) 0
      (by decide)).2.2.1 (by decide)).1

/-- C1: in every reachable state, for every spine position (the head sentinel
at position 0 has rank `-1`, the tower at position `j` has rank `j - 1`) and
every level the tower participates in, the stored distance equals the rank
difference to the tower the forward reference points to, or `Size - rank` to
the virtual end when the reference is nil. -/
theorem C1_distance_invariant (s : SkipList) (hs : Reachable s) :
    ∀ j, j < (spine s).length → ∀ i, i < (s.nodeAt ((spine s).getD j 0)).level →
      (∀ k, k < (spine s).length →
        (s.nodeAt ((spine s).getD j 0)).nextAt i = some ((spine s).getD k 0) →
        (s.nodeAt ((spine s).getD j 0)).distAt i = ((k : Int) - 1) - ((j : Int) - 1)) ∧
      ((s.nodeAt ((spine s).getD j 0)).nextAt i = none →
        (s.nodeAt ((spine s).getD j 0)).distAt i = s.Size - ((j : Int) - 1)) := by
  have hInv := Reachable_Inv s hs
  obtain ⟨⟨hne, h00, hch, hla⟩, hvi, hnd, hco, hlv, hhm, hsk, hdl, hlk⟩ := hInv
  intro j hj i hi
  obtain ⟨hdist, hnext⟩ := hlk j hj i hi
  constructor
  · intro k hk hsome
    rw [hnext] at hsome
    by_cases hS : succNat s (spine s) i j < (spine s).length
    · rw [if_pos hS] at hsome
      injection hsome with h7
      have h8 := getD_inj (spine s) hnd _ _ hS hk h7
      rw [hdist, ← h8]
      omega
    · rw [if_neg hS] at hsome
      exact Option.noConfusion hsome
  · intro hnone
    rw [hnext] at hnone
    by_cases hS : succNat s (spine s) i j < (spine s).length
    · rw [if_pos hS] at hnone
      exact Option.noConfusion hnone
    · obtain ⟨ha, hb, hc, hd⟩ := succNat_spec s (spine s) i j hj
      have hScount : succNat s (spine s) i j = (spine s).length := by omega
      have hcoeq : s.count = ((spine s).length : Int) - 1 := hco
      have hSize : s.Size = s.count := rfl
      rw [hdist, hSize]
      omega

theorem C1_distance_invariant_witness :
    ((runOps [Op.set 1 5 50]).nodeAt ((spine (runOps [Op.set 1 5 50])).getD 1 0)).distAt 0
      = (runOps [Op.set 1 5 50]).Size - (((1 : Nat) : Int) - 1) :=
  (C1_distance_invariant (runOps [Op.set 1 5 50]) ⟨[Op.set 1 5 50], by intro op hop; rw [List.mem_singleton.mp hop]; decide, rfl⟩
      1 (by decide) 0 (by decide)).2 (by decide)

theorem getD_tail_eq (L : List Nat) (hne : L ≠ []) (h00 : L.getD 0 0 = 0) (t : Nat)
    (h1 : 1 ≤ t) : L.getD t 0 = L.tail.getD (t - 1) 0 := by
  have hLh : L = 0 :: L.tail := head_cons_tail L hne h00
  have hstep : ∀ (M : List Nat) (n : Nat), M = 0 :: L.tail →
      M.getD (n + 1) 0 = L.tail.getD n 0 := by
    intro M n hM
    rw [hM, List.getD_cons_succ]
  have ht0 : t = (t - 1) + 1 := by omega
  conv_lhs => rw [ht0]
  exact hstep L (t - 1) hLh

/-- C2: in every reachable state, `GetByPos(k)` for `0 ≤ k < Size` returns
exactly the `k`-th element of the ascending `First`/`Next` iteration, and
`Get` on a stored key returns that key's tower with rank equal to its 0-based
iteration position (the tower at spine position `j` sits at iteration
position `j - 1`). -/
theorem C2_rank_consistency (s : SkipList) (hs : Reachable s) :
    (∀ k : Int, 0 ≤ k → k < s.Size →
      ∃ t : Nat, (t : Int) = k ∧ t < (iterTowers s).length ∧
        s.GetByPos k = some ((iterTowers s).getD t 0)) ∧
    (∀ j, 1 ≤ j → j < (spine s).length →
      s.Get ((s.nodeAt ((spine s).getD j 0)).key)
        = (some ((spine s).getD j 0), (j : Int) - 1) ∧
      (spine s).getD j 0 = (iterTowers s).getD (j - 1) 0) := by
  have hInv := Reachable_Inv s hs
  have hInv2 := hInv
  obtain ⟨⟨hne, h00, hch, hla⟩, hvi, hnd, hco, hlv, hhm, hsk, hdl, hlk⟩ := hInv2
  constructor
  · intro k hk0 hkc
    obtain ⟨t, ht, htlen, hres⟩ := (GetByPos_spec s (spine s) hInv k).2 hk0 hkc
    have ht1 : 1 ≤ t := by omega
    refine ⟨t - 1, by omega, ?_, ?_⟩
    · have h7 := List.length_tail (spine s)
      show t - 1 < (spine s).tail.length
      omega
    · rw [hres, getD_tail_eq (spine s) hne h00 t ht1]
      rfl
  · intro j h1 h2
    exact ⟨Get_found s (spine s) hInv j h1 h2 _ rfl,
      getD_tail_eq (spine s) hne h00 j h1⟩

theorem C2_rank_consistency_witness :
    (runOps [Op.set 1 5 50]).Get
        (((runOps [Op.set 1 5 50]).nodeAt ((spine (runOps [Op.set 1 5 50])).getD 1 0)).key)
      = (some ((spine (runOps [Op.set 1 5 50])).getD 1 0), ((1 : Nat) : Int) - 1) :=
  ((C2_rank_consistency (runOps [Op.set 1 5 50]) ⟨[Op.set 1 5 50], by intro op hop; rw [List.mem_singleton.mp hop]; decide, rfl⟩).2
    1 (by decide) (by decide)).1

/-- C5: round-trips in every reachable state: `Set(k, v)` (with any valid
level draw) makes `Get(k)` find a tower whose value is `v`; a `Remove(k)`
that returns a tower makes `Get(k)` absent and drops `Size()` by exactly 1. -/
theorem C5_roundtrip (s : SkipList) (hs : Reachable s) (nl : Nat) (hnl : 1 ≤ nl)
    (k v : Int) :
    (∃ y, ((s.Set nl k v).1.Get k).1 = some y ∧
      ((s.Set nl k v).1.nodeAt y).value = v) ∧
    (∀ y, (s.Remove k).2.1 = some y →
      (s.Remove k).1.Get k = (none, InvalidPos) ∧
      (s.Remove k).1.Size = s.Size - 1) := by
  have hInv := Reachable_Inv s hs
  have hInv2 := hInv
  obtain ⟨⟨hne, h00, hch, hla⟩, hvi, hnd, hco, hlv, hhm, hsk, hdl, hlk⟩ := hInv2
  have hlen : 0 < (spine s).length := List.length_pos.mpr hne
  obtain ⟨hleft, hright, hPle, hPsucc, hchle⟩ :=
    search_prefacts s (spine s) h00 hne hlv hsk k
  constructor
  · by_cases hov : (predAtLvl s (spine s) 0 k + 1 < (spine s).length ∧
        (s.nodeAt ((spine s).getD (predAtLvl s (spine s) 0 k + 1) 0)).key = k)
    · obtain ⟨htup, hInvA, hcnt, hlenA, hval, hkeys, hvals, hLvl⟩ :=
        Set_spec_override s (spine s) hInv nl k v hov
      refine ⟨(spine s).getD (predAtLvl s (spine s) 0 k + 1) 0, ?_, hval⟩
      have hget := Get_found (s.Set nl k v).1 (spine s) hInvA
        (predAtLvl s (spine s) 0 k + 1) (by omega) hov.1 k (by rw [hkeys]; exact hov.2)
      rw [hget]
    · obtain ⟨hInvA, htup, hcnt, hkey, hval, hLvl, hlenA, hold⟩ :=
        Set_spec_insert s (spine s) hInv nl hnl k v hov
      refine ⟨s.nodes.length, ?_, hval⟩
      have hp0lt : predAtLvl s (spine s) 0 k < (spine s).length :=
        (predAtLvl_spec s (spine s) h00 hne k 0).1.1
      have hgd : (insertAt (spine s) (predAtLvl s (spine s) 0 k + 1) s.nodes.length).getD
          (predAtLvl s (spine s) 0 k + 1) 0 = s.nodes.length :=
        getD_insertAt_self _ _ _ _ (by omega)
      have hget := Get_found (s.Set nl k v).1 _ hInvA
        (predAtLvl s (spine s) 0 k + 1) (by omega)
        (by rw [length_insertAt _ _ _ (by omega)]; omega) k (by rw [hgd]; exact hkey)
      rw [hget, hgd]
  · intro y hy
    by_cases hov : (predAtLvl s (spine s) 0 k + 1 < (spine s).length ∧
        (s.nodeAt ((spine s).getD (predAtLvl s (spine s) 0 k + 1) 0)).key = k)
    · obtain ⟨hInvA, htup, hcnt, hlenA, hkv⟩ := (Remove_spec s (spine s) hInv k).1 hov
      constructor
      · apply Get_absent (s.Remove k).1
          (eraseAt (spine s) (predAtLvl s (spine s) 0 k + 1)) hInvA k
        intro t h1 h2
        rw [(hkv _).1]
        rw [length_eraseAt _ _ hov.1] at h2
        by_cases hta : t < predAtLvl s (spine s) 0 k + 1
        · rw [getD_eraseAt_lt _ _ _ _ hta (by omega)]
          have h7 := hleft t h1 (by omega)
          omega
        · rw [getD_eraseAt_ge _ _ _ _ (by omega) (by omega)]
          have h10 := hsk (predAtLvl s (spine s) 0 k + 1) hov.1 (t + 1) (by omega)
            (by omega) (by omega)
          have h11 := hov.2
          omega
      · show (s.Remove k).1.count = s.count - 1
        exact hcnt
    · have h7 := (Remove_spec s (spine s) hInv k).2 hov
      rw [h7] at hy
      exact Option.noConfusion hy

theorem C5_roundtrip_witness :
    ∃ y, ((emptySL.Set 1 7 70).1.Get 7).1 = some y ∧
      ((emptySL.Set 1 7 70).1.nodeAt y).value = 70 :=
  (C5_roundtrip emptySL ⟨[], fun op hop => absurd hop (List.not_mem_nil op), rfl⟩ 1 (by decide) 7 70).1

/-- C6: not-found conditions are ordinary sentinel results and never touch
the state: `Get`/`Remove` on an absent key return `(nil, InvalidPos = -1)`
with the state unchanged, `GetByPos`/`RemoveByPos` out of range return `nil`
with the state unchanged; in particular `GetByPos (-1)` and `GetByPos n`
return `nil`, and on an empty list all four return their sentinels. -/
theorem C6_sentinels (s : SkipList) (hs : Reachable s) :
    InvalidPos = -1 ∧
    (∀ target, (∀ j, 1 ≤ j → j < (spine s).length →
        (s.nodeAt ((spine s).getD j 0)).key ≠ target) →
      s.Get target = (none, InvalidPos) ∧ s.Remove target = (s, (none, InvalidPos))) ∧
    (∀ k : Int, k < 0 ∨ s.Size ≤ k →
      s.GetByPos k = none ∧ s.RemoveByPos k = (s, none)) ∧
    (s.GetByPos (-1) = none ∧ s.GetByPos s.Size = none) ∧
    (s.Size = 0 → ∀ target k,
      s.Get target = (none, InvalidPos) ∧ s.Remove target = (s, (none, InvalidPos)) ∧
      s.GetByPos k = none ∧ s.RemoveByPos k = (s, none)) := by
  have hInv := Reachable_Inv s hs
  have hInv2 := hInv
  obtain ⟨⟨hne, h00, hch, hla⟩, hvi, hnd, hco, hlv, hhm, hsk, hdl, hlk⟩ := hInv2
  have habs_remove : ∀ target, (∀ j, 1 ≤ j → j < (spine s).length →
      (s.nodeAt ((spine s).getD j 0)).key ≠ target) →
      s.Remove target = (s, (none, InvalidPos)) := by
    intro target habs
    apply (Remove_spec s (spine s) hInv target).2
    intro hpres
    exact habs _ (by omega) hpres.1 hpres.2
  refine ⟨rfl, ?_, ?_, ?_, ?_⟩
  · intro target habs
    exact ⟨Get_absent s (spine s) hInv target habs, habs_remove target habs⟩
  · intro k hk
    exact ⟨(GetByPos_spec s (spine s) hInv k).1 hk,
      (RemoveByPos_spec s (spine s) hInv k).1 hk⟩
  · constructor
    · exact (GetByPos_spec s (spine s) hInv (-1)).1 (Or.inl (by omega))
    · exact (GetByPos_spec s (spine s) hInv s.Size).1 (Or.inr (le_refl _))
  · intro h0 target k
    have hc0 : s.count = 0 := h0
    have hcoeq : s.count = ((spine s).length : Int) - 1 := hco
    have hlen1 : (spine s).length = 1 := by omega
    have habs : ∀ j, 1 ≤ j → j < (spine s).length →
        (s.nodeAt ((spine s).getD j 0)).key ≠ target := by
      intro j h1 h2
      rw [hlen1] at h2
      exact absurd h1 (by omega)
    have hg : k < 0 ∨ k ≥ s.count := by
      rcases Int.lt_or_le k 0 with h | h
      · exact Or.inl h
      · exact Or.inr (by omega)
    exact ⟨Get_absent s (spine s) hInv target habs, habs_remove target habs,
      (GetByPos_spec s (spine s) hInv k).1 hg, (RemoveByPos_spec s (spine s) hInv k).1 hg⟩

theorem C6_sentinels_witness :
    (runOps [Op.set 1 5 50]).GetByPos (-1) = none :=
  (C6_sentinels (runOps [Op.set 1 5 50]) ⟨[Op.set 1 5 50], by intro op hop; rw [List.mem_singleton.mp hop]; decide, rfl⟩).2.2.2.1.1

/-- C7: in every reachable state the head's level equals the maximum level
among the current towers (0 when empty) and the topmost head pointer is never
nil (so no all-empty top level survives any operation, removals included);
during `Set` the height becomes `max height newLevel` on an insert (growth
exactly when the drawn level exceeds it) and is unchanged on an override. -/
theorem C7_height_invariant (s : SkipList) (hs : Reachable s) :
    s.Level = maxTowerLevel s ∧
    (s.Size = 0 → s.Level = 0) ∧
    (1 ≤ s.Level → (s.nodeAt 0).nextAt (s.Level - 1) ≠ none) ∧
    (∀ nl, 1 ≤ nl → ∀ key value,
      (¬ (predAtLvl s (spine s) 0 key + 1 < (spine s).length ∧
          (s.nodeAt ((spine s).getD (predAtLvl s (spine s) 0 key + 1) 0)).key = key) →
        (s.Set nl key value).1.Level = max s.Level nl) ∧
      ((predAtLvl s (spine s) 0 key + 1 < (spine s).length ∧
          (s.nodeAt ((spine s).getD (predAtLvl s (spine s) 0 key + 1) 0)).key = key) →
        (s.Set nl key value).1.Level = s.Level)) := by
  have hInv := Reachable_Inv s hs
  have hInv2 := hInv
  obtain ⟨⟨hne, h00, hch, hla⟩, hvi, hnd, hco, hlv, hhm, hsk, hdl, hlk⟩ := hInv2
  refine ⟨hhm, ?_, ?_, ?_⟩
  · intro h0
    have hc0 : s.count = 0 := h0
    have hcoeq : s.count = ((spine s).length : Int) - 1 := hco
    have htail : (spine s).tail = [] := by
      apply List.eq_nil_of_length_eq_zero
      have h7 := List.length_tail (spine s)
      omega
    have h9 : s.Level = maxLevelOver s (spine s).tail := hhm
    rw [h9, htail]
    rfl
  · intro hL1 hcon
    have hm1 : s.Level - 1 < (s.nodeAt 0).level := by
      have h5 : (s.nodeAt 0).level = s.Level := rfl
      omega
    have h0len : 0 < (spine s).length := List.length_pos.mpr hne
    obtain ⟨hdist, hnext⟩ := hlk 0 h0len (s.Level - 1) (by rw [h00]; exact hm1)
    rw [h00] at hnext
    have htne : (spine s).tail ≠ [] := by
      intro hc
      have h9 : s.Level = maxLevelOver s (spine s).tail := hhm
      rw [hc] at h9
      have h10 : s.Level = 0 := by
        rw [h9]
        rfl
      omega
    obtain ⟨a, hat, haeq⟩ := maxLevelOver_mem s (spine s).tail htne
    obtain ⟨t, ht1, ht2, ht3⟩ := mem_tail_pos (spine s) hne h00 a hat
    have hlvla : s.Level - 1 < (s.nodeAt ((spine s).getD t 0)).level := by
      rw [ht3]
      have h9 : s.Level = maxLevelOver s (spine s).tail := hhm
      omega
    obtain ⟨ha2, hb2, hc2, hd2⟩ := succNat_spec s (spine s) (s.Level - 1) 0 h0len
    have hsle : succNat s (spine s) (s.Level - 1) 0 ≤ t := by
      by_contra h8
      exact hd2 t (by omega) (by omega) hlvla
    rw [hnext, if_pos (by omega)] at hcon
    exact Option.noConfusion hcon
  · intro nl hnl key value
    constructor
    · intro hnf
      exact (Set_spec_insert s (spine s) hInv nl hnl key value hnf).2.2.2.2.2.1
    · intro hov
      exact (Set_spec_override s (spine s) hInv nl key value hov).2.2.2.2.2.2.2

theorem C7_height_invariant_witness :
    (runOps [Op.set 1 5 50]).Level = maxTowerLevel (runOps [Op.set 1 5 50]) :=
  (C7_height_invariant (runOps [Op.set 1 5 50]) ⟨[Op.set 1 5 50], by intro op hop; rw [List.mem_singleton.mp hop]; decide, rfl⟩).1

/-- C10: every public operation is total on the empty list, whose head is
created at level 0 with no forward links: `First`, `Get`, `Remove`,
`GetByPos` and `RemoveByPos` return their documented sentinels for every
argument, `Set` (with a valid level draw) inserts and reports `(true)` with
the size becoming 1, and `Node.Next` on a level-0 node is `nil` (the
level-0 link is only read behind the level check). -/
theorem C10_empty_totality :
    emptySL.First = none ∧
    (emptySL.nodeAt 0).level = 0 ∧
    (∀ key, emptySL.Get key = (none, InvalidPos)) ∧
    (∀ key, emptySL.Remove key = (emptySL, (none, InvalidPos))) ∧
    (∀ k, emptySL.GetByPos k = none) ∧
    (∀ k, emptySL.RemoveByPos k = (emptySL, none)) ∧
    (∀ nl key value, 1 ≤ nl →
      (emptySL.Set nl key value).2.2.2 = true ∧
      (emptySL.Set nl key value).1.Size = 1) ∧
    (∀ n : Node, n.level = 0 → n.Next = none) := by
  have hInv : InvAt emptySL (spine emptySL) := Inv_emptySL
  have hlen1 : (spine emptySL).length = 1 := by decide
  have habs : ∀ target : Int, ∀ j, 1 ≤ j → j < (spine emptySL).length →
      (emptySL.nodeAt ((spine emptySL).getD j 0)).key ≠ target := by
    intro target j h1 h2
    rw [hlen1] at h2
    exact absurd h1 (by omega)
  have hnopres : ∀ key : Int,
      ¬ (predAtLvl emptySL (spine emptySL) 0 key + 1 < (spine emptySL).length ∧
        (emptySL.nodeAt
          ((spine emptySL).getD (predAtLvl emptySL (spine emptySL) 0 key + 1) 0)).key
            = key) := by
    intro key hpres
    have h7 := hpres.1
    rw [hlen1] at h7
    omega
  have hguard : ∀ k : Int, k < 0 ∨ k ≥ emptySL.count := by
    intro k
    rcases Int.lt_or_le k 0 with h | h
    · exact Or.inl h
    · exact Or.inr h
  refine ⟨by decide, by decide, ?_, ?_, ?_, ?_, ?_, ?_⟩
  · intro key
    exact Get_absent emptySL (spine emptySL) hInv key (habs key)
  · intro key
    exact (Remove_spec emptySL (spine emptySL) hInv key).2 (hnopres key)
  · intro k
    exact (GetByPos_spec emptySL (spine emptySL) hInv k).1 (hguard k)
  · intro k
    exact (RemoveByPos_spec emptySL (spine emptySL) hInv k).1 (hguard k)
  · intro nl key value hnl
    obtain ⟨hInvA, htup, hcnt, hkey, hval, hLvl, hlenA, hold⟩ :=
      Set_spec_insert emptySL (spine emptySL) hInv nl hnl key value (hnopres key)
    constructor
    · rw [htup]
    · show (emptySL.Set nl key value).1.count = 1
      rw [hcnt]
      decide
  · intro n h
    rw [Node.Next_eq_nextAt]
    apply Node.nextAt_none
    have h2 : n.next.length = 0 := h
    omega

theorem C10_empty_totality_witness :
    emptySL.GetByPos 0 = none :=
  C10_empty_totality.2.2.2.2.1 0

end GoSkipList
